import Mathlib

/-!
# AAFPK: chameleon hash and authentication tree

A shallow embedding of `src/chameleonhash.cpp` and `src/authenticator.cpp`.

Conventions of the embedding.

* A 32-byte array (`sk_t`, `W`, `rand_t`, `digest_t`) is represented by the
  natural number it encodes in big-endian order; two such arrays are equal
  exactly when their numbers are.
* Byte strings of other lengths (`hash_t`, `pk_t`, `mesg_t`, `st_t`, `ct_t`)
  are lists of bytes.
* The curve group is cyclic of prime order `q` with generator `g`, so every
  group element is `g^a` for exactly one `a < q`.  A group element is
  represented by that exponent; the point at infinity is the exponent `0`.
* What the program takes from outside (the group order, the point encoding,
  SHA-256, HMAC-SHA-256, the `Prf` class, the configuration constants) is
  collected in the record `Env`.  The theorems hold for every environment
  with a prime group order and a point encoding that parsing inverts
  (`Env.Valid`); they are evaluated on `demoEnv`, which has the group order
  of secp256k1 and stand-ins for the hash functions.
* A C++ `int` is an `Int`.  Loops whose trip count depends on data take a
  `fuel` budget; `Error.out_of_fuel` is not a C++ outcome, it says that the
  budget did not suffice (for a loop that never exits, no budget does).
* A method that may assign members of its object returns the object after the
  call together with the outcome, also when it throws.  Reference parameters
  that a method writes (`r2` of `collision`, `t` of `authenticate`) are
  passed in and returned in the same way.
* A call of a public method of `Authenticator` is a `Call`; `Authenticator.run`
  gives the instance after a sequence of calls.
* The method `ChameleonHash::mergeV`, which is not among the sources, is a
  parameter of `Authenticator.verifys`.
-/

namespace AAFPK

/-! ## Errors -/

/-- The exceptions thrown in the two source files, one constructor per
`throw` (with the message of the source), the abort of a failed `assert`,
and the exhausted loop budget of the embedding. -/
inductive Error where
  /-- The `std::invalid_argument("not a valid public key")` exception. -/
  | invalid_public_key
  /-- The `std::invalid_argument("zero is not a valid secret key")` exception. -/
  | zero_secret_key
  /-- The `std::logic_error("no secret key available")` exception. -/
  | no_secret_key
  /-- The `std::invalid_argument("overflow in randomness")` exception. -/
  | overflow
  /-- The `std::logic_error("cannot serialize chameleon hash")` exception. -/
  | cannot_serialize
  /-- The `std::logic_error("cannot authenticate without secret key")` exception. -/
  | cannot_authenticate
  /-- The `std::invalid_argument("t1 does not verify")` exception. -/
  | t1_does_not_verify
  /-- The `std::invalid_argument("t2 does not verify")` exception. -/
  | t2_does_not_verify
  /-- The `std::runtime_error("t1 and t2 are not extractable ...")` exception. -/
  | not_extractable
  /-- The abort of `assert(subTreeX == rootDigest)`. -/
  | assertion_failed
  /-- The result of `getPk` is unspecified (read of an uninitialised `int`). -/
  | unspecified
  /-- The loop budget of the embedding ran out. -/
  | out_of_fuel
  deriving DecidableEq, Repr

/-- Equality of outcomes is decidable. -/
instance instDecidableEqExcept {ε α : Type} [DecidableEq ε] [DecidableEq α] :
    DecidableEq (Except ε α) := fun x y =>
  match x, y with
  | .ok a, .ok b =>
    if h : a = b then isTrue (by rw [h]) else isFalse (fun h2 => h (Except.ok.inj h2))
  | .error a, .error b =>
    if h : a = b then isTrue (by rw [h]) else isFalse (fun h2 => h (Except.error.inj h2))
  | .ok _, .error _ => isFalse (fun h => Except.noConfusion h)
  | .error _, .ok _ => isFalse (fun h => Except.noConfusion h)

/-- The errors of the class "missing capability": the operation needs the
secret key and the instance has none. -/
def Error.isNoSecretKey (e : Error) : Bool :=
  e = Error.no_secret_key || e = Error.cannot_authenticate

/-- The errors of the class "verification failure". -/
def Error.isVerificationFailure (e : Error) : Bool :=
  e = Error.t1_does_not_verify || e = Error.t2_does_not_verify

/-! ## Scalars modulo the group order -/

/-- Square-and-multiply exponentiation modulo `q`; the first argument bounds
the number of halvings of the exponent. -/
def powModAux (q : Nat) : Nat → Nat → Nat → Nat
  | 0, _, _ => 1 % q
  | fuel + 1, b, e =>
    if e = 0 then 1 % q
    else if e % 2 = 1 then (b * powModAux q fuel (b * b % q) (e / 2)) % q
    else powModAux q fuel (b * b % q) (e / 2)

/-- The power `b ^ e` modulo `q`. -/
def powMod (q b e : Nat) : Nat := powModAux q e b e

/-- Function `secp256k1_scalar_set_b32`: the scalar encoded by 32 bytes,
reduced modulo the group order, and the overflow flag. -/
def secp256k1_scalar_set_b32 (q b32 : Nat) : Nat × Bool := (b32 % q, decide (q ≤ b32))

/-- Function `secp256k1_scalar_get_b32`: the 32 bytes of a scalar. -/
def secp256k1_scalar_get_b32 (q a : Nat) : Nat := a % q

/-- Function `secp256k1_scalar_add`. -/
def secp256k1_scalar_add (q a b : Nat) : Nat := (a + b) % q

/-- Function `secp256k1_scalar_mul`. -/
def secp256k1_scalar_mul (q a b : Nat) : Nat := (a * b) % q

/-- Function `secp256k1_scalar_negate`. -/
def secp256k1_scalar_negate (q a : Nat) : Nat := (q - a % q) % q

/-- Function `secp256k1_scalar_inverse`: the power `a ^ (q - 2)`, which is the
inverse of a non-zero scalar and `0` for the zero scalar. -/
def secp256k1_scalar_inverse (q a : Nat) : Nat := powMod q a (q - 2)

/-- Function `secp256k1_scalar_is_zero`. -/
def secp256k1_scalar_is_zero (a : Nat) : Bool := decide (a = 0)

/-- The loop
`while (n) { if (n & 1) add(&a, &a, &x); add(&x, &x, &x); n >>= 1; }`
that occurs in the holder constructor, `ch`, `collision` and `extract`.
It returns the final `a`, or `none` when the budget is used up. -/
def shiftAddLoop (q : Nat) : Nat → Nat → Nat → Int → Option Nat
  | 0, a, _, n => if n = 0 then some a else none
  | fuel + 1, a, x, n =>
    if n = 0 then some a
    else
      shiftAddLoop q fuel
        (if n % 2 ≠ 0 then secp256k1_scalar_add q a x else a)
        (secp256k1_scalar_add q x x)
        (n >>> (1 : Nat))

/-! ## Group elements -/

/-- Function `secp256k1_ecmult_gen`: the point `g^s`. -/
def secp256k1_ecmult_gen (q s : Nat) : Nat := s % q

/-- Function `secp256k1_ecmult`: the point `a^na * g^ng`. -/
def secp256k1_ecmult (q a na ng : Nat) : Nat := (na * a + ng) % q

/-- Function `secp256k1_ge_is_infinity`. -/
def secp256k1_ge_is_infinity (a : Nat) : Bool := decide (a = 0)

/-! ## Tree nodes -/

/-- Modelled from the spec: the class `Node` of `node.h` is not among the
sources.  A node is a bit-path prefix of the context; the list holds the path
bits from the node up to the root (deepest step first), `false` being a step
to the left.  The root is the empty path. -/
abbrev Node := List Bool

/-- Modelled from the spec: `Node::isRoot`. -/
def Node.isRoot (node : Node) : Bool := node.isEmpty

/-- Modelled from the spec: `Node::isLeftChild`. -/
def Node.isLeftChild : Node → Bool
  | [] => false
  | b :: _ => !b

/-- Modelled from the spec: `Node::moveToSibling`. -/
def Node.moveToSibling : Node → Node
  | [] => []
  | b :: up => (!b) :: up

/-- Modelled from the spec: `Node::moveToParent`. -/
def Node.moveToParent : Node → Node
  | [] => []
  | _ :: up => up

/-- Modelled from the spec: `Node::leftChildOfRoot`. -/
def Node.leftChildOfRoot : Node := [false]

/-- The eight bits of a byte, most significant first. -/
def byteBits (b : Nat) : List Bool :=
  (List.range 8).map (fun i => decide (b / 2 ^ (7 - i) % 2 = 1))

/-- Modelled from the spec: the constructor `Node(ct)`, the leaf selected by
the context: its path from the root is the bit string of the context, so its
depth is eight times the length of the context. -/
def Node.ofContext (ct : List Nat) : Node := (ct.flatMap byteBits).reverse

/-! ## The environment -/

/-- What the two source files take from outside. -/
structure Env where
  /-- The order of the curve group. -/
  q : Nat
  /-- Function `secp256k1_eckey_pubkey_serialize` on the point `g^a` that is
  not the point at infinity; the flag selects the compressed encoding. -/
  pubkey_encode : Nat → Bool → List Nat
  /-- Function `secp256k1_eckey_pubkey_parse`. -/
  pubkey_parse : List Nat → Option Nat
  /-- SHA-256 of a byte string, as the number its 32 output bytes encode. -/
  sha256 : List Nat → Nat
  /-- HMAC-SHA-256 of a byte string under a key, as its 32 output bytes. -/
  hmac_sha256 : List Nat → List Nat → List Nat
  /-- Modelled from the spec: `Prf::getX`, a deterministic function of the
  secret key bytes and the node (`prf.h` is not among the sources). -/
  prf_getX : Nat → Node → Nat
  /-- Modelled from the spec: `Prf::getR`. -/
  prf_getR : Nat → Node → Nat
  /-- The configuration constant `ACCA_CT_LEN`. -/
  CT_LEN : Nat
  /-- Whether `assert` is compiled out. -/
  NDEBUG : Bool

/-- Constant `Authenticator::DEPTH`. -/
def Env.DEPTH (E : Env) : Nat := E.CT_LEN * 8

/-- The 32 bytes of a number below `2^256`, big-endian. -/
def bytes32 (x : Nat) : List Nat :=
  (List.range 32).map (fun i => x / 256 ^ (31 - i) % 256)

/-- Function `secp256k1_eckey_pubkey_serialize`: it fails on the point at
infinity and writes nothing then. -/
def secp256k1_eckey_pubkey_serialize (E : Env) (a : Nat) (compressed : Bool) :
    Option (List Nat) :=
  if secp256k1_ge_is_infinity a then none else some (E.pubkey_encode a compressed)

/-- The laws of the environment that the proofs use: the group order is a
prime, and parsing the encoding of a point other than the point at infinity
gives that point back. -/
structure Env.Valid (E : Env) : Prop where
  /-- The group order is a prime. -/
  prime : Nat.Prime E.q
  /-- Parsing inverts encoding. -/
  parse_encode : ∀ (a : Nat) (c : Bool), 0 < a → a < E.q →
    E.pubkey_parse (E.pubkey_encode a c) = some a

/-! ## ChameleonHash (`src/chameleonhash.cpp`) -/

/-- The last statement of `ChameleonHash::ch`: the compressed encoding of the
result point, or the exception when it cannot be serialised. -/
def serializeHash (E : Env) (resge : Nat) : Except Error (List Nat) :=
  match secp256k1_eckey_pubkey_serialize E resge true with
  | none => .error .cannot_serialize
  | some res => .ok res

/-- The members of class `ChameleonHash`.  `pk` is the exponent of the public
key point; `sk` and `skInv` are meaningful only when `hasSecretKey_` is set
(the verifier constructor leaves them uninitialised, which is represented by
zero). -/
structure ChameleonHash where
  /-- Member `pk`. -/
  pk : Nat
  /-- Member `w`. -/
  w : Nat
  /-- Member `sk`. -/
  sk : Nat
  /-- Member `skInv`. -/
  skInv : Nat
  /-- Member `hasSecretKey_`. -/
  hasSecretKey_ : Bool
  deriving DecidableEq, Repr

/-- Constructor `ChameleonHash::ChameleonHash(const pk_t& pk, const W& w)`. -/
def ChameleonHash.fromPk (E : Env) (pk : List Nat) (w : Nat) : Except Error ChameleonHash :=
  match E.pubkey_parse pk with
  | none => .error .invalid_public_key
  | some pkge =>
    .ok { pk := pkge, w := (secp256k1_scalar_set_b32 E.q w).1, sk := 0, skInv := 0,
          hasSecretKey_ := false }

/-- Constructor `ChameleonHash::ChameleonHash(const sk_t& sk, const W& w, int n)`. -/
def ChameleonHash.fromSk (E : Env) (fuel : Nat) (sk w : Nat) (n : Int) :
    Except Error ChameleonHash :=
  let sks := (secp256k1_scalar_set_b32 E.q sk).1
  if secp256k1_scalar_is_zero sks then .error .zero_secret_key
  else
    let ws := (secp256k1_scalar_set_b32 E.q w).1
    -- set n*w
    let a := 0
    let x := 0
    let x := secp256k1_scalar_add E.q x ws
    match shiftAddLoop E.q fuel a x n with
    | none => .error .out_of_fuel
    | some a =>
      -- set skr = sk+n*w
      let skr := 0
      let skr := secp256k1_scalar_add E.q skr sks
      let skr := secp256k1_scalar_add E.q skr a
      -- set pk = g^(sk+n*w)
      .ok { pk := secp256k1_ecmult_gen E.q skr, w := ws, sk := sks,
            skInv := secp256k1_scalar_inverse E.q sks, hasSecretKey_ := true }

/-- Method `ChameleonHash::hasSecretKey`. -/
def ChameleonHash.hasSecretKey (self : ChameleonHash) : Bool := self.hasSecretKey_

/-- Method `ChameleonHash::getPk`.  The return value of the serialisation is
not looked at: for the point at infinity the length of the result is read
from an uninitialised variable, and the result is unspecified. -/
def ChameleonHash.getPk (E : Env) (self : ChameleonHash) (compressed : Bool) :
    Except Error (List Nat) :=
  match secp256k1_eckey_pubkey_serialize E self.pk compressed with
  | none => .error .unspecified
  | some res => .ok res

/-- Method `ChameleonHash::getSk`. -/
def ChameleonHash.getSk (E : Env) (self : ChameleonHash) : Except Error Nat :=
  if !self.hasSecretKey_ then .error .no_secret_key
  else .ok (secp256k1_scalar_get_b32 E.q self.sk)

/-- Method `ChameleonHash::ch(hash_t& res, const digest_t& m, const rand_t& r, int n)`. -/
def ChameleonHash.ch (E : Env) (fuel : Nat) (self : ChameleonHash) (m r : Nat) (n : Int) :
    Except Error (List Nat) :=
  let ms := (secp256k1_scalar_set_b32 E.q m).1
  let rs := (secp256k1_scalar_set_b32 E.q r).1
  let overflow := (secp256k1_scalar_set_b32 E.q r).2
  if overflow then .error .overflow
  else
    let resgej : Except Error Nat :=
      if self.hasSecretKey_ then
        -- set n*w
        let a := 0
        let x := 0
        let x := secp256k1_scalar_add E.q x self.w
        match shiftAddLoop E.q fuel a x n with
        | none => .error .out_of_fuel
        | some a =>
          -- set (n*w)*r
          let a := secp256k1_scalar_mul E.q a rs
          -- r*sk
          let rs := secp256k1_scalar_mul E.q rs self.sk
          -- m+sk*r
          let rs := secp256k1_scalar_add E.q rs ms
          -- set m+sk*r+(n*w)*r
          let rs := secp256k1_scalar_add E.q rs a
          .ok (secp256k1_ecmult_gen E.q rs)
      else
        .ok (secp256k1_ecmult E.q self.pk rs ms)
    match resgej with
    | .error e => .error e
    | .ok resge => serializeHash E resge

/-- Method `ChameleonHash::extract(const digest_t& d1, const rand_t& r1, int n1,
const digest_t& d2, const rand_t& r2, int n2)`: the instance after the call
and the outcome. -/
def ChameleonHash.extract (E : Env) (fuel : Nat) (self : ChameleonHash)
    (d1 r1 : Nat) (n1 : Int) (d2 r2 : Nat) (n2 : Int) : ChameleonHash × Except Error Unit :=
  -- set d1-d2
  let d1s := (secp256k1_scalar_set_b32 E.q d1).1
  let d2s := (secp256k1_scalar_set_b32 E.q d2).1
  let d2s := secp256k1_scalar_negate E.q d2s
  let sumd1_d2 := secp256k1_scalar_add E.q d1s d2s
  -- set r2*n2
  let a2 := 0
  let x2 := (secp256k1_scalar_set_b32 E.q r2).1
  match shiftAddLoop E.q fuel a2 x2 n2 with
  | none => (self, .error .out_of_fuel)
  | some a2 =>
    -- set r1*n1
    let a1 := 0
    let x1 := (secp256k1_scalar_set_b32 E.q r1).1
    match shiftAddLoop E.q fuel a1 x1 n1 with
    | none => (self, .error .out_of_fuel)
    | some a1 =>
      -- set (r1*n1-r2*n2)
      let a2 := secp256k1_scalar_negate E.q a2
      let a1 := secp256k1_scalar_add E.q a1 a2
      -- set w*(r1*n1-r2*n2)
      let ws := 0
      let ws := secp256k1_scalar_add E.q ws self.w
      let a1 := secp256k1_scalar_mul E.q a1 ws
      -- set (d1-d2)+w*(r1*n1-r2*n2)
      let up := secp256k1_scalar_add E.q sumd1_d2 a1
      -- set r2-r1
      let r1s := (secp256k1_scalar_set_b32 E.q r1).1
      let r2s := (secp256k1_scalar_set_b32 E.q r2).1
      let r1s := secp256k1_scalar_negate E.q r1s
      let down := secp256k1_scalar_add E.q r2s r1s
      let down := secp256k1_scalar_inverse E.q down
      let sk := secp256k1_scalar_mul E.q up down
      ({ self with sk := sk, skInv := secp256k1_scalar_inverse E.q sk, hasSecretKey_ := true },
        .ok ())

/-- Method `ChameleonHash::collision(const digest_t& d1, const rand_t& r1, int n1,
const digest_t& d2, rand_t& r2, int n2)`: the contents of `r2` after the call
and the outcome. -/
def ChameleonHash.collision (E : Env) (fuel : Nat) (self : ChameleonHash)
    (d1 r1 : Nat) (n1 : Int) (d2 : Nat) (r2 : Nat) (n2 : Int) : Nat × Except Error Unit :=
  if !self.hasSecretKey then (r2, .error .no_secret_key)
  else
    -- set d1-d2
    let d1s := (secp256k1_scalar_set_b32 E.q d1).1
    let d2s := (secp256k1_scalar_set_b32 E.q d2).1
    let d2s := secp256k1_scalar_negate E.q d2s
    let sumd1_d2 := secp256k1_scalar_add E.q d1s d2s
    -- set n1*w
    let a1 := 0
    let x1 := 0
    let x1 := secp256k1_scalar_add E.q x1 self.w
    match shiftAddLoop E.q fuel a1 x1 n1 with
    | none => (r2, .error .out_of_fuel)
    | some a1 =>
      -- set (n1*w+sk)
      let a1 := secp256k1_scalar_add E.q a1 self.sk
      -- set r1*(n1*w+sk)
      let r1s := (secp256k1_scalar_set_b32 E.q r1).1
      let a1 := secp256k1_scalar_mul E.q r1s a1
      -- set (d1-d2)+r1*(n1*w+sk)
      let up := secp256k1_scalar_add E.q sumd1_d2 a1
      -- set n2*w
      let a2 := 0
      let x2 := 0
      let x2 := secp256k1_scalar_add E.q x2 self.w
      match shiftAddLoop E.q fuel a2 x2 n2 with
      | none => (r2, .error .out_of_fuel)
      | some a2 =>
        -- set (n2*w+sk)
        let down := secp256k1_scalar_add E.q a2 self.sk
        -- set 1/(n2*w+sk)
        let down := secp256k1_scalar_inverse E.q down
        -- r2 = ((d1-d2)+(n1*w+sk)*r1)/(n2*w+sk)
        let r2s := secp256k1_scalar_mul E.q up down
        (secp256k1_scalar_get_b32 E.q r2s, .ok ())

/-- The loop of `ChameleonHash::digest(digest_t& digest, const mesg_t& m)`:
hash the input, and hash the result again while it overflows the scalar
field. -/
def ChameleonHash.digestLoop (E : Env) : Nat → List Nat → Except Error Nat
  | 0, _ => .error .out_of_fuel
  | fuel + 1, input =>
    let digest := E.sha256 input
    let overflow := (secp256k1_scalar_set_b32 E.q digest).2
    if overflow then ChameleonHash.digestLoop E fuel (bytes32 digest) else .ok digest

/-- Method `ChameleonHash::digest(digest_t& digest, const mesg_t& m)`. -/
def ChameleonHash.digest (E : Env) (fuel : Nat) (m : List Nat) : Except Error Nat :=
  ChameleonHash.digestLoop E fuel m

/-- Method `ChameleonHash::digest(digest_t& digest, const hash_t& in1, const hash_t& in2)`. -/
def ChameleonHash.digest2 (E : Env) (in1 in2 : List Nat) : Nat := E.sha256 (in1 ++ in2)

/-- The 32 bytes of the key `"RandomOracleGRandomOracleGRandom"`. -/
def randomOracleKey : List Nat :=
  [82, 97, 110, 100, 111, 109, 79, 114, 97, 99, 108, 101, 71,
   82, 97, 110, 100, 111, 109, 79, 114, 97, 99, 108, 101, 71,
   82, 97, 110, 100, 111, 109]

/-- Method `ChameleonHash::randomOracle(hash_t& out, const hash_t& in1, const rand_t& in2)`:
the 32 bytes of the HMAC followed by a zero byte. -/
def ChameleonHash.randomOracle (E : Env) (in1 : List Nat) (in2 : Nat) : List Nat :=
  E.hmac_sha256 randomOracleKey (in1 ++ bytes32 in2) ++ [0]

/-! ## Authenticator (`src/authenticator.h`, `src/authenticator.cpp`) -/

/-- Type `Authenticator::dpk_t`. -/
structure dpk_t where
  /-- Member `chpk`. -/
  chpk : List Nat
  /-- Member `rootDigest`. -/
  rootDigest : Nat
  deriving DecidableEq, Repr

/-- Type `Authenticator::token_t`: two arrays of `DEPTH` entries, given by
their entry at each index (only the indices below `DEPTH` are used). -/
structure token_t where
  /-- Member `chs`. -/
  chs : Nat → List Nat
  /-- Member `rs`. -/
  rs : Nat → Nat

/-- Type `Authenticator::log_t`. -/
structure log_t where
  /-- Member `chs`. -/
  chs : List (List Nat)
  /-- Member `xs`. -/
  xs : List Nat
  deriving DecidableEq, Repr

/-- The members of class `Authenticator`.  The verifier constructor leaves
`dsk` and `_n` uninitialised, which is represented by zero. -/
structure Authenticator where
  /-- Member `dsk`. -/
  dsk : Nat
  /-- Member `rootDigest`. -/
  rootDigest : Nat
  /-- Member `_n`. -/
  _n : Int
  /-- Member `ch`. -/
  ch : ChameleonHash
  /-- Member `hasSecretKey_`. -/
  hasSecretKey_ : Bool
  deriving DecidableEq, Repr

/-- Constructor `Authenticator::Authenticator(const dsk_t& dsk, const dw_t& dw, int n)`. -/
def Authenticator.fromDsk (E : Env) (fuel : Nat) (dsk dw : Nat) (n : Int) :
    Except Error Authenticator :=
  match ChameleonHash.fromSk E fuel dsk dw n with
  | .error e => .error e
  | .ok ch =>
    let node := Node.leftChildOfRoot
    let x := E.prf_getX dsk node
    let r := E.prf_getR dsk node
    match ch.ch E fuel x r n with
    | .error e => .error e
    | .ok left =>
      let node := node.moveToSibling
      let x := E.prf_getX dsk node
      let r := E.prf_getR dsk node
      match ch.ch E fuel x r n with
      | .error e => .error e
      | .ok right =>
        .ok { dsk := dsk, rootDigest := ChameleonHash.digest2 E left right, _n := n, ch := ch,
              hasSecretKey_ := true }

/-- Constructor `Authenticator::Authenticator(const dpk_t& dpk, const dw_t& dw)`. -/
def Authenticator.fromDpk (E : Env) (dpk : dpk_t) (dw : Nat) : Except Error Authenticator :=
  match ChameleonHash.fromPk E dpk.chpk dw with
  | .error e => .error e
  | .ok ch =>
    .ok { dsk := 0, rootDigest := dpk.rootDigest, _n := 0, ch := ch, hasSecretKey_ := false }

/-- The loop `while (!node.isRoot())` of `Authenticator::authenticate`.  The
arguments after the node are the locals `subTreeX`, `subTreeR`, `first`, the
token `t` and the common position of the output iterators `rOut`, `chOut`.
It returns the token as written so far, and `subTreeX` at the root. -/
def Authenticator.authenticateLoop (E : Env) (fuel : Nat) (self : Authenticator) (n : Int) :
    Node → Nat → Nat → Bool → token_t → Nat → token_t × Except Error Nat
  | [], subTreeX, _, _, t, _ => (t, .ok subTreeX)
  | b :: up, subTreeX, subTreeR, first, t, pos =>
    let node : Node := b :: up
    let prfX := E.prf_getX self.dsk node
    let prfR := E.prf_getR self.dsk node
    match self.ch.ch E fuel prfX prfR self._n with
    | .error e => (t, .error e)
    | .ok chash =>
      match self.ch.collision E fuel prfX prfR self._n subTreeX subTreeR n with
      | (_, .error e) => (t, .error e)
      | (subTreeR, .ok _) =>
        let chash := if first then ChameleonHash.randomOracle E chash subTreeR else chash
        let node := node.moveToSibling
        let sibX := E.prf_getX self.dsk node
        let sibR := E.prf_getR self.dsk node
        match self.ch.ch E fuel sibX sibR self._n with
        | .error e => (t, .error e)
        | .ok sibchash =>
          let t : token_t :=
            { rs := Function.update t.rs pos subTreeR,
              chs := Function.update t.chs pos sibchash }
          let subTreeX :=
            if node.isLeftChild then ChameleonHash.digest2 E sibchash chash
            else ChameleonHash.digest2 E chash sibchash
          -- node.moveToParent()
          Authenticator.authenticateLoop E fuel self n up subTreeX subTreeR false t (pos + 1)

/-- Method `Authenticator::authenticate(token_t& t, const ct_t& ct, const st_t& st, int n)`:
the contents of `t` after the call and the outcome. -/
def Authenticator.authenticate (E : Env) (fuel : Nat) (self : Authenticator)
    (t : token_t) (ct st : List Nat) (n : Int) : token_t × Except Error Unit :=
  if !self.hasSecretKey_ then (t, .error .cannot_authenticate)
  else
    match ChameleonHash.digest E fuel st with
    | .error e => (t, .error e)
    | .ok subTreeX =>
      match Authenticator.authenticateLoop E fuel self n (Node.ofContext ct) subTreeX 0 true t 0 with
      | (t, .error e) => (t, .error e)
      | (t, .ok subTreeX) =>
        if !E.NDEBUG && subTreeX ≠ self.rootDigest then (t, .error .assertion_failed)
        else (t, .ok ())

/-- The loop `while (!node.isRoot())` of `Authenticator::verifyWithLog`.  The
pointer `log` is given by `logging` (it is not null) and the log it points
to; `pos` is the common position of the iterators `rIt`, `sibchashIt`.  (The
two `assert`s after the loop say that the iterators are at the ends of the
arrays, which holds for a leaf of depth `DEPTH`; they are not embedded.) -/
def Authenticator.verifyLoop (E : Env) (fuel : Nat) (self : Authenticator) (t : token_t)
    (logging : Bool) (n : Int) :
    Node → Nat → Bool → Nat → log_t → Except Error (Nat × log_t)
  | [], subTreeX, _, _, log => .ok (subTreeX, log)
  | b :: up, subTreeX, first, pos, log =>
    let node : Node := b :: up
    match self.ch.ch E fuel subTreeX (t.rs pos) n with
    | .error e => .error e
    | .ok chash =>
      let log : log_t :=
        if logging then { chs := log.chs ++ [chash], xs := log.xs ++ [subTreeX] } else log
      let chash := if first then ChameleonHash.randomOracle E chash (t.rs pos) else chash
      -- compute hash of the parent of node
      let subTreeX :=
        if node.isLeftChild then ChameleonHash.digest2 E chash (t.chs pos)
        else ChameleonHash.digest2 E (t.chs pos) chash
      Authenticator.verifyLoop E fuel self t logging n up subTreeX false (pos + 1) log

/-- Method `Authenticator::verifyWithLog`: the result and the log after the call. -/
def Authenticator.verifyWithLog (E : Env) (fuel : Nat) (self : Authenticator) (t : token_t)
    (ct st : List Nat) (logging : Bool) (log : log_t) (n : Int) : Except Error (Bool × log_t) :=
  match ChameleonHash.digest E fuel st with
  | .error e => .error e
  | .ok subTreeX =>
    match Authenticator.verifyLoop E fuel self t logging n (Node.ofContext ct) subTreeX true 0 log with
    | .error e => .error e
    | .ok (subTreeX, log) => .ok (decide (subTreeX = self.rootDigest), log)

/-- Method `Authenticator::verify`. -/
def Authenticator.verify (E : Env) (fuel : Nat) (self : Authenticator) (t : token_t)
    (ct st : List Nat) (n : Int) : Except Error Bool :=
  match Authenticator.verifyWithLog E fuel self t ct st false { chs := [], xs := [] } n with
  | .error e => .error e
  | .ok (res, _) => .ok res

/-- The loop `for (int i = 0; i < DEPTH; i++)` of `Authenticator::extract`;
the first argument is the number of iterations left. -/
def Authenticator.extractLoop (E : Env) (fuel : Nat) (t1 t2 : token_t) (log1 log2 : log_t)
    (n1 n2 : Int) : Nat → Nat → Authenticator → Authenticator × Except Error Unit
  | 0, _, self => (self, .ok ())
  | k + 1, i, self =>
    -- check for collision
    let collides : Bool :=
      (log1.xs.getD i 0 != log2.xs.getD i 0 || t1.rs i != t2.rs i)
        && log1.chs.getD i [] == log2.chs.getD i []
    let res : ChameleonHash × Except Error Unit :=
      if collides then
        self.ch.extract E fuel (log1.xs.getD i 0) (t1.rs i) n1 (log2.xs.getD i 0) (t2.rs i) n2
      else (self.ch, .ok ())
    match res with
    | (ch, .error e) => ({ self with ch := ch }, .error e)
    | (ch, .ok _) =>
      if !ch.hasSecretKey then ({ self with ch := ch }, .error .not_extractable)
      else
        Authenticator.extractLoop E fuel t1 t2 log1 log2 n1 n2 k (i + 1)
          { self with ch := ch, hasSecretKey_ := true }

/-- Method `Authenticator::extract`: the instance after the call and the outcome. -/
def Authenticator.extract (E : Env) (fuel : Nat) (self : Authenticator) (t1 t2 : token_t)
    (ct st1 st2 : List Nat) (n1 n2 : Int) : Authenticator × Except Error Unit :=
  match Authenticator.verifyWithLog E fuel self t1 ct st1 true { chs := [], xs := [] } n1 with
  | .error e => (self, .error e)
  | .ok (ok1, log1) =>
    if !ok1 then (self, .error .t1_does_not_verify)
    else
      match Authenticator.verifyWithLog E fuel self t2 ct st2 true { chs := [], xs := [] } n2 with
      | .error e => (self, .error e)
      | .ok (ok2, log2) =>
        if !ok2 then (self, .error .t2_does_not_verify)
        else Authenticator.extractLoop E fuel t1 t2 log1 log2 n1 n2 E.DEPTH 0 self

/-- Method `Authenticator::getDpk`. -/
def Authenticator.getDpk (E : Env) (self : Authenticator) : Except Error dpk_t :=
  match self.ch.getPk E true with
  | .error e => .error e
  | .ok chpk => .ok { chpk := chpk, rootDigest := self.rootDigest }

/-- Method `Authenticator::getDsk`. -/
def Authenticator.getDsk (E : Env) (self : Authenticator) : Except Error Nat :=
  self.ch.getSk E

/-- The chameleon hash that `authenticate` and the holder constructor compute
for a tree node from its PRF values, with the level-weight `_n` of the
instance. -/
def Authenticator.pathHash (E : Env) (fuel : Nat) (self : Authenticator) (node : Node) :
    Except Error (List Nat) :=
  self.ch.ch E fuel (E.prf_getX self.dsk node) (E.prf_getR self.dsk node) self._n

/-! ## The aggregate verification (`Authenticator::verifys`) -/

/-- Type `Authenticator::altMessage`: the vectors `token` and `ms`, given by
their entry at each index (`verifys` reads the indices below `cnt`, which the
caller has to provide). -/
structure altMessage where
  /-- Member `token`. -/
  token : Nat → token_t
  /-- Member `ms`. -/
  ms : Nat → List Nat

/-- Modelled from the spec: the method
`ChameleonHash::mergeV(hash, ms, r, pk, cnt)`, which is not among the sources,
"deterministic combination of `cnt` (digest, randomness) pairs ... into one
`hash_t`", "given a set of public keys".  As a method that may assign members
of its object it gives the `ChameleonHash` after the call, and the outcome:
the contents of `hash`, or an exception. -/
abbrev MergeV : Type :=
  ChameleonHash → List Nat → List Nat → List (List Nat) → Int →
    ChameleonHash × Except Error (List Nat)

/-- The loop `for (int i = 0; i < cnt; i++) r.push_back(*t.token[i].rs.begin());`
of `Authenticator::verifys`: the first argument is the number of rounds left,
the last the vector `r` so far. -/
def Authenticator.verifysRandLoop (t : altMessage) : Nat → Nat → List Nat → List Nat
  | 0, _, r => r
  | k + 1, i, r => Authenticator.verifysRandLoop t k (i + 1) (r ++ [(t.token i).rs 0])

/-- The loop
`for (int i = 0; i < cnt; i++) { digest(X, t.ms[i]); ms.push_back(X); }`
of `Authenticator::verifys`. -/
def Authenticator.verifysDigestLoop (E : Env) (fuel : Nat) (t : altMessage) :
    Nat → Nat → List Nat → Except Error (List Nat)
  | 0, _, ms => .ok ms
  | k + 1, i, ms =>
    match ChameleonHash.digest E fuel (t.ms i) with
    | .error e => .error e
    | .ok X => Authenticator.verifysDigestLoop E fuel t k (i + 1) (ms ++ [X])

/-- Method `Authenticator::verifys(const altMessage& t, int cnt, const ct_t& ct,
int n[], std::vector<pk_t> pk, dw_t w, hash_t& res)`, with `mergeV` as a
parameter: the instance after the call and the outcome.  The verification of
the tokens is commented out in the source. -/
def Authenticator.verifys (E : Env) (fuel : Nat) (mergeV : MergeV) (self : Authenticator)
    (t : altMessage) (cnt : Int) (ct : List Nat) (n : Nat → Int) (pk : List (List Nat))
    (w : Nat) (res : List Nat) : Authenticator × Except Error Bool :=
  let r := Authenticator.verifysRandLoop t cnt.toNat 0 []
  match Authenticator.verifysDigestLoop E fuel t cnt.toNat 0 [] with
  | .error e => (self, .error e)
  | .ok ms =>
    match mergeV self.ch ms r pk cnt with
    | (ch, .error e) => ({ self with ch := ch }, .error e)
    | (ch, .ok hash) => ({ self with ch := ch }, .ok (decide (hash = res)))

/-! ## Calls on an instance -/

/-- The condition
`(log1.xs[i] != log2.xs[i] || t1.rs[i] != t2.rs[i]) && log1.chs[i] == log2.chs[i]`
of the loop of `Authenticator::extract`: at level `i` the logged inputs of the
chameleon hash differ and the logged chameleon hashes are equal. -/
def collisionAt (t1 t2 : token_t) (log1 log2 : log_t) (i : Nat) : Bool :=
  (log1.xs.getD i 0 != log2.xs.getD i 0 || t1.rs i != t2.rs i)
    && log1.chs.getD i [] == log2.chs.getD i []

/-- A call of one of the methods `authenticate`, `verify`, `extract`,
`getDpk`, `getDsk` of an `Authenticator`, with its arguments. -/
inductive Call where
  /-- A call `authenticate(t, ct, st, n)`. -/
  | authenticate (t : token_t) (ct st : List Nat) (n : Int)
  /-- A call `verify(t, ct, st, n)`. -/
  | verify (t : token_t) (ct st : List Nat) (n : Int)
  /-- A call `extract(t1, t2, ct, st1, st2, n1, n2)`. -/
  | extract (t1 t2 : token_t) (ct st1 st2 : List Nat) (n1 n2 : Int)
  /-- A call `getDpk()`. -/
  | getDpk
  /-- A call `getDsk()`. -/
  | getDsk

/-- Whether a call is a call of `extract`. -/
def Call.isExtract : Call → Bool
  | .extract _ _ _ _ _ _ _ => true
  | _ => false

/-- The instance after a call, and the outcome of the call without its
result.  Of the five methods only `extract` assigns members of the instance
(through `ch.extract` and to `hasSecretKey_`); `authenticate`, `verify`,
`getDpk` and `getDsk`, and the methods of `ChameleonHash` that they call,
assign none. -/
def Authenticator.call (E : Env) (fuel : Nat) (self : Authenticator) :
    Call → Authenticator × Except Error Unit
  | .authenticate t ct st n => (self, (self.authenticate E fuel t ct st n).2)
  | .verify t ct st n => (self, (self.verify E fuel t ct st n).map fun _ => ())
  | .extract t1 t2 ct st1 st2 n1 n2 => self.extract E fuel t1 t2 ct st1 st2 n1 n2
  | .getDpk => (self, (self.getDpk E).map fun _ => ())
  | .getDsk => (self, (self.getDsk E).map fun _ => ())

/-- The instance after a sequence of calls, each made whether or not the
previous ones threw. -/
def Authenticator.run (E : Env) (fuel : Nat) (self : Authenticator) (calls : List Call) :
    Authenticator :=
  calls.foldl (fun A c => (A.call E fuel c).1) self

/-- How a method call may change an instance whose two flags agree: `S` is
the instance before the call, `R` the instance after it with the outcome.
The two flags agree afterwards; `rootDigest`, `dsk`, `_n` and the members
`pk` and `w` of the chameleon hash are as before; a flag that was set stays
set; and the flag is changed only by a call that returns. -/
def Authenticator.Transition (S : Authenticator) (R : Authenticator × Except Error Unit) :
    Prop :=
  R.1.ch.hasSecretKey_ = R.1.hasSecretKey_ ∧ R.1.rootDigest = S.rootDigest ∧
  R.1.dsk = S.dsk ∧ R.1._n = S._n ∧ R.1.ch.pk = S.ch.pk ∧ R.1.ch.w = S.ch.w ∧
  (S.hasSecretKey_ = true → R.1.hasSecretKey_ = true) ∧
  (R.1.hasSecretKey_ ≠ S.hasSecretKey_ → R.2 = .ok ())

/-- The relation `Transition` is decidable. -/
instance instDecidableTransition (S : Authenticator) (R : Authenticator × Except Error Unit) :
    Decidable (S.Transition R) := by
  unfold Authenticator.Transition
  infer_instance

/-! ## The spec's formulas -/

/-- The key of the spec sentence
"sk = ((d1 − d2) − w·(r1·n1 − r2·n2)) / (r2 − r1)", evaluated with the
scalar operations (level-weights `n1`, `n2` that are not negative). -/
def extractFormulaSpec (q w d1 r1 n1 d2 r2 n2 : Nat) : Nat :=
  let num :=
    secp256k1_scalar_add q
      (secp256k1_scalar_add q (d1 % q) (secp256k1_scalar_negate q d2))
      (secp256k1_scalar_negate q
        (secp256k1_scalar_mul q w
          (secp256k1_scalar_add q (secp256k1_scalar_mul q r1 n1)
            (secp256k1_scalar_negate q (secp256k1_scalar_mul q r2 n2)))))
  let den := secp256k1_scalar_add q (r2 % q) (secp256k1_scalar_negate q r1)
  secp256k1_scalar_mul q num (secp256k1_scalar_inverse q den)

/-- The same quotient with the sign of the source comment
"sk = ((d1-d2)-(r2*n2-r1*n1)*w) / (r2-r1)", which is
"((d1 − d2) + w·(r1·n1 − r2·n2)) / (r2 − r1)". -/
def extractFormulaCode (q w d1 r1 n1 d2 r2 n2 : Nat) : Nat :=
  let num :=
    secp256k1_scalar_add q
      (secp256k1_scalar_add q (d1 % q) (secp256k1_scalar_negate q d2))
      (secp256k1_scalar_mul q w
        (secp256k1_scalar_add q (secp256k1_scalar_mul q r1 n1)
          (secp256k1_scalar_negate q (secp256k1_scalar_mul q r2 n2))))
  let den := secp256k1_scalar_add q (r2 % q) (secp256k1_scalar_negate q r1)
  secp256k1_scalar_mul q num (secp256k1_scalar_inverse q den)

/-- The iterate `H^k(m)` of the spec sentence "repeated fixed-size hashing of
the previous output": `H^1(m)` is the hash of `m`, and `H^(k+1)(m)` is the
hash of the 32 bytes of `H^k(m)`.  (`H^0(m)` has no meaning; it is `0`.) -/
def iteratedHash (E : Env) : Nat → List Nat → Nat
  | 0, _ => 0
  | 1, m => E.sha256 m
  | k + 2, m => E.sha256 (bytes32 (iteratedHash E (k + 1) m))

/-- The loop of `authenticate` with the level-weight of the chameleon hash of
the path node as a parameter `m`, the call `ch.ch(chash, prfX, prfR, m)`;
every other statement is that of the source.  The spec sentence "compute its
chameleon hash with level-weight `n` fixed across the whole path (the
caller-supplied parameter, not per-level)" is this loop with `m = n`. -/
def Authenticator.authenticateLoopSpec (E : Env) (fuel : Nat) (self : Authenticator) (m : Int)
    (n : Int) : Node → Nat → Nat → Bool → token_t → Nat → token_t × Except Error Nat
  | [], subTreeX, _, _, t, _ => (t, .ok subTreeX)
  | b :: up, subTreeX, subTreeR, first, t, pos =>
    let node : Node := b :: up
    let prfX := E.prf_getX self.dsk node
    let prfR := E.prf_getR self.dsk node
    match self.ch.ch E fuel prfX prfR m with
    | .error e => (t, .error e)
    | .ok chash =>
      match self.ch.collision E fuel prfX prfR self._n subTreeX subTreeR n with
      | (_, .error e) => (t, .error e)
      | (subTreeR, .ok _) =>
        let chash := if first then ChameleonHash.randomOracle E chash subTreeR else chash
        let node := node.moveToSibling
        let sibX := E.prf_getX self.dsk node
        let sibR := E.prf_getR self.dsk node
        match self.ch.ch E fuel sibX sibR self._n with
        | .error e => (t, .error e)
        | .ok sibchash =>
          let t : token_t :=
            { rs := Function.update t.rs pos subTreeR,
              chs := Function.update t.chs pos sibchash }
          let subTreeX :=
            if node.isLeftChild then ChameleonHash.digest2 E sibchash chash
            else ChameleonHash.digest2 E chash sibchash
          Authenticator.authenticateLoopSpec E fuel self m n up subTreeX subTreeR false t
            (pos + 1)

/-- The method `authenticate` around the loop `authenticateLoopSpec`. -/
def Authenticator.authenticateSpec (E : Env) (fuel : Nat) (self : Authenticator) (m : Int)
    (t : token_t) (ct st : List Nat) (n : Int) : token_t × Except Error Unit :=
  if !self.hasSecretKey_ then (t, .error .cannot_authenticate)
  else
    match ChameleonHash.digest E fuel st with
    | .error e => (t, .error e)
    | .ok subTreeX =>
      match Authenticator.authenticateLoopSpec E fuel self m n (Node.ofContext ct) subTreeX 0
        true t 0 with
      | (t, .error e) => (t, .error e)
      | (t, .ok subTreeX) =>
        if !E.NDEBUG && subTreeX ≠ self.rootDigest then (t, .error .assertion_failed)
        else (t, .ok ())

/-! ## The group order -/

/-- The order of the group of the curve secp256k1. -/
def secp256k1_n : Nat :=
  0xFFFFFFFFFFFFFFFFFFFFFFFFFFFFFFFEBAAEDCE6AF48A03BBFD25E8CD0364141

/-! ## An instance of the environment -/

/-- Stand-in for `secp256k1_eckey_pubkey_parse`: the inverse of the encoding
of `demoEnv`. -/
def standInParse (q : Nat) (b : List Nat) : Option Nat :=
  match b with
  | [] => none
  | tag :: rest =>
    let a := (rest.take 32).foldl (fun acc x => acc * 256 + x) 0
    if (tag = 2 ∨ tag = 4) ∧ 0 < a ∧ a < q then some a else none

/-- Stand-in for the two functions of the `Prf` class: a value below the
group order computed from the key and the path of the node. -/
def standInPrf (q mult offset : Nat) (sk : Nat) (node : Node) : Nat :=
  node.foldl (fun acc b => (acc * mult + (if b then 2 else 1)) % q) (sk % q + offset)

/-- An instance of the environment, for evaluating the embedding on concrete
inputs: the group order of secp256k1, a point encoding with the layout of the
compressed and the uncompressed format (a tag byte and the 32 bytes of the
exponent that represents the point), and simple stand-ins for the two hash
functions and for the `Prf` class; contexts are one byte long. -/
def demoEnv : Env where
  q := secp256k1_n
  pubkey_encode := fun a c => (if c then 2 else 4) :: bytes32 a
  pubkey_parse := standInParse secp256k1_n
  sha256 := fun bs => bs.foldl (fun acc b => (acc * 257 + b + 1) % 1048573) 5
  hmac_sha256 := fun key bs =>
    bytes32 ((key ++ bs).foldl (fun acc b => (acc * 263 + b + 1) % 1048573) 3)
  prf_getX := standInPrf secp256k1_n 3 11
  prf_getR := standInPrf secp256k1_n 5 17
  CT_LEN := 1
  NDEBUG := false

/-- A token before anything is written to it. -/
def emptyToken : token_t := { chs := fun _ => [], rs := fun _ => 0 }

/-- The bytes of the state `"hello"`. -/
def stHello : List Nat := [104, 101, 108, 108, 111]

/-- The bytes of the state `"world"`. -/
def stWorld : List Nat := [119, 111, 114, 108, 100]

/-- The one-byte context `0x01`. -/
def ctOne : List Nat := [1]

/-- The holder `ChameleonHash(12345, 678, 5)`; its public key is the point
`g^(12345 + 5*678)`. -/
def demoCh : ChameleonHash :=
  { pk := 15735, w := 678, sk := 12345,
    skInv := secp256k1_scalar_inverse secp256k1_n 12345, hasSecretKey_ := true }

/-- The verify-only `ChameleonHash` built from the public key of `demoCh`. -/
def demoChVerifier : ChameleonHash :=
  { pk := 15735, w := 678, sk := 0, skInv := 0, hasSecretKey_ := false }

/-- The holder `ChameleonHash(1, q - 1, 0)`, for which `sk + 1*w` is zero
modulo the group order `q`. -/
def demoChZero : ChameleonHash :=
  { pk := 1, w := secp256k1_n - 1, sk := 1, skInv := 1, hasSecretKey_ := true }

/-- A verify-only `ChameleonHash` with `w = 3`. -/
def demoChThree : ChameleonHash :=
  { pk := 7, w := 3, sk := 0, skInv := 0, hasSecretKey_ := false }

/-- The randomness that `collision(11, 22, 5, 33, 7)` computes on `demoCh`. -/
def demoR2 : Nat := (demoCh.collision demoEnv 32 11 22 5 33 0 7).1

/-- The holder `Authenticator(12345, 678, 5)`. -/
def demoHolder : Authenticator :=
  { dsk := 12345, rootDigest := 272835, _n := 5, ch := demoCh, hasSecretKey_ := true }

/-- The public key `getDpk()` of `demoHolder`. -/
def demoDpk : dpk_t :=
  { chpk := demoEnv.pubkey_encode 15735 true, rootDigest := 272835 }

/-- The verify-only instance `Authenticator(demoDpk, 678)`. -/
def demoVerifier : Authenticator :=
  { dsk := 0, rootDigest := 272835, _n := 0, ch := demoChVerifier, hasSecretKey_ := false }

/-- The holder `Authenticator(1, q - 1, 0)`, for which `sk + 1*w` is zero
modulo the group order `q`. -/
def demoHolderZero : Authenticator :=
  { dsk := 1, rootDigest := 598175, _n := 0, ch := demoChZero, hasSecretKey_ := true }

/-- The token that `demoHolder` writes for the context `0x01`, a state and a
level-weight. -/
def demoToken (st : List Nat) (n : Int) : token_t :=
  (demoHolder.authenticate demoEnv 32 emptyToken ctOne st n).1

/-- The log that `verifyWithLog` on `demoVerifier` fills for a token. -/
def demoLog (t : token_t) (st : List Nat) (n : Int) : log_t :=
  match demoVerifier.verifyWithLog demoEnv 32 t ctOne st true { chs := [], xs := [] } n with
  | .ok (_, log) => log
  | .error _ => { chs := [], xs := [] }

/-- A token whose first randomness is `0xFF..FF`, which overflows the scalar
field. -/
def overflowToken : token_t :=
  { chs := fun _ => [], rs := fun i => if i = 0 then 2 ^ 256 - 1 else 0 }

/-- A token whose first randomness `r = -263261 / 15735` makes the first
chameleon hash of `demoVerifier` for the state `"hello"` (digest `263261`) the
point at infinity: `r * 15735 + 263261` is zero modulo the group order. -/
def infinityToken : token_t :=
  { chs := fun _ => [],
    rs := fun i =>
      if i = 0 then
        secp256k1_scalar_mul secp256k1_n (secp256k1_n - 263261)
          (secp256k1_scalar_inverse secp256k1_n 15735)
      else 0 }

/-- The environment `demoEnv` with the group order `1000003`, which some
values of the stand-in hash are not below, so that the loop of `digest` is
entered a second time. -/
def demoEnvSmall : Env := { demoEnv with q := 1000003 }

/-- The bytes of the message `"naa"`. -/
def mesgNaa : List Nat := [110, 97, 97]

/-- The environment `demoEnv` with `assert` compiled out. -/
def demoEnvRelease : Env := { demoEnv with NDEBUG := true }

/-- The chameleon hashes that `verifyWithLog` on `demoHolder` logs for a
token, level by level. -/
def demoHolderLog (t : token_t) (st : List Nat) (n : Int) : List (List Nat) :=
  match demoHolder.verifyWithLog demoEnv 32 t ctOne st true { chs := [], xs := [] } n with
  | .ok (_, log) => log.chs
  | .error _ => []

/-- The calls `verify(t, ct, "hello", 5)` and `getDpk()`, where `t` is the
token of `demoHolder` for the state `"hello"`. -/
def demoCalls : List Call := [.verify (demoToken stHello 5) ctOne stHello 5, .getDpk]

/-- The call `extract(t1, t2, ct, "hello", "world", 5, 5)` with the tokens
of `demoHolder` for the two states. -/
def demoExtractCall : Call :=
  .extract (demoToken stHello 5) (demoToken stWorld 5) ctOne stHello stWorld 5 5

/-- The token of `demoHolder` for the state `"hello"` with another sibling
hash at level 0 and, at level 1, the randomness of the collision that takes
the digest of level 1, changed by that, to the chameleon hash of level 1 of
the unchanged token. -/
def lateCollisionToken : token_t :=
  let t1 := demoToken stHello 5
  let chs := Function.update t1.chs 0 (demoEnv.pubkey_encode 1 true)
  let x1 := (demoLog t1 stHello 5).xs.getD 1 0
  let x2 := (demoLog { chs := chs, rs := t1.rs } stHello 5).xs.getD 1 0
  { chs := chs,
    rs := Function.update t1.rs 1 (demoCh.collision demoEnv 32 x1 (t1.rs 1) 5 x2 0 5).1 }

/-- A token for the state `"world"`: the token of `demoHolder` for the state
`"hello"` with the randomness `1` at level 0 and, at level 1, the randomness
of the collision that takes the digest of level 1, changed by that and by the
other state, to the chameleon hash of level 1 of the unchanged token. -/
def lateCollisionTokenWorld : token_t :=
  let t1 := demoToken stHello 5
  let rs0 := Function.update t1.rs 0 1
  let x1 := (demoLog t1 stHello 5).xs.getD 1 0
  let x2 := (demoLog { chs := t1.chs, rs := rs0 } stWorld 5).xs.getD 1 0
  { chs := t1.chs,
    rs := Function.update rs0 1 (demoCh.collision demoEnv 32 x1 (t1.rs 1) 5 x2 0 5).1 }

/-- The instance that the verify-only `demoVerifier` is after the call
`extract(t1, t2, ct, "hello", "world", 5, 5)` with the tokens of `demoHolder`
for the two states: in holder mode, with the key of `demoHolder` in its
chameleon hash, and with the members `dsk` and `_n` that no constructor and no
method has assigned. -/
def demoExtracted : Authenticator :=
  (demoVerifier.extract demoEnv 32 (demoToken stHello 5) (demoToken stWorld 5)
    ctOne stHello stWorld 5 5).1

/-- Stand-in for `mergeV`: the product of the points `pk_i^(r_i) * g^(m_i)`
over the first `cnt` entries, serialised; it assigns no member. -/
def standInMergeV : MergeV := fun ch ms r pk cnt =>
  let terms := (List.range cnt.toNat).map fun i =>
    match demoEnv.pubkey_parse (pk.getD i []) with
    | none => 0
    | some a => secp256k1_ecmult demoEnv.q a (r.getD i 0 % demoEnv.q) (ms.getD i 0 % demoEnv.q)
  (ch, serializeHash demoEnv (terms.foldl (secp256k1_scalar_add demoEnv.q) 0))

/-- Two messages with the tokens of `demoHolder` for the states `"hello"` and
`"world"`. -/
def demoAlt : altMessage :=
  { token := fun i => if i = 0 then demoToken stHello 5 else demoToken stWorld 5,
    ms := fun i => if i = 0 then stHello else stWorld }

/-- The messages of `demoAlt` with tokens of which only the first randomness
is that of the tokens of `demoAlt`: the sibling hashes are empty and the
randomness of the levels above is zero. -/
def demoAltForged : altMessage :=
  { token := fun i =>
      { chs := fun _ => [],
        rs := fun j => if j = 0 then (demoAlt.token i).rs 0 else 0 },
    ms := demoAlt.ms }

/-- The aggregate hash of `demoAlt` under the public key of `demoHolder`. -/
def demoRes : List Nat :=
  match (standInMergeV demoChVerifier [263261, 346025]
      [(demoToken stHello 5).rs 0, (demoToken stWorld 5).rs 0]
      [demoDpk.chpk, demoDpk.chpk] 2).2 with
  | .ok h => h
  | .error _ => []

/-! # Theorems -/

/-! ## Scalar arithmetic in `ZMod q` -/

theorem powModAux_eq (q : Nat) : ∀ (fuel b e : Nat), e ≤ fuel →
    powModAux q fuel b e = b ^ e % q := by
  intro fuel
  induction fuel with
  | zero =>
    intro b e he
    have : e = 0 := by omega
    subst this
    simp [powModAux]
  | succ f ih =>
    intro b e he
    unfold powModAux
    by_cases h0 : e = 0
    · simp [h0]
    · have hlt : e / 2 ≤ f := by omega
      have hrec := ih (b * b % q) (e / 2) hlt
      have hsq : (b * b % q) ^ (e / 2) % q = (b ^ 2) ^ (e / 2) % q := by
        rw [Nat.pow_mod (b * b % q), Nat.mod_mod, ← Nat.pow_mod, pow_two]
      rw [if_neg h0, hrec, hsq, ← pow_mul]
      by_cases h1 : e % 2 = 1
      · rw [if_pos h1]
        have he2 : e = 2 * (e / 2) + 1 := by omega
        conv_rhs => rw [he2, pow_succ]
        rw [Nat.mul_mod, Nat.mod_mod, ← Nat.mul_mod, Nat.mul_comm]
      · rw [if_neg h1]
        have he2 : e = 2 * (e / 2) := by omega
        conv_rhs => rw [he2]

theorem powMod_eq (q b e : Nat) : powMod q b e = b ^ e % q :=
  powModAux_eq q e b e (le_refl e)

theorem cast_scalar_add (q a b : Nat) :
    ((secp256k1_scalar_add q a b : Nat) : ZMod q) = (a : ZMod q) + (b : ZMod q) := by
  simp [secp256k1_scalar_add, ZMod.natCast_mod]

theorem cast_scalar_mul (q a b : Nat) :
    ((secp256k1_scalar_mul q a b : Nat) : ZMod q) = (a : ZMod q) * (b : ZMod q) := by
  simp [secp256k1_scalar_mul, ZMod.natCast_mod]

theorem cast_scalar_negate (q a : Nat) (hq : 0 < q) :
    ((secp256k1_scalar_negate q a : Nat) : ZMod q) = - (a : ZMod q) := by
  have hle : a % q ≤ q := le_of_lt (Nat.mod_lt a hq)
  simp [secp256k1_scalar_negate, ZMod.natCast_mod, Nat.cast_sub hle]

theorem cast_scalar_set_b32 (q a : Nat) :
    (((secp256k1_scalar_set_b32 q a).1 : Nat) : ZMod q) = (a : ZMod q) := by
  simp [secp256k1_scalar_set_b32, ZMod.natCast_mod]

theorem cast_scalar_get_b32 (q a : Nat) :
    ((secp256k1_scalar_get_b32 q a : Nat) : ZMod q) = (a : ZMod q) := by
  simp [secp256k1_scalar_get_b32, ZMod.natCast_mod]

theorem cast_scalar_inverse (q a : Nat) (hq : Nat.Prime q) (ha : (a : ZMod q) ≠ 0) :
    ((secp256k1_scalar_inverse q a : Nat) : ZMod q) = (a : ZMod q)⁻¹ := by
  haveI : Fact (Nat.Prime q) := ⟨hq⟩
  have h2 : 2 ≤ q := hq.two_le
  rw [secp256k1_scalar_inverse, powMod_eq, ZMod.natCast_mod, Nat.cast_pow]
  have h1 : (a : ZMod q) ^ (q - 1) = 1 := ZMod.pow_card_sub_one_eq_one ha
  have hq1 : q - 1 = (q - 2) + 1 := by omega
  rw [hq1, pow_succ] at h1
  exact eq_inv_of_mul_eq_one_left h1

theorem scalar_add_lt (q a b : Nat) (hq : 0 < q) : secp256k1_scalar_add q a b < q :=
  Nat.mod_lt _ hq

theorem scalar_mul_lt (q a b : Nat) (hq : 0 < q) : secp256k1_scalar_mul q a b < q :=
  Nat.mod_lt _ hq

/-- Two reduced numbers with the same class modulo `q` are equal. -/
theorem eq_of_cast_eq (q a b : Nat) (ha : a < q) (hb : b < q)
    (h : (a : ZMod q) = (b : ZMod q)) : a = b := by
  have := (ZMod.natCast_eq_natCast_iff' a b q).mp h
  rwa [Nat.mod_eq_of_lt ha, Nat.mod_eq_of_lt hb] at this

theorem shiftAddLoop_some (q : Nat) : ∀ (fuel a x : Nat) (n : Int) (v : Nat),
    shiftAddLoop q fuel a x n = some v →
      0 ≤ n ∧ (v : ZMod q) = (a : ZMod q) + (x : ZMod q) * ((n : Int) : ZMod q) := by
  intro fuel
  induction fuel with
  | zero =>
    intro a x n v h
    unfold shiftAddLoop at h
    split at h
    · rename_i h0
      subst h0
      simp only [Option.some.injEq] at h
      subst h
      simp
    · cases h
  | succ f ih =>
    intro a x n v h
    unfold shiftAddLoop at h
    split at h
    · rename_i h0
      subst h0
      simp only [Option.some.injEq] at h
      subst h
      simp
    · rename_i h0
      obtain ⟨hn, hv⟩ := ih _ _ _ _ h
      rw [Int.shiftRight_eq_div_pow] at hn hv
      have hn2 : 0 ≤ n / 2 := by simpa using hn
      have hnn : 0 ≤ n := by omega
      refine ⟨hnn, ?_⟩
      rw [hv, cast_scalar_add]
      have hdecomp : n = 2 * (n / 2) + n % 2 := by omega
      have hc : ((n : Int) : ZMod q) = 2 * (((n / 2 : Int)) : ZMod q) + (((n % 2 : Int)) : ZMod q) := by
        conv_lhs => rw [hdecomp]
        push_cast
        ring
      have hpow : ((2 ^ 1 : Nat) : Int) = 2 := by norm_num
      rw [hpow, hc]
      by_cases h1 : n % 2 ≠ 0
      · have h1v : n % 2 = 1 := by omega
        rw [if_pos h1, cast_scalar_add, h1v]
        push_cast
        ring
      · have h1v : n % 2 = 0 := by omega
        rw [if_neg h1, h1v]
        push_cast
        ring

theorem shiftAddLoop_terminates (q : Nat) : ∀ (fuel a x : Nat) (n : Int),
    0 ≤ n → n < 2 ^ fuel → ∃ v, shiftAddLoop q fuel a x n = some v := by
  intro fuel
  induction fuel with
  | zero =>
    intro a x n h0 h1
    have : n = 0 := by simp at h1; omega
    subst this
    exact ⟨a, by simp [shiftAddLoop]⟩
  | succ f ih =>
    intro a x n h0 h1
    unfold shiftAddLoop
    by_cases hz : n = 0
    · exact ⟨a, by simp [hz]⟩
    · rw [if_neg hz]
      apply ih
      · rw [Int.shiftRight_eq_div_pow]
        have : ((2 ^ 1 : Nat) : Int) = 2 := by norm_num
        rw [this]; omega
      · rw [Int.shiftRight_eq_div_pow]
        have : ((2 ^ 1 : Nat) : Int) = 2 := by norm_num
        rw [this]
        rw [pow_succ] at h1
        omega

theorem shiftAddLoop_neg (q : Nat) (fuel a x : Nat) (n : Int) (hn : n < 0) :
    shiftAddLoop q fuel a x n = none := by
  cases h : shiftAddLoop q fuel a x n with
  | none => rfl
  | some v =>
    have := (shiftAddLoop_some q fuel a x n v h).1
    omega

theorem shiftAddLoop_lt (q : Nat) (hq : 0 < q) : ∀ (fuel a x : Nat) (n : Int) (v : Nat),
    a < q → shiftAddLoop q fuel a x n = some v → v < q := by
  intro fuel
  induction fuel with
  | zero =>
    intro a x n v ha h
    unfold shiftAddLoop at h
    split at h
    · simp only [Option.some.injEq] at h; omega
    · cases h
  | succ f ih =>
    intro a x n v ha h
    unfold shiftAddLoop at h
    split at h
    · simp only [Option.some.injEq] at h; omega
    · refine ih _ _ _ _ ?_ h
      split
      · exact scalar_add_lt q a x hq
      · exact ha

theorem Env.Valid.pos {E : Env} (hE : E.Valid) : 0 < E.q := hE.prime.pos

theorem serializeHash_congr (E : Env) (e1 e2 : Nat) (h1 : e1 < E.q) (h2 : e2 < E.q)
    (h : (e1 : ZMod E.q) = (e2 : ZMod E.q)) : serializeHash E e1 = serializeHash E e2 := by
  rw [eq_of_cast_eq E.q e1 e2 h1 h2 h]

theorem serializeHash_ok (E : Env) (e : Nat) (h : List Nat) :
    serializeHash E e = .ok h ↔ e ≠ 0 ∧ h = E.pubkey_encode e true := by
  unfold serializeHash secp256k1_eckey_pubkey_serialize secp256k1_ge_is_infinity
  by_cases he : e = 0
  · simp [he]
  · simp [he, eq_comm]

theorem serializeHash_inj (E : Env) (hE : E.Valid) (e1 e2 : Nat) (h1 : e1 < E.q) (h2 : e2 < E.q)
    (x : List Nat) (hx1 : serializeHash E e1 = .ok x) (hx2 : serializeHash E e2 = .ok x) :
    e1 = e2 := by
  obtain ⟨hn1, hh1⟩ := (serializeHash_ok E e1 x).mp hx1
  obtain ⟨hn2, hh2⟩ := (serializeHash_ok E e2 x).mp hx2
  have p1 := hE.parse_encode e1 true (Nat.pos_of_ne_zero hn1) h1
  have p2 := hE.parse_encode e2 true (Nat.pos_of_ne_zero hn2) h2
  rw [← hh1] at p1
  rw [← hh2, p1] at p2
  exact Option.some.inj p2

/-- The holder constructor: what a successful call establishes. -/
theorem fromSk_ok (E : Env) (fuel sk w : Nat) (n : Int) (H : ChameleonHash)
    (h : ChameleonHash.fromSk E fuel sk w n = .ok H) :
    sk % E.q ≠ 0 ∧ H.hasSecretKey_ = true ∧ H.w = w % E.q ∧ H.sk = sk % E.q ∧
    H.skInv = secp256k1_scalar_inverse E.q (sk % E.q) ∧
    ∃ a, shiftAddLoop E.q fuel 0 (secp256k1_scalar_add E.q 0 (w % E.q)) n = some a ∧
      H.pk = secp256k1_ecmult_gen E.q
        (secp256k1_scalar_add E.q (secp256k1_scalar_add E.q 0 (sk % E.q)) a) := by
  unfold ChameleonHash.fromSk at h
  simp only [secp256k1_scalar_set_b32, secp256k1_scalar_is_zero] at h
  split at h
  · cases h
  · rename_i hz
    split at h
    · cases h
    · rename_i a ha
      simp only [Except.ok.injEq] at h
      subst h
      refine ⟨by simpa using hz, rfl, rfl, rfl, rfl, a, ha, rfl⟩

theorem ch_holder (E : Env) (fuel : Nat) (H : ChameleonHash) (m r : Nat) (n : Int) (a : Nat)
    (hH : H.hasSecretKey_ = true)
    (ha : shiftAddLoop E.q fuel 0 (secp256k1_scalar_add E.q 0 H.w) n = some a) :
    H.ch E fuel m r n =
      if E.q ≤ r then .error .overflow
      else serializeHash E (secp256k1_ecmult_gen E.q
        (secp256k1_scalar_add E.q
          (secp256k1_scalar_add E.q (secp256k1_scalar_mul E.q (r % E.q) H.sk) (m % E.q))
          (secp256k1_scalar_mul E.q a (r % E.q)))) := by
  unfold ChameleonHash.ch
  simp only [secp256k1_scalar_set_b32, hH, ha, if_true]
  by_cases hr : E.q ≤ r
  · simp [hr]
  · simp [hr]

theorem ch_holder_out_of_fuel (E : Env) (fuel : Nat) (H : ChameleonHash) (m r : Nat) (n : Int)
    (hH : H.hasSecretKey_ = true)
    (ha : shiftAddLoop E.q fuel 0 (secp256k1_scalar_add E.q 0 H.w) n = none) :
    H.ch E fuel m r n = if E.q ≤ r then .error .overflow else .error .out_of_fuel := by
  unfold ChameleonHash.ch
  simp only [secp256k1_scalar_set_b32, hH, ha, if_true]
  by_cases hr : E.q ≤ r
  · simp [hr]
  · simp [hr]

theorem ch_verifier (E : Env) (fuel : Nat) (V : ChameleonHash) (m r : Nat) (n : Int)
    (hV : V.hasSecretKey_ = false) :
    V.ch E fuel m r n =
      if E.q ≤ r then .error .overflow
      else serializeHash E (secp256k1_ecmult E.q V.pk (r % E.q) (m % E.q)) := by
  unfold ChameleonHash.ch
  simp only [secp256k1_scalar_set_b32, hV]
  by_cases hr : E.q ≤ r
  · simp [hr]
  · simp [hr]

theorem fromSk_pk (E : Env) (hq : 0 < E.q) (fuel sk w : Nat) (n : Int) (H : ChameleonHash)
    (h : ChameleonHash.fromSk E fuel sk w n = .ok H) :
    0 ≤ n ∧ H.pk < E.q ∧ (H.pk : ZMod E.q) = (sk : ZMod E.q) + (w : ZMod E.q) * ((n : Int) : ZMod E.q) := by
  obtain ⟨_, _, _, _, _, a, ha, hpk⟩ := fromSk_ok E fuel sk w n H h
  obtain ⟨hn, hcast⟩ := shiftAddLoop_some E.q fuel _ _ n a ha
  refine ⟨hn, ?_, ?_⟩
  · rw [hpk]; exact Nat.mod_lt _ hq
  · rw [hpk, secp256k1_ecmult_gen, ZMod.natCast_mod, cast_scalar_add, cast_scalar_add, hcast,
      cast_scalar_add, ZMod.natCast_mod, ZMod.natCast_mod]
    push_cast
    ring

theorem fromSk_terminates (E : Env) (fuel sk w : Nat) (n : Int)
    (hsk : sk % E.q ≠ 0) (hn0 : 0 ≤ n) (hn1 : n < 2 ^ fuel) :
    ∃ H, ChameleonHash.fromSk E fuel sk w n = .ok H := by
  obtain ⟨a, ha⟩ := shiftAddLoop_terminates E.q fuel 0
    (secp256k1_scalar_add E.q 0 (w % E.q)) n hn0 hn1
  unfold ChameleonHash.fromSk
  simp only [secp256k1_scalar_set_b32, secp256k1_scalar_is_zero, ha]
  simp [hsk]

theorem getPk_ok (E : Env) (H : ChameleonHash) (c : Bool) (pk : List Nat) :
    H.getPk E c = .ok pk ↔ H.pk ≠ 0 ∧ pk = E.pubkey_encode H.pk c := by
  unfold ChameleonHash.getPk secp256k1_eckey_pubkey_serialize secp256k1_ge_is_infinity
  by_cases he : H.pk = 0
  · simp [he]
  · simp [he, eq_comm]

theorem fromPk_ok (E : Env) (pk : List Nat) (w : Nat) (V : ChameleonHash) :
    ChameleonHash.fromPk E pk w = .ok V ↔
      E.pubkey_parse pk = some V.pk ∧ V.w = w % E.q ∧ V.sk = 0 ∧ V.skInv = 0 ∧
        V.hasSecretKey_ = false := by
  unfold ChameleonHash.fromPk
  cases hp : E.pubkey_parse pk with
  | none => simp
  | some a =>
    simp only [secp256k1_scalar_set_b32, Except.ok.injEq, Option.some.injEq]
    constructor
    · intro h; subst h; simp
    · rintro ⟨h1, h2, h3, h4, h5⟩
      cases V
      simp_all

/-- Claim C1: the holder-mode and the verifier-mode evaluation of `ch` agree. -/
theorem ch_holder_verifier_agree (E : Env) (hE : E.Valid) (fuel sk w : Nat) (n : Int) (d r : Nat)
    (hsk : sk % E.q ≠ 0) (hn0 : 0 ≤ n) (hn1 : n < 2 ^ fuel) :
    ∃ H, ChameleonHash.fromSk E fuel sk w n = .ok H ∧
      ((sk + n.toNat * w) % E.q ≠ 0 →
        ∃ pk V, H.getPk E true = .ok pk ∧ ChameleonHash.fromPk E pk w = .ok V) ∧
      (∀ (c : Bool) (pk : List Nat) (V : ChameleonHash),
        H.getPk E c = .ok pk → ChameleonHash.fromPk E pk w = .ok V →
          H.ch E fuel d r n = V.ch E fuel d r n) := by
  have hq := hE.pos
  obtain ⟨H, hH⟩ := fromSk_terminates E fuel sk w n hsk hn0 hn1
  obtain ⟨_, hHflag, hHw, hHsk, _, a, ha, _⟩ := fromSk_ok E fuel sk w n H hH
  obtain ⟨_, hpklt, hpkc⟩ := fromSk_pk E hq fuel sk w n H hH
  have hncast : ((n : Int) : ZMod E.q) = ((n.toNat : Nat) : ZMod E.q) := by
    rw [← Int.cast_natCast, Int.toNat_of_nonneg hn0]
  refine ⟨H, hH, ?_, ?_⟩
  · intro hne
    have hpk0 : H.pk ≠ 0 := by
      intro h0
      apply hne
      have h1 : (((sk + n.toNat * w) % E.q : Nat) : ZMod E.q) = ((0 : Nat) : ZMod E.q) := by
        rw [ZMod.natCast_mod, ← h0, hpkc, hncast]
        push_cast
        ring
      exact eq_of_cast_eq E.q _ 0 (Nat.mod_lt _ hq) hq h1
    refine ⟨E.pubkey_encode H.pk true,
      { pk := H.pk, w := w % E.q, sk := 0, skInv := 0, hasSecretKey_ := false }, ?_, ?_⟩
    · exact (getPk_ok E H true _).mpr ⟨hpk0, rfl⟩
    · exact (fromPk_ok E _ w _).mpr
        ⟨hE.parse_encode H.pk true (Nat.pos_of_ne_zero hpk0) hpklt, rfl, rfl, rfl, rfl⟩
  · intro c pk V hpk hV
    obtain ⟨hpk0, hpkeq⟩ := (getPk_ok E H c pk).mp hpk
    obtain ⟨hparse, _, _, _, hVflag⟩ := (fromPk_ok E pk w V).mp hV
    have hVpk : V.pk = H.pk := by
      rw [hpkeq, hE.parse_encode H.pk c (Nat.pos_of_ne_zero hpk0) hpklt] at hparse
      exact (Option.some.inj hparse).symm
    rw [← hHw] at ha
    rw [ch_holder E fuel H d r n a hHflag ha, ch_verifier E fuel V d r n hVflag]
    by_cases hr : E.q ≤ r
    · simp [hr]
    · simp only [hr, if_false]
      apply serializeHash_congr
      · exact Nat.mod_lt _ hq
      · exact Nat.mod_lt _ hq
      · obtain ⟨_, hac⟩ := shiftAddLoop_some E.q fuel _ _ n a ha
        rw [secp256k1_ecmult_gen, secp256k1_ecmult, ZMod.natCast_mod, ZMod.natCast_mod,
          cast_scalar_add, cast_scalar_add, cast_scalar_mul, cast_scalar_mul, hac,
          cast_scalar_add, hVpk]
        push_cast
        rw [hpkc, hHsk, hHw]
        simp only [ZMod.natCast_mod]
        ring

theorem foldl_bytes_append (l : List Nat) (acc b : Nat) :
    (l ++ [b]).foldl (fun acc x => acc * 256 + x) acc
      = l.foldl (fun acc x => acc * 256 + x) acc * 256 + b := by
  simp [List.foldl_append]

theorem bytes_decode_aux (x : Nat) : ∀ k : Nat,
    ((List.range k).map (fun i => x / 256 ^ (k - 1 - i) % 256)).foldl
      (fun acc b => acc * 256 + b) 0 = x % 256 ^ k := by
  intro k
  induction k generalizing x with
  | zero => simp [Nat.mod_one]
  | succ k ih =>
    rw [List.range_succ, List.map_append, List.map_singleton, foldl_bytes_append]
    have hmap : (List.range k).map (fun i => x / 256 ^ (k + 1 - 1 - i) % 256)
        = (List.range k).map (fun i => (x / 256) / 256 ^ (k - 1 - i) % 256) := by
      apply List.map_congr_left
      intro i hi
      have hi2 : i < k := List.mem_range.mp hi
      have : k + 1 - 1 - i = (k - 1 - i) + 1 := by omega
      rw [this, pow_succ, Nat.mul_comm, Nat.div_div_eq_div_mul]
    rw [hmap, ih (x / 256)]
    have h0 : k + 1 - 1 - k = 0 := by omega
    rw [h0, pow_zero, Nat.div_one, pow_succ]
    rw [Nat.mul_comm (256 ^ k) 256, Nat.mod_mul]
    ring

theorem bytes32_decode (x : Nat) :
    (bytes32 x).foldl (fun acc b => acc * 256 + b) 0 = x % 256 ^ 32 :=
  bytes_decode_aux x 32

theorem bytes32_length (x : Nat) : (bytes32 x).length = 32 := by
  simp [bytes32]

/-! ## The order of the secp256k1 group is a prime -/

/-- Lucas test with the prime factors of `p - 1`: a certificate that `p` is
a prime. -/
theorem pratt_certificate (p a : Nat) (fs : List (Nat × Nat)) (hp : 1 < p)
    (hprod : p - 1 = (fs.map (fun fe => fe.1 ^ fe.2)).prod)
    (hprime : ∀ fe ∈ fs, Nat.Prime fe.1)
    (h1 : powMod p a (p - 1) = 1)
    (h2 : ∀ fe ∈ fs, powMod p a ((p - 1) / fe.1) ≠ 1) : Nat.Prime p := by
  apply lucas_primality p (a : ZMod p)
  · rw [powMod_eq] at h1
    have h : ((a ^ (p - 1) : Nat) : ZMod p) = ((1 : Nat) : ZMod p) :=
      (ZMod.natCast_eq_natCast_iff' _ _ _).mpr (by rw [h1, Nat.mod_eq_of_lt hp])
    simpa using h
  · intro r hr hdvd
    rw [hprod] at hdvd
    obtain ⟨x, hx, hrx⟩ := (Prime.dvd_prod_iff hr.prime).mp hdvd
    obtain ⟨fe, hfe, rfl⟩ := List.mem_map.mp hx
    have hrf : r ∣ fe.1 := hr.dvd_of_dvd_pow hrx
    have hre : r = fe.1 := (Nat.prime_dvd_prime_iff_eq hr (hprime fe hfe)).mp hrf
    subst hre
    intro hpow
    apply h2 fe hfe
    rw [powMod_eq]
    have h : ((a ^ ((p - 1) / fe.1) : Nat) : ZMod p) = ((1 : Nat) : ZMod p) := by
      push_cast
      exact hpow
    have h3 := (ZMod.natCast_eq_natCast_iff' _ _ _).mp h
    rw [h3, Nat.mod_eq_of_lt hp]

set_option maxRecDepth 100000 in
/-- The number `1627771` is a prime. -/
theorem prime_1627771 : Nat.Prime 1627771 :=
  pratt_certificate 1627771 3 [(2, 1), (3, 1), (5, 1), (29, 1), (1871, 1)] (by decide) (by decide)
    (by
      intro fe hfe
      simp only [List.mem_cons, List.mem_singleton, List.not_mem_nil, or_false] at hfe
      rcases hfe with rfl | rfl | rfl | rfl | rfl
      · norm_num
      · norm_num
      · norm_num
      · norm_num
      · norm_num)
    (by decide) (by decide)

set_option maxRecDepth 100000 in
/-- The number `4681609` is a prime. -/
theorem prime_4681609 : Nat.Prime 4681609 :=
  pratt_certificate 4681609 23 [(2, 3), (3, 1), (97, 1), (2011, 1)] (by decide) (by decide)
    (by
      intro fe hfe
      simp only [List.mem_cons, List.mem_singleton, List.not_mem_nil, or_false] at hfe
      rcases hfe with rfl | rfl | rfl | rfl
      · norm_num
      · norm_num
      · norm_num
      · norm_num)
    (by decide) (by decide)

set_option maxRecDepth 100000 in
/-- The number `44706919` is a prime. -/
theorem prime_44706919 : Nat.Prime 44706919 :=
  pratt_certificate 44706919 6 [(2, 1), (3, 1), (797, 1), (9349, 1)] (by decide) (by decide)
    (by
      intro fe hfe
      simp only [List.mem_cons, List.mem_singleton, List.not_mem_nil, or_false] at hfe
      rcases hfe with rfl | rfl | rfl | rfl
      · norm_num
      · norm_num
      · norm_num
      · norm_num)
    (by decide) (by decide)

set_option maxRecDepth 100000 in
/-- The number `545358713` is a prime. -/
theorem prime_545358713 : Nat.Prime 545358713 :=
  pratt_certificate 545358713 5 [(2, 3), (41, 1), (59, 1), (28181, 1)] (by decide) (by decide)
    (by
      intro fe hfe
      simp only [List.mem_cons, List.mem_singleton, List.not_mem_nil, or_false] at hfe
      rcases hfe with rfl | rfl | rfl | rfl
      · norm_num
      · norm_num
      · norm_num
      · norm_num)
    (by decide) (by decide)

set_option maxRecDepth 100000 in
/-- The number `297159362677` is a prime. -/
theorem prime_297159362677 : Nat.Prime 297159362677 :=
  pratt_certificate 297159362677 2 [(2, 2), (3, 2), (11, 1), (461, 1), (1627771, 1)] (by decide) (by decide)
    (by
      intro fe hfe
      simp only [List.mem_cons, List.mem_singleton, List.not_mem_nil, or_false] at hfe
      rcases hfe with rfl | rfl | rfl | rfl | rfl
      · norm_num
      · norm_num
      · norm_num
      · norm_num
      · exact prime_1627771)
    (by decide) (by decide)

set_option maxRecDepth 100000 in
/-- The number `107361793816595537` is a prime. -/
theorem prime_107361793816595537 : Nat.Prime 107361793816595537 :=
  pratt_certificate 107361793816595537 3 [(2, 4), (16699, 1), (85831, 1), (4681609, 1)] (by decide) (by decide)
    (by
      intro fe hfe
      simp only [List.mem_cons, List.mem_singleton, List.not_mem_nil, or_false] at hfe
      rcases hfe with rfl | rfl | rfl | rfl
      · norm_num
      · norm_num
      · norm_num
      · exact prime_4681609)
    (by decide) (by decide)

set_option maxRecDepth 100000 in
/-- The number `174723607534414371449` is a prime. -/
theorem prime_174723607534414371449 : Nat.Prime 174723607534414371449 :=
  pratt_certificate 174723607534414371449 3 [(2, 3), (17, 1), (59, 1), (4051, 1), (120233, 1), (44706919, 1)] (by decide) (by decide)
    (by
      intro fe hfe
      simp only [List.mem_cons, List.mem_singleton, List.not_mem_nil, or_false] at hfe
      rcases hfe with rfl | rfl | rfl | rfl | rfl | rfl
      · norm_num
      · norm_num
      · norm_num
      · norm_num
      · norm_num
      · exact prime_44706919)
    (by decide) (by decide)

set_option maxRecDepth 100000 in
/-- The number `29047611873442575647497758179` is a prime. -/
theorem prime_29047611873442575647497758179 : Nat.Prime 29047611873442575647497758179 :=
  pratt_certificate 29047611873442575647497758179 2 [(2, 1), (293, 1), (305873, 1), (545358713, 1), (297159362677, 1)] (by decide) (by decide)
    (by
      intro fe hfe
      simp only [List.mem_cons, List.mem_singleton, List.not_mem_nil, or_false] at hfe
      rcases hfe with rfl | rfl | rfl | rfl | rfl
      · norm_num
      · norm_num
      · norm_num
      · exact prime_545358713
      · exact prime_297159362677)
    (by decide) (by decide)

set_option maxRecDepth 100000 in
/-- The number `341948486974166000522343609283189` is a prime. -/
theorem prime_341948486974166000522343609283189 : Nat.Prime 341948486974166000522343609283189 :=
  pratt_certificate 341948486974166000522343609283189 2 [(2, 2), (3, 3), (109, 1), (29047611873442575647497758179, 1)] (by decide) (by decide)
    (by
      intro fe hfe
      simp only [List.mem_cons, List.mem_singleton, List.not_mem_nil, or_false] at hfe
      rcases hfe with rfl | rfl | rfl | rfl
      · norm_num
      · norm_num
      · norm_num
      · exact prime_29047611873442575647497758179)
    (by decide) (by decide)

set_option maxRecDepth 100000 in
/-- The order of the secp256k1 group is a prime. -/
theorem secp256k1_n_prime : Nat.Prime secp256k1_n :=
  pratt_certificate secp256k1_n 7 [(2, 6), (3, 1), (149, 1), (631, 1), (107361793816595537, 1), (174723607534414371449, 1), (341948486974166000522343609283189, 1)] (by decide) (by decide)
    (by
      intro fe hfe
      simp only [List.mem_cons, List.mem_singleton, List.not_mem_nil, or_false] at hfe
      rcases hfe with rfl | rfl | rfl | rfl | rfl | rfl | rfl
      · norm_num
      · norm_num
      · norm_num
      · norm_num
      · exact prime_107361793816595537
      · exact prime_174723607534414371449
      · exact prime_341948486974166000522343609283189)
    (by decide) (by decide)

/-- The instance `demoEnv` satisfies the laws of the environment. -/
theorem demoEnv_valid : demoEnv.Valid where
  prime := secp256k1_n_prime
  parse_encode := by
    intro a c h0 h1
    have h1a : a < secp256k1_n := h1
    have hlt : a < 256 ^ 32 := by
      have : secp256k1_n < 256 ^ 32 := by decide
      omega
    have htake : (bytes32 a).take 32 = bytes32 a := by
      rw [List.take_of_length_le (by rw [bytes32_length])]
    show standInParse secp256k1_n ((if c then 2 else 4) :: bytes32 a) = some a
    simp only [standInParse, htake, bytes32_decode, Nat.mod_eq_of_lt hlt]
    cases c <;> simp [h0, h1a]

theorem shiftAddLoop_isSome_congr (q : Nat) : ∀ (fuel a x a' x' : Nat) (n : Int),
    (shiftAddLoop q fuel a x n).isSome = (shiftAddLoop q fuel a' x' n).isSome := by
  intro fuel
  induction fuel with
  | zero =>
    intro a x a' x' n
    unfold shiftAddLoop
    by_cases h : n = 0 <;> simp [h]
  | succ f ih =>
    intro a x a' x' n
    unfold shiftAddLoop
    by_cases h : n = 0
    · simp [h]
    · rw [if_neg h, if_neg h]
      exact ih _ _ _ _ _

theorem shiftAddLoop_transfer (q fuel a x a' x' : Nat) (n : Int) (v : Nat)
    (h : shiftAddLoop q fuel a x n = some v) : ∃ v', shiftAddLoop q fuel a' x' n = some v' := by
  have := shiftAddLoop_isSome_congr q fuel a x a' x' n
  rw [h] at this
  exact Option.isSome_iff_exists.mp this.symm

theorem collision_holder (E : Env) (fuel : Nat) (H : ChameleonHash) (d1 r1 : Nat) (n1 : Int)
    (d2 r2 : Nat) (n2 : Int) (a1 a2 : Nat) (hH : H.hasSecretKey_ = true)
    (h1 : shiftAddLoop E.q fuel 0 (secp256k1_scalar_add E.q 0 H.w) n1 = some a1)
    (h2 : shiftAddLoop E.q fuel 0 (secp256k1_scalar_add E.q 0 H.w) n2 = some a2) :
    H.collision E fuel d1 r1 n1 d2 r2 n2 =
      (secp256k1_scalar_get_b32 E.q
        (secp256k1_scalar_mul E.q
          (secp256k1_scalar_add E.q
            (secp256k1_scalar_add E.q (d1 % E.q) (secp256k1_scalar_negate E.q (d2 % E.q)))
            (secp256k1_scalar_mul E.q (r1 % E.q) (secp256k1_scalar_add E.q a1 H.sk)))
          (secp256k1_scalar_inverse E.q (secp256k1_scalar_add E.q a2 H.sk))), .ok ()) := by
  unfold ChameleonHash.collision
  simp only [ChameleonHash.hasSecretKey, hH, secp256k1_scalar_set_b32, h1, h2]
  rfl

theorem collision_verifier (E : Env) (fuel : Nat) (V : ChameleonHash) (d1 r1 : Nat) (n1 : Int)
    (d2 r2 : Nat) (n2 : Int) (hV : V.hasSecretKey_ = false) :
    V.collision E fuel d1 r1 n1 d2 r2 n2 = (r2, .error .no_secret_key) := by
  unfold ChameleonHash.collision
  simp [ChameleonHash.hasSecretKey, hV]

theorem extract_eq (E : Env) (fuel : Nat) (I : ChameleonHash) (d1 r1 : Nat) (n1 : Int)
    (d2 r2 : Nat) (n2 : Int) (a1 a2 : Nat)
    (h1 : shiftAddLoop E.q fuel 0 (r1 % E.q) n1 = some a1)
    (h2 : shiftAddLoop E.q fuel 0 (r2 % E.q) n2 = some a2) :
    I.extract E fuel d1 r1 n1 d2 r2 n2 =
      ({ I with
          sk := secp256k1_scalar_mul E.q
            (secp256k1_scalar_add E.q
              (secp256k1_scalar_add E.q (d1 % E.q) (secp256k1_scalar_negate E.q (d2 % E.q)))
              (secp256k1_scalar_mul E.q
                (secp256k1_scalar_add E.q a1 (secp256k1_scalar_negate E.q a2))
                (secp256k1_scalar_add E.q 0 I.w)))
            (secp256k1_scalar_inverse E.q
              (secp256k1_scalar_add E.q (r2 % E.q) (secp256k1_scalar_negate E.q (r1 % E.q)))),
          skInv := secp256k1_scalar_inverse E.q
            (secp256k1_scalar_mul E.q
              (secp256k1_scalar_add E.q
                (secp256k1_scalar_add E.q (d1 % E.q) (secp256k1_scalar_negate E.q (d2 % E.q)))
                (secp256k1_scalar_mul E.q
                  (secp256k1_scalar_add E.q a1 (secp256k1_scalar_negate E.q a2))
                  (secp256k1_scalar_add E.q 0 I.w)))
              (secp256k1_scalar_inverse E.q
                (secp256k1_scalar_add E.q (r2 % E.q) (secp256k1_scalar_negate E.q (r1 % E.q))))),
          hasSecretKey_ := true }, .ok ()) := by
  unfold ChameleonHash.extract
  simp only [secp256k1_scalar_set_b32, h1, h2]

theorem extract_out_of_fuel (E : Env) (fuel : Nat) (I : ChameleonHash) (d1 r1 : Nat) (n1 : Int)
    (d2 r2 : Nat) (n2 : Int)
    (h : shiftAddLoop E.q fuel 0 (r1 % E.q) n1 = none ∨ shiftAddLoop E.q fuel 0 (r2 % E.q) n2 = none) :
    I.extract E fuel d1 r1 n1 d2 r2 n2 = (I, .error .out_of_fuel) := by
  unfold ChameleonHash.extract
  simp only [secp256k1_scalar_set_b32]
  cases h2 : shiftAddLoop E.q fuel 0 (r2 % E.q) n2 with
  | none => rfl
  | some a2 =>
    cases h1 : shiftAddLoop E.q fuel 0 (r1 % E.q) n1 with
    | none => rfl
    | some a1 =>
      rcases h with h | h
      · rw [h1] at h; cases h
      · rw [h2] at h; cases h

theorem cast_int_toNat (q : Nat) (n : Int) (hn : 0 ≤ n) :
    ((n : Int) : ZMod q) = ((n.toNat : Nat) : ZMod q) := by
  rw [← Int.cast_natCast, Int.toNat_of_nonneg hn]

theorem cast_ne_zero_of_mod_ne (q a : Nat) (h : a % q ≠ 0) : (a : ZMod q) ≠ 0 := by
  intro h0
  apply h
  have : (a : ZMod q) = ((0 : Nat) : ZMod q) := by simpa using h0
  have := (ZMod.natCast_eq_natCast_iff' a 0 q).mp this
  simpa using this

theorem cast_eq_zero_of_mod_eq (q a : Nat) (h : a % q = 0) : (a : ZMod q) = 0 := by
  have : (a : ZMod q) = ((0 : Nat) : ZMod q) :=
    (ZMod.natCast_eq_natCast_iff' a 0 q).mpr (by simpa using h)
  simpa using this

/-- A successful holder-mode `ch`: the randomness does not overflow, the
level-weight loop ends, and the result encodes the point with exponent
`m + (sk + n*w) * r`. -/
theorem ch_holder_ok (E : Env) (hq : 0 < E.q) (fuel : Nat) (H : ChameleonHash) (m r : Nat)
    (n : Int) (x : List Nat) (hH : H.hasSecretKey_ = true) (h : H.ch E fuel m r n = .ok x) :
    r < E.q ∧ 0 ≤ n ∧
      (∃ a, shiftAddLoop E.q fuel 0 (secp256k1_scalar_add E.q 0 H.w) n = some a) ∧
      ∃ e, e < E.q ∧ serializeHash E e = .ok x ∧
        (e : ZMod E.q) = (m : ZMod E.q)
          + ((H.sk : ZMod E.q) + (H.w : ZMod E.q) * ((n : Int) : ZMod E.q)) * (r : ZMod E.q) := by
  cases ha : shiftAddLoop E.q fuel 0 (secp256k1_scalar_add E.q 0 H.w) n with
  | none =>
    rw [ch_holder_out_of_fuel E fuel H m r n hH ha] at h
    split at h <;> cases h
  | some a =>
    rw [ch_holder E fuel H m r n a hH ha] at h
    split at h
    · cases h
    · rename_i hr
      obtain ⟨hn, hac⟩ := shiftAddLoop_some E.q fuel _ _ n a ha
      refine ⟨by omega, hn, ⟨a, rfl⟩, secp256k1_ecmult_gen E.q _, Nat.mod_lt _ hq, h, ?_⟩
      rw [secp256k1_ecmult_gen, ZMod.natCast_mod, cast_scalar_add, cast_scalar_add,
        cast_scalar_mul, cast_scalar_mul, hac, cast_scalar_add]
      simp only [ZMod.natCast_mod]
      push_cast
      ring

/-- The outcome of a holder-mode `ch` is determined by the class of the
exponent `m + (sk + n*w) * r`. -/
theorem ch_holder_congr (E : Env) (hq : 0 < E.q) (fuel : Nat) (H : ChameleonHash)
    (m1 r1 : Nat) (n1 : Int) (m2 r2 : Nat) (n2 : Int) (a1 a2 : Nat)
    (hH : H.hasSecretKey_ = true) (hr1 : r1 < E.q) (hr2 : r2 < E.q)
    (h1 : shiftAddLoop E.q fuel 0 (secp256k1_scalar_add E.q 0 H.w) n1 = some a1)
    (h2 : shiftAddLoop E.q fuel 0 (secp256k1_scalar_add E.q 0 H.w) n2 = some a2)
    (heq : (m1 : ZMod E.q) + ((H.sk : ZMod E.q) + (a1 : ZMod E.q)) * (r1 : ZMod E.q)
      = (m2 : ZMod E.q) + ((H.sk : ZMod E.q) + (a2 : ZMod E.q)) * (r2 : ZMod E.q)) :
    H.ch E fuel m1 r1 n1 = H.ch E fuel m2 r2 n2 := by
  rw [ch_holder E fuel H m1 r1 n1 a1 hH h1, ch_holder E fuel H m2 r2 n2 a2 hH h2,
    if_neg (by omega), if_neg (by omega)]
  apply serializeHash_congr E _ _ (Nat.mod_lt _ hq) (Nat.mod_lt _ hq)
  simp only [secp256k1_ecmult_gen, ZMod.natCast_mod, cast_scalar_add, cast_scalar_mul]
  linear_combination heq

/-- Claim C2 (as amended): the randomness computed by `collision` makes the
two chameleon hashes equal, provided the denominator `sk + n2*w` of the
collision is not zero modulo the group order. -/
theorem collision_roundtrip (E : Env) (hE : E.Valid) (fuel sk w : Nat) (n0 n1 n2 : Int)
    (d1 r1 d2 r2old : Nat) (H : ChameleonHash)
    (hH : ChameleonHash.fromSk E fuel sk w n0 = .ok H)
    (hn1 : 0 ≤ n1) (hf1 : n1 < 2 ^ fuel) (hn2 : 0 ≤ n2) (hf2 : n2 < 2 ^ fuel)
    (hr1 : r1 < E.q) (hden : (sk + n2.toNat * w) % E.q ≠ 0) :
    ∃ r2, H.collision E fuel d1 r1 n1 d2 r2old n2 = (r2, .ok ()) ∧ r2 < E.q ∧
      H.ch E fuel d1 r1 n1 = H.ch E fuel d2 r2 n2 := by
  have hq := hE.pos
  haveI : Fact (Nat.Prime E.q) := ⟨hE.prime⟩
  obtain ⟨_, hHflag, hHw, hHsk, _, _, _, _⟩ := fromSk_ok E fuel sk w n0 H hH
  obtain ⟨a1, h1⟩ := shiftAddLoop_terminates E.q fuel 0 (secp256k1_scalar_add E.q 0 H.w) n1 hn1 hf1
  obtain ⟨a2, h2⟩ := shiftAddLoop_terminates E.q fuel 0 (secp256k1_scalar_add E.q 0 H.w) n2 hn2 hf2
  obtain ⟨_, hc1⟩ := shiftAddLoop_some E.q fuel _ _ n1 a1 h1
  obtain ⟨_, hc2⟩ := shiftAddLoop_some E.q fuel _ _ n2 a2 h2
  have hdenc : (a2 : ZMod E.q) + (H.sk : ZMod E.q) ≠ 0 := by
    have := cast_ne_zero_of_mod_ne E.q _ hden
    rw [hc2, cast_scalar_add, hHw, hHsk, cast_int_toNat E.q n2 hn2]
    simp only [ZMod.natCast_mod]
    intro h0
    apply this
    push_cast
    linear_combination h0
  refine ⟨_, collision_holder E fuel H d1 r1 n1 d2 r2old n2 a1 a2 hHflag h1 h2, Nat.mod_lt _ hq, ?_⟩
  apply ch_holder_congr E hq fuel H d1 r1 n1 d2 _ n2 a1 a2 hHflag hr1 (Nat.mod_lt _ hq) h1 h2
  have hinv := cast_scalar_inverse E.q (secp256k1_scalar_add E.q a2 H.sk) hE.prime
    (by rw [cast_scalar_add]; exact hdenc)
  simp only [cast_scalar_mul, ZMod.natCast_mod, hinv]
  simp only [cast_scalar_add, cast_scalar_mul, cast_scalar_negate E.q _ hq, ZMod.natCast_mod]
  field_simp
  ring

set_option maxRecDepth 100000 in
/-- Witness of `collision_roundtrip`: on the holder `ChameleonHash(12345, 678, 5)`,
from `(d1, r1, n1) = (11, 22, 5)` to `(d2, n2) = (33, 7)`. -/
theorem collision_roundtrip_witness :
    ∃ r2, demoCh.collision demoEnv 32 11 22 5 33 0 7 = (r2, .ok ()) ∧ r2 < demoEnv.q ∧
      demoCh.ch demoEnv 32 11 22 5 = demoCh.ch demoEnv 32 33 r2 7 :=
  collision_roundtrip demoEnv demoEnv_valid 32 12345 678 5 5 7 11 22 33 0 demoCh
    (by decide) (by decide) (by decide) (by decide) (by decide) (by decide) (by decide)

set_option maxRecDepth 100000 in
/-- Counterexample to claim C2: on the holder `ChameleonHash(1, q - 1, 0)`, with
`n1 = 0` and `n2 = 1`, the denominator `sk + n2*w` of `collision` is the group
order `q`, that is zero; for `(d1, r1) = (5, 3)` and `d2 = 7` the call returns
`r2 = 0`, and `ch(5, 3, 0) = g^8` is not `ch(7, 0, 1) = g^7`. -/
theorem collision_roundtrip_counterexample :
    demoEnv.Valid ∧
    ChameleonHash.fromSk demoEnv 32 1 (secp256k1_n - 1) 0 = .ok demoChZero ∧
    demoChZero.collision demoEnv 32 5 3 0 7 0 1 = (0, .ok ()) ∧
    demoChZero.ch demoEnv 32 5 3 0 = .ok (demoEnv.pubkey_encode 8 true) ∧
    demoChZero.ch demoEnv 32 7 0 1 = .ok (demoEnv.pubkey_encode 7 true) ∧
    demoChZero.ch demoEnv 32 5 3 0 ≠ demoChZero.ch demoEnv 32 7 0 1 :=
  ⟨demoEnv_valid, by decide, by decide, by decide, by decide, by decide⟩

theorem scalar_negate_mod (q a : Nat) :
    secp256k1_scalar_negate q (a % q) = secp256k1_scalar_negate q a := by
  simp [secp256k1_scalar_negate, Nat.mod_mod]

/-- The key stored by `extract` is the quotient of the source comment. -/
theorem extract_sk_formula (E : Env) (hq : 0 < E.q) (fuel : Nat) (I : ChameleonHash)
    (d1 r1 : Nat) (n1 : Int) (d2 r2 : Nat) (n2 : Int) (a1 a2 : Nat)
    (h1 : shiftAddLoop E.q fuel 0 (r1 % E.q) n1 = some a1)
    (h2 : shiftAddLoop E.q fuel 0 (r2 % E.q) n2 = some a2) :
    (I.extract E fuel d1 r1 n1 d2 r2 n2).1.sk
      = extractFormulaCode E.q I.w d1 r1 n1.toNat d2 r2 n2.toNat := by
  rw [extract_eq E fuel I d1 r1 n1 d2 r2 n2 a1 a2 h1 h2]
  obtain ⟨hn1, hc1⟩ := shiftAddLoop_some E.q fuel _ _ n1 a1 h1
  obtain ⟨hn2, hc2⟩ := shiftAddLoop_some E.q fuel _ _ n2 a2 h2
  show secp256k1_scalar_mul E.q _ _ = extractFormulaCode E.q I.w d1 r1 n1.toNat d2 r2 n2.toNat
  unfold extractFormulaCode
  simp only [scalar_negate_mod]
  congr 1
  apply eq_of_cast_eq E.q _ _ (scalar_add_lt _ _ _ hq) (scalar_add_lt _ _ _ hq)
  simp only [cast_scalar_add, cast_scalar_mul, cast_scalar_negate E.q _ hq, ZMod.natCast_mod,
    hc1, hc2, cast_int_toNat E.q n1 hn1, cast_int_toNat E.q n2 hn2]
  push_cast
  ring

/-- Claim C8 (as amended): the key stored by `extract` is
`((d1 - d2) + w*(r1*n1 - r2*n2)) / (r2 - r1)` in the scalar field. -/
theorem extract_formula (E : Env) (hE : E.Valid) (fuel : Nat) (I : ChameleonHash)
    (d1 r1 : Nat) (n1 : Int) (d2 r2 : Nat) (n2 : Int)
    (hn1 : 0 ≤ n1) (hf1 : n1 < 2 ^ fuel) (hn2 : 0 ≤ n2) (hf2 : n2 < 2 ^ fuel)
    (hr : r1 % E.q ≠ r2 % E.q) :
    (I.extract E fuel d1 r1 n1 d2 r2 n2).2 = .ok () ∧
    (I.extract E fuel d1 r1 n1 d2 r2 n2).1.sk
      = extractFormulaCode E.q I.w d1 r1 n1.toNat d2 r2 n2.toNat ∧
    (I.extract E fuel d1 r1 n1 d2 r2 n2).1.sk < E.q ∧
    (((I.extract E fuel d1 r1 n1 d2 r2 n2).1.sk : Nat) : ZMod E.q)
      = (((d1 : ZMod E.q) - (d2 : ZMod E.q))
          + (I.w : ZMod E.q) * ((r1 : ZMod E.q) * ((n1 : Int) : ZMod E.q)
              - (r2 : ZMod E.q) * ((n2 : Int) : ZMod E.q)))
        * ((r2 : ZMod E.q) - (r1 : ZMod E.q))⁻¹ := by
  have hq := hE.pos
  obtain ⟨a1, h1⟩ := shiftAddLoop_terminates E.q fuel 0 (r1 % E.q) n1 hn1 hf1
  obtain ⟨a2, h2⟩ := shiftAddLoop_terminates E.q fuel 0 (r2 % E.q) n2 hn2 hf2
  obtain ⟨_, hc1⟩ := shiftAddLoop_some E.q fuel _ _ n1 a1 h1
  obtain ⟨_, hc2⟩ := shiftAddLoop_some E.q fuel _ _ n2 a2 h2
  have hden : (r2 : ZMod E.q) - (r1 : ZMod E.q) ≠ 0 := by
    intro h0
    apply hr
    exact ((ZMod.natCast_eq_natCast_iff' r1 r2 E.q).mp (sub_eq_zero.mp h0).symm)
  have hinv := cast_scalar_inverse E.q
    (secp256k1_scalar_add E.q (r2 % E.q) (secp256k1_scalar_negate E.q (r1 % E.q))) hE.prime
    (by
      rw [cast_scalar_add, cast_scalar_negate E.q _ hq, ZMod.natCast_mod, ZMod.natCast_mod,
        ← sub_eq_add_neg]
      exact hden)
  refine ⟨?_, extract_sk_formula E hq fuel I d1 r1 n1 d2 r2 n2 a1 a2 h1 h2, ?_, ?_⟩
  · rw [extract_eq E fuel I d1 r1 n1 d2 r2 n2 a1 a2 h1 h2]
  · rw [extract_eq E fuel I d1 r1 n1 d2 r2 n2 a1 a2 h1 h2]
    exact scalar_mul_lt _ _ _ hq
  · rw [extract_eq E fuel I d1 r1 n1 d2 r2 n2 a1 a2 h1 h2]
    simp only [cast_scalar_mul, hinv]
    simp only [cast_scalar_add, cast_scalar_mul, cast_scalar_negate E.q _ hq, ZMod.natCast_mod,
      hc1, hc2]
    push_cast
    ring_nf

set_option maxRecDepth 100000 in
/-- Witness of `extract_formula`: `d1 = 10`, `r1 = 2`, `n1 = 1`, `d2 = 4`,
`r2 = 5`, `n2 = 2` on an instance with `w = 3`. -/
theorem extract_formula_witness :
    (demoChThree.extract demoEnv 32 10 2 1 4 5 2).2 = .ok () ∧
    (demoChThree.extract demoEnv 32 10 2 1 4 5 2).1.sk
      = extractFormulaCode demoEnv.q demoChThree.w 10 2 (1 : Int).toNat 4 5 (2 : Int).toNat ∧
    (demoChThree.extract demoEnv 32 10 2 1 4 5 2).1.sk < demoEnv.q ∧
    (((demoChThree.extract demoEnv 32 10 2 1 4 5 2).1.sk : Nat) : ZMod demoEnv.q)
      = ((((10 : Nat) : ZMod demoEnv.q) - ((4 : Nat) : ZMod demoEnv.q))
          + (demoChThree.w : ZMod demoEnv.q)
            * (((2 : Nat) : ZMod demoEnv.q) * ((1 : Int) : ZMod demoEnv.q)
              - ((5 : Nat) : ZMod demoEnv.q) * ((2 : Int) : ZMod demoEnv.q)))
        * (((5 : Nat) : ZMod demoEnv.q) - ((2 : Nat) : ZMod demoEnv.q))⁻¹ :=
  extract_formula demoEnv demoEnv_valid 32 demoChThree 10 2 1 4 5 2
    (by decide) (by decide) (by decide) (by decide) (by decide)

set_option maxRecDepth 100000 in
/-- Counterexample to claim C8: for `d1 = 10`, `r1 = 2`, `n1 = 1`, `d2 = 4`,
`r2 = 5`, `n2 = 2` and `w = 3` the source stores
`(6 + 3*(2 - 10)) / 3 = -6`, the formula of the claim gives
`(6 - 3*(2 - 10)) / 3 = 10`. -/
theorem extract_formula_counterexample :
    demoEnv.Valid ∧ 2 % demoEnv.q ≠ 5 % demoEnv.q ∧
    (demoChThree.extract demoEnv 32 10 2 1 4 5 2).1.sk = secp256k1_n - 6 ∧
    extractFormulaSpec demoEnv.q 3 10 2 1 4 5 2 = 10 ∧
    (demoChThree.extract demoEnv 32 10 2 1 4 5 2).1.sk
      ≠ extractFormulaSpec demoEnv.q 3 10 2 1 4 5 2 :=
  ⟨demoEnv_valid, by decide, by decide, by decide, by decide⟩

theorem getSk_holder (E : Env) (I : ChameleonHash) (h : I.hasSecretKey_ = true) :
    I.getSk E = .ok (secp256k1_scalar_get_b32 E.q I.sk) := by
  simp [ChameleonHash.getSk, h]

theorem getSk_verifier (E : Env) (I : ChameleonHash) (h : I.hasSecretKey_ = false) :
    I.getSk E = .error .no_secret_key := by
  simp [ChameleonHash.getSk, h]

/-- The algebra of extraction: from a collision of the holder-mode hash with
key `sk` and weight `w`, the quotient computed by `extract` is `sk`. -/
theorem extract_algebra (q : Nat) [Fact (Nat.Prime q)] (sk w d1 r1 n1 d2 r2 n2 : ZMod q)
    (hr : r2 - r1 ≠ 0)
    (hcol : d1 + (sk + w * n1) * r1 = d2 + (sk + w * n2) * r2) :
    ((d1 - d2) + w * (r1 * n1 - r2 * n2)) * (r2 - r1)⁻¹ = sk := by
  field_simp
  linear_combination hcol

/-- Claim C3: extraction from a genuine collision recovers the secret key. -/
theorem extract_recovers_key (E : Env) (hE : E.Valid) (fuel sk w : Nat) (n0 n1 n2 : Int)
    (d1 r1 d2 r2 : Nat) (H I : ChameleonHash) (x : List Nat)
    (hH : ChameleonHash.fromSk E fuel sk w n0 = .ok H)
    (hI : I.w = H.w)
    (h1 : H.ch E fuel d1 r1 n1 = .ok x) (h2 : H.ch E fuel d2 r2 n2 = .ok x)
    (hr : r1 % E.q ≠ r2 % E.q) :
    (I.extract E fuel d1 r1 n1 d2 r2 n2).2 = .ok () ∧
    (I.extract E fuel d1 r1 n1 d2 r2 n2).1.hasSecretKey_ = true ∧
    (I.extract E fuel d1 r1 n1 d2 r2 n2).1.sk = sk % E.q ∧
    (I.extract E fuel d1 r1 n1 d2 r2 n2).1.getSk E = .ok (sk % E.q) := by
  have hq := hE.pos
  haveI : Fact (Nat.Prime E.q) := ⟨hE.prime⟩
  obtain ⟨_, hHflag, hHw, hHsk, _, _, _, _⟩ := fromSk_ok E fuel sk w n0 H hH
  obtain ⟨hr1, hn1, ⟨b1, hb1⟩, e1, he1, hs1, hc1⟩ := ch_holder_ok E hq fuel H d1 r1 n1 x hHflag h1
  obtain ⟨hr2, hn2, ⟨b2, hb2⟩, e2, he2, hs2, hc2⟩ := ch_holder_ok E hq fuel H d2 r2 n2 x hHflag h2
  have hee : e1 = e2 := serializeHash_inj E hE e1 e2 he1 he2 x hs1 hs2
  obtain ⟨a1, ha1⟩ := shiftAddLoop_transfer E.q fuel _ _ 0 (r1 % E.q) n1 b1 hb1
  obtain ⟨a2, ha2⟩ := shiftAddLoop_transfer E.q fuel _ _ 0 (r2 % E.q) n2 b2 hb2
  have hden : (r2 : ZMod E.q) - (r1 : ZMod E.q) ≠ 0 := by
    intro h0
    apply hr
    exact ((ZMod.natCast_eq_natCast_iff' r1 r2 E.q).mp (sub_eq_zero.mp h0).symm)
  have hinv := cast_scalar_inverse E.q
    (secp256k1_scalar_add E.q (r2 % E.q) (secp256k1_scalar_negate E.q (r1 % E.q))) hE.prime
    (by
      rw [cast_scalar_add, cast_scalar_negate E.q _ hq, ZMod.natCast_mod, ZMod.natCast_mod,
        ← sub_eq_add_neg]
      exact hden)
  obtain ⟨_, hac1⟩ := shiftAddLoop_some E.q fuel _ _ n1 a1 ha1
  obtain ⟨_, hac2⟩ := shiftAddLoop_some E.q fuel _ _ n2 a2 ha2
  have hcol : (d1 : ZMod E.q) + ((H.sk : ZMod E.q) + (H.w : ZMod E.q) * ((n1 : Int) : ZMod E.q))
        * (r1 : ZMod E.q)
      = (d2 : ZMod E.q) + ((H.sk : ZMod E.q) + (H.w : ZMod E.q) * ((n2 : Int) : ZMod E.q))
        * (r2 : ZMod E.q) := by
    rw [← hc1, ← hc2, hee]
  have hsk : (I.extract E fuel d1 r1 n1 d2 r2 n2).1.sk = sk % E.q := by
    rw [extract_eq E fuel I d1 r1 n1 d2 r2 n2 a1 a2 ha1 ha2]
    apply eq_of_cast_eq E.q _ _ (scalar_mul_lt _ _ _ hq) (Nat.mod_lt _ hq)
    simp only [cast_scalar_mul, hinv]
    simp only [cast_scalar_add, cast_scalar_mul, cast_scalar_negate E.q _ hq, ZMod.natCast_mod,
      hac1, hac2, hI]
    have hskc : (sk : ZMod E.q) = (H.sk : ZMod E.q) := by rw [hHsk, ZMod.natCast_mod]
    rw [hskc]
    rw [← extract_algebra E.q (H.sk : ZMod E.q) (H.w : ZMod E.q) d1 r1 ((n1 : Int) : ZMod E.q)
      d2 r2 ((n2 : Int) : ZMod E.q) hden hcol]
    push_cast
    ring_nf
  have hflag : (I.extract E fuel d1 r1 n1 d2 r2 n2).1.hasSecretKey_ = true := by
    rw [extract_eq E fuel I d1 r1 n1 d2 r2 n2 a1 a2 ha1 ha2]
  refine ⟨?_, hflag, hsk, ?_⟩
  · rw [extract_eq E fuel I d1 r1 n1 d2 r2 n2 a1 a2 ha1 ha2]
  · rw [getSk_holder E _ hflag, hsk, secp256k1_scalar_get_b32, Nat.mod_mod]

set_option maxRecDepth 100000 in
/-- Witness of `ch_holder_verifier_agree`. -/
theorem ch_holder_verifier_agree_witness :
    ∃ H, ChameleonHash.fromSk demoEnv 32 12345 678 5 = .ok H ∧
      ((12345 + (5 : Int).toNat * 678) % demoEnv.q ≠ 0 →
        ∃ pk V, H.getPk demoEnv true = .ok pk ∧ ChameleonHash.fromPk demoEnv pk 678 = .ok V) ∧
      (∀ (c : Bool) (pk : List Nat) (V : ChameleonHash),
        H.getPk demoEnv c = .ok pk → ChameleonHash.fromPk demoEnv pk 678 = .ok V →
          H.ch demoEnv 32 11 22 5 = V.ch demoEnv 32 11 22 5) :=
  ch_holder_verifier_agree demoEnv demoEnv_valid 32 12345 678 5 11 22
    (by decide) (by decide) (by decide)

set_option maxRecDepth 100000 in
/-- Witness of `extract_recovers_key`: a collision under the key `12345`,
`ch(11, 22, 5) = ch(33, demoR2, 7) = g^346181`, given to a verify-only
instance with the same `w`. -/
theorem extract_recovers_key_witness :
    (demoChVerifier.extract demoEnv 32 11 22 5 33 demoR2 7).2 = .ok () ∧
    (demoChVerifier.extract demoEnv 32 11 22 5 33 demoR2 7).1.hasSecretKey_ = true ∧
    (demoChVerifier.extract demoEnv 32 11 22 5 33 demoR2 7).1.sk = 12345 % demoEnv.q ∧
    (demoChVerifier.extract demoEnv 32 11 22 5 33 demoR2 7).1.getSk demoEnv
      = .ok (12345 % demoEnv.q) :=
  extract_recovers_key demoEnv demoEnv_valid 32 12345 678 5 5 7 11 22 33 demoR2
    demoCh demoChVerifier (demoEnv.pubkey_encode 346181 true)
    (by decide) (by decide) (by decide) (by decide) (by decide)

/-! ## The authentication tree -/

/-- One successful iteration of the loop of `authenticate`. -/
theorem authenticateLoop_cons_ok (E : Env) (fuel : Nat) (A : Authenticator) (n : Int)
    (b : Bool) (up : Node) (x sr : Nat) (first : Bool) (t : token_t) (pos : Nat)
    (t' : token_t) (xf : Nat)
    (h : Authenticator.authenticateLoop E fuel A n (b :: up) x sr first t pos = (t', .ok xf)) :
    ∃ c r s,
      A.ch.ch E fuel (E.prf_getX A.dsk (b :: up)) (E.prf_getR A.dsk (b :: up)) A._n = .ok c ∧
      A.ch.collision E fuel (E.prf_getX A.dsk (b :: up)) (E.prf_getR A.dsk (b :: up)) A._n
        x sr n = (r, .ok ()) ∧
      A.ch.ch E fuel (E.prf_getX A.dsk ((!b) :: up)) (E.prf_getR A.dsk ((!b) :: up)) A._n
        = .ok s ∧
      Authenticator.authenticateLoop E fuel A n up
        (if b then ChameleonHash.digest2 E s (if first then ChameleonHash.randomOracle E c r else c)
         else ChameleonHash.digest2 E (if first then ChameleonHash.randomOracle E c r else c) s)
        r false
        { rs := Function.update t.rs pos r, chs := Function.update t.chs pos s } (pos + 1)
        = (t', .ok xf) := by
  unfold Authenticator.authenticateLoop at h
  simp only [Node.moveToSibling, Node.isLeftChild] at h
  split at h
  · cases h
  · rename_i c hc
    split at h
    · cases h
    · rename_i r u hr
      split at h
      · cases h
      · rename_i s hs
        refine ⟨c, r, s, hc, ?_, hs, ?_⟩
        · rw [hr]
        · cases b <;> simpa using h

/-- The loop of `authenticate` writes the token only at its current position
and above. -/
theorem authenticateLoop_frame (E : Env) (fuel : Nat) (A : Authenticator) (n : Int) :
    ∀ (node : Node) (x sr : Nat) (first : Bool) (t : token_t) (pos : Nat) (j : Nat),
      j < pos →
      (Authenticator.authenticateLoop E fuel A n node x sr first t pos).1.rs j = t.rs j ∧
      (Authenticator.authenticateLoop E fuel A n node x sr first t pos).1.chs j = t.chs j := by
  intro node
  induction node with
  | nil =>
    intro x sr first t pos j _
    simp [Authenticator.authenticateLoop]
  | cons b up ih =>
    intro x sr first t pos j hj
    unfold Authenticator.authenticateLoop
    simp only
    split
    · exact ⟨rfl, rfl⟩
    · split
      · exact ⟨rfl, rfl⟩
      · split
        · exact ⟨rfl, rfl⟩
        · rename_i s hs
          have hne : j ≠ pos := by omega
          refine ⟨(ih _ _ _ _ _ j (by omega)).1.trans ?_, (ih _ _ _ _ _ j (by omega)).2.trans ?_⟩
          · exact Function.update_noteq hne _ _
          · exact Function.update_noteq hne _ _

theorem verifyLoop_cons_ok (E : Env) (fuel : Nat) (B : Authenticator) (t : token_t)
    (logging : Bool) (n : Int) (b : Bool) (up : Node) (x : Nat) (first : Bool) (pos : Nat)
    (log : log_t) (c : List Nat)
    (hc : B.ch.ch E fuel x (t.rs pos) n = .ok c) :
    Authenticator.verifyLoop E fuel B t logging n (b :: up) x first pos log =
      Authenticator.verifyLoop E fuel B t logging n up
        (if b then
          ChameleonHash.digest2 E (t.chs pos)
            (if first then ChameleonHash.randomOracle E c (t.rs pos) else c)
         else
          ChameleonHash.digest2 E
            (if first then ChameleonHash.randomOracle E c (t.rs pos) else c) (t.chs pos))
        false (pos + 1)
        (if logging then { chs := log.chs ++ [c], xs := log.xs ++ [x] } else log) := by
  conv_lhs => unfold Authenticator.verifyLoop
  simp only [hc, Node.isLeftChild]
  cases b <;> simp

theorem verifyLoop_cons_error (E : Env) (fuel : Nat) (B : Authenticator) (t : token_t)
    (logging : Bool) (n : Int) (b : Bool) (up : Node) (x : Nat) (first : Bool) (pos : Nat)
    (log : log_t) (e : Error)
    (hc : B.ch.ch E fuel x (t.rs pos) n = .error e) :
    Authenticator.verifyLoop E fuel B t logging n (b :: up) x first pos log = .error e := by
  conv_lhs => unfold Authenticator.verifyLoop
  simp only [hc]

/-- Replaying a token written by `authenticate`: if on the instance `B` the
randomness of every collision reproduces the hash of the path node, then
`verifyWithLog` on `B` recomputes the digests of `authenticate`, and it logs
the hashes of the path nodes. -/
theorem authenticate_verify_sim (E : Env) (fuel : Nat) (A B : Authenticator) (n : Int)
    (logging : Bool)
    (hcc : ∀ (node : Node) (x sr : Nat) (c : List Nat) (r : Nat),
      A.pathHash E fuel node = .ok c →
      A.ch.collision E fuel (E.prf_getX A.dsk node) (E.prf_getR A.dsk node) A._n x sr n
        = (r, .ok ()) →
      B.ch.ch E fuel x r n = .ok c) :
    ∀ (node : Node) (x sr : Nat) (first : Bool) (t : token_t) (pos : Nat) (t' : token_t)
      (xf : Nat),
      Authenticator.authenticateLoop E fuel A n node x sr first t pos = (t', .ok xf) →
      ∀ (tv : token_t) (log : log_t),
        (∀ j, pos ≤ j → tv.rs j = t'.rs j ∧ tv.chs j = t'.chs j) →
        ∃ log', Authenticator.verifyLoop E fuel B tv logging n node x first pos log
            = .ok (xf, log') ∧
          (logging = true →
            log'.chs.length = log.chs.length + node.length ∧
            (∀ j, j < log.chs.length → log'.chs.getD j [] = log.chs.getD j []) ∧
            (∀ i, i < node.length →
              A.pathHash E fuel (node.drop i) = .ok (log'.chs.getD (log.chs.length + i) []))) := by
  intro node
  induction node with
  | nil =>
    intro x sr first t pos t' xf h tv log _
    simp only [Authenticator.authenticateLoop, Prod.mk.injEq, Except.ok.injEq] at h
    obtain ⟨_, rfl⟩ := h
    exact ⟨log, by simp [Authenticator.verifyLoop], fun _ => ⟨by simp, fun _ _ => rfl, by simp⟩⟩
  | cons b up ih =>
    intro x sr first t pos t' xf h tv log htv
    obtain ⟨c, r, s, hc, hr, hs, hrec⟩ :=
      authenticateLoop_cons_ok E fuel A n b up x sr first t pos t' xf h
    have hfr := authenticateLoop_frame E fuel A n up
      (if b then ChameleonHash.digest2 E s (if first then ChameleonHash.randomOracle E c r else c)
       else ChameleonHash.digest2 E (if first then ChameleonHash.randomOracle E c r else c) s)
      r false
      { rs := Function.update t.rs pos r, chs := Function.update t.chs pos s } (pos + 1) pos
      (by omega)
    rw [hrec] at hfr
    simp only [Function.update_same] at hfr
    obtain ⟨hrs, hchs⟩ := hfr
    obtain ⟨htv1, htv2⟩ := htv pos (le_refl _)
    have hBc : B.ch.ch E fuel x (tv.rs pos) n = .ok c := by
      rw [htv1, hrs]
      exact hcc (b :: up) x sr c r hc hr
    rw [verifyLoop_cons_ok E fuel B tv logging n b up x first pos log c hBc, htv1, htv2, hrs, hchs]
    obtain ⟨log', hv, hlog⟩ := ih _ r false _ (pos + 1) t' xf hrec tv
      (if logging then { chs := log.chs ++ [c], xs := log.xs ++ [x] } else log)
      (fun j hj => htv j (by omega))
    refine ⟨log', hv, ?_⟩
    intro hl
    obtain ⟨h1, h2, h3⟩ := hlog hl
    simp only [hl, if_true, List.length_append, List.length_singleton] at h1 h2 h3
    refine ⟨by rw [h1]; simp; omega, ?_, ?_⟩
    · intro j hj
      rw [h2 j (by omega), List.getD_append _ _ _ _ hj]
    · intro i hi
      cases i with
      | zero =>
        have := h2 log.chs.length (by omega)
        rw [List.getD_append_right _ _ _ _ (le_refl _)] at this
        simp only [Nat.sub_self, List.getD_cons_zero] at this
        simp only [List.drop_zero, Nat.add_zero]
        rw [this]
        exact hc
      | succ i =>
        have := h3 i (by simpa using hi)
        rw [List.drop_succ_cons]
        rw [this]
        congr 2
        omega

theorem collision_ok_inv (E : Env) (fuel : Nat) (H : ChameleonHash) (d1 r1 : Nat) (n1 : Int)
    (d2 r2old : Nat) (n2 : Int) (r2 : Nat) (hH : H.hasSecretKey_ = true)
    (h : H.collision E fuel d1 r1 n1 d2 r2old n2 = (r2, .ok ())) :
    ∃ a1 a2,
      shiftAddLoop E.q fuel 0 (secp256k1_scalar_add E.q 0 H.w) n1 = some a1 ∧
      shiftAddLoop E.q fuel 0 (secp256k1_scalar_add E.q 0 H.w) n2 = some a2 ∧
      r2 = secp256k1_scalar_get_b32 E.q
        (secp256k1_scalar_mul E.q
          (secp256k1_scalar_add E.q
            (secp256k1_scalar_add E.q (d1 % E.q) (secp256k1_scalar_negate E.q (d2 % E.q)))
            (secp256k1_scalar_mul E.q (r1 % E.q) (secp256k1_scalar_add E.q a1 H.sk)))
          (secp256k1_scalar_inverse E.q (secp256k1_scalar_add E.q a2 H.sk))) := by
  cases h1 : shiftAddLoop E.q fuel 0 (secp256k1_scalar_add E.q 0 H.w) n1 with
  | none =>
    unfold ChameleonHash.collision at h
    simp [ChameleonHash.hasSecretKey, hH, h1] at h
  | some a1 =>
    cases h2 : shiftAddLoop E.q fuel 0 (secp256k1_scalar_add E.q 0 H.w) n2 with
    | none =>
      unfold ChameleonHash.collision at h
      simp [ChameleonHash.hasSecretKey, hH, h1, h2] at h
    | some a2 =>
      rw [collision_holder E fuel H d1 r1 n1 d2 r2old n2 a1 a2 hH h1 h2] at h
      exact ⟨a1, a2, rfl, rfl, (Prod.mk.inj h).1.symm⟩

/-- The randomness computed by `collision` reproduces the hash, when the
denominator is not zero. -/
theorem collision_ch_eq (E : Env) (hE : E.Valid) (fuel : Nat) (H : ChameleonHash)
    (d1 r1 : Nat) (n1 : Int) (d2 : Nat) (n2 : Int) (a1 a2 : Nat)
    (hH : H.hasSecretKey_ = true) (hr1 : r1 < E.q)
    (h1 : shiftAddLoop E.q fuel 0 (secp256k1_scalar_add E.q 0 H.w) n1 = some a1)
    (h2 : shiftAddLoop E.q fuel 0 (secp256k1_scalar_add E.q 0 H.w) n2 = some a2)
    (hden : (a2 : ZMod E.q) + (H.sk : ZMod E.q) ≠ 0) :
    H.ch E fuel d1 r1 n1 = H.ch E fuel d2
      (secp256k1_scalar_get_b32 E.q
        (secp256k1_scalar_mul E.q
          (secp256k1_scalar_add E.q
            (secp256k1_scalar_add E.q (d1 % E.q) (secp256k1_scalar_negate E.q (d2 % E.q)))
            (secp256k1_scalar_mul E.q (r1 % E.q) (secp256k1_scalar_add E.q a1 H.sk)))
          (secp256k1_scalar_inverse E.q (secp256k1_scalar_add E.q a2 H.sk)))) n2 := by
  have hq := hE.pos
  haveI : Fact (Nat.Prime E.q) := ⟨hE.prime⟩
  apply ch_holder_congr E hq fuel H d1 r1 n1 d2 _ n2 a1 a2 hH hr1 (Nat.mod_lt _ hq) h1 h2
  have hinv := cast_scalar_inverse E.q (secp256k1_scalar_add E.q a2 H.sk) hE.prime
    (by rw [cast_scalar_add]; exact hden)
  simp only [cast_scalar_mul, ZMod.natCast_mod, hinv]
  simp only [cast_scalar_add, cast_scalar_mul, cast_scalar_negate E.q _ hq, ZMod.natCast_mod]
  field_simp
  ring

/-- The class of `n*w` computed by the level-weight loop. -/
theorem levelWeight_cast (E : Env) (fuel : Nat) (w : Nat) (n : Int) (a : Nat)
    (h : shiftAddLoop E.q fuel 0 (secp256k1_scalar_add E.q 0 w) n = some a) :
    0 ≤ n ∧ (a : ZMod E.q) = (w : ZMod E.q) * ((n : Int) : ZMod E.q) := by
  obtain ⟨hn, hc⟩ := shiftAddLoop_some E.q fuel _ _ n a h
  refine ⟨hn, ?_⟩
  rw [hc, cast_scalar_add]
  push_cast
  ring

theorem fromDsk_ok (E : Env) (fuel dsk dw : Nat) (n0 : Int) (A : Authenticator)
    (h : Authenticator.fromDsk E fuel dsk dw n0 = .ok A) :
    ∃ left right,
      ChameleonHash.fromSk E fuel dsk dw n0 = .ok A.ch ∧ A.dsk = dsk ∧ A._n = n0 ∧
      A.hasSecretKey_ = true ∧
      A.pathHash E fuel [false] = .ok left ∧ A.pathHash E fuel [true] = .ok right ∧
      A.rootDigest = ChameleonHash.digest2 E left right := by
  unfold Authenticator.fromDsk at h
  split at h
  · cases h
  · rename_i H hH
    simp only [Node.leftChildOfRoot, Node.moveToSibling] at h
    split at h
    · cases h
    · rename_i left hl
      split at h
      · cases h
      · rename_i right hr
        simp only [Except.ok.injEq] at h
        subst h
        exact ⟨left, right, hH, rfl, rfl, rfl, hl, by simpa using hr, rfl⟩

theorem fromDpk_ok (E : Env) (dpk : dpk_t) (dw : Nat) (V : Authenticator)
    (h : Authenticator.fromDpk E dpk dw = .ok V) :
    ChameleonHash.fromPk E dpk.chpk dw = .ok V.ch ∧ V.rootDigest = dpk.rootDigest ∧
      V.hasSecretKey_ = false ∧ V.dsk = 0 ∧ V._n = 0 := by
  unfold Authenticator.fromDpk at h
  split at h
  · cases h
  · rename_i ch hch
    simp only [Except.ok.injEq] at h
    subst h
    exact ⟨hch, rfl, rfl, rfl, rfl⟩

theorem getDpk_ok (E : Env) (A : Authenticator) (dpk : dpk_t)
    (h : A.getDpk E = .ok dpk) :
    A.ch.getPk E true = .ok dpk.chpk ∧ dpk.rootDigest = A.rootDigest := by
  unfold Authenticator.getDpk at h
  split at h
  · cases h
  · rename_i chpk hpk
    simp only [Except.ok.injEq] at h
    subst h
    exact ⟨hpk, rfl⟩

/-- The digest that the loop of `authenticate` reaches at the root is the
digest of the hashes of the two children of the root. -/
theorem authenticateLoop_root (E : Env) (fuel : Nat) (A : Authenticator) (n : Int)
    (left right : List Nat)
    (hl : A.pathHash E fuel [false] = .ok left) (hr : A.pathHash E fuel [true] = .ok right) :
    ∀ (node : Node) (x sr : Nat) (first : Bool) (t : token_t) (pos : Nat) (t' : token_t)
      (xf : Nat),
      (2 ≤ node.length ∨ (1 ≤ node.length ∧ first = false)) →
      Authenticator.authenticateLoop E fuel A n node x sr first t pos = (t', .ok xf) →
      xf = ChameleonHash.digest2 E left right := by
  intro node
  induction node with
  | nil =>
    intro x sr first t pos t' xf hlen _
    simp at hlen
  | cons b up ih =>
    intro x sr first t pos t' xf hlen h
    obtain ⟨c, r, s, hc, _, hs, hrec⟩ :=
      authenticateLoop_cons_ok E fuel A n b up x sr first t pos t' xf h
    cases up with
    | nil =>
      have hfirst : first = false := by
        rcases hlen with h2 | ⟨_, h2⟩
        · simp at h2
        · exact h2
      subst hfirst
      simp only [Authenticator.authenticateLoop, Prod.mk.injEq, Except.ok.injEq] at hrec
      obtain ⟨_, hxf⟩ := hrec
      rw [← hxf]
      cases b with
      | false =>
        have e1 : c = left := Except.ok.inj (hc.symm.trans hl)
        have e2 : s = right := Except.ok.inj (hs.symm.trans hr)
        simp [e1, e2]
      | true =>
        have e1 : c = right := Except.ok.inj (hc.symm.trans hr)
        have e2 : s = left := Except.ok.inj (hs.symm.trans hl)
        simp [e1, e2]
    | cons b2 up2 =>
      exact ih _ _ false _ _ t' xf (Or.inr ⟨by simp, rfl⟩) hrec

theorem ofContext_length (ct : List Nat) : (Node.ofContext ct).length = 8 * ct.length := by
  unfold Node.ofContext
  rw [List.length_reverse]
  induction ct with
  | nil => rfl
  | cons a l ih =>
    rw [List.flatMap_cons, List.length_append, ih]
    simp [byteBits]
    omega

theorem authenticate_ok_inv (E : Env) (fuel : Nat) (A : Authenticator) (t0 : token_t)
    (ct st : List Nat) (n : Int) (t : token_t)
    (h : A.authenticate E fuel t0 ct st n = (t, .ok ())) :
    A.hasSecretKey_ = true ∧
    ∃ d xf, ChameleonHash.digest E fuel st = .ok d ∧
      Authenticator.authenticateLoop E fuel A n (Node.ofContext ct) d 0 true t0 0 = (t, .ok xf) ∧
      (E.NDEBUG = true ∨ xf = A.rootDigest) := by
  unfold Authenticator.authenticate at h
  split at h
  · cases h
  · rename_i hflag
    split at h
    · cases h
    · rename_i d hd
      split at h
      · cases h
      · rename_i t1 xf hloop
        split at h
        · cases h
        · rename_i hassert
          simp only [Prod.mk.injEq, and_true] at h
          subst h
          refine ⟨by simpa using hflag, d, xf, hd, hloop, ?_⟩
          by_cases hnd : E.NDEBUG = true
          · exact Or.inl hnd
          · right
            simpa [hnd] using hassert

theorem verifyWithLog_of_loop (E : Env) (fuel : Nat) (B : Authenticator) (t : token_t)
    (ct st : List Nat) (logging : Bool) (log : log_t) (n : Int) (d xf : Nat) (log' : log_t)
    (hd : ChameleonHash.digest E fuel st = .ok d)
    (hv : Authenticator.verifyLoop E fuel B t logging n (Node.ofContext ct) d true 0 log
      = .ok (xf, log')) :
    B.verifyWithLog E fuel t ct st logging log n = .ok (decide (xf = B.rootDigest), log') := by
  unfold Authenticator.verifyWithLog
  simp only [hd, hv]

theorem verify_of_loop (E : Env) (fuel : Nat) (B : Authenticator) (t : token_t)
    (ct st : List Nat) (n : Int) (d xf : Nat) (log' : log_t)
    (hd : ChameleonHash.digest E fuel st = .ok d)
    (hv : Authenticator.verifyLoop E fuel B t false n (Node.ofContext ct) d true 0
      { chs := [], xs := [] } = .ok (xf, log')) :
    B.verify E fuel t ct st n = .ok (decide (xf = B.rootDigest)) := by
  unfold Authenticator.verify
  rw [verifyWithLog_of_loop E fuel B t ct st false _ n d xf log' hd hv]

/-- On a holder, the randomness that `authenticate` takes from `collision`
reproduces the hash of the path node under the level-weight of the call,
when `sk + n*w` is not zero modulo the group order. -/
theorem holder_collision_correct (E : Env) (hE : E.Valid) (fuel dsk dw : Nat) (n0 n : Int)
    (A : Authenticator) (hA : Authenticator.fromDsk E fuel dsk dw n0 = .ok A)
    (hden : (dsk + n.toNat * dw) % E.q ≠ 0)
    (node : Node) (x sr : Nat) (c : List Nat) (r : Nat)
    (hc : A.pathHash E fuel node = .ok c)
    (hr : A.ch.collision E fuel (E.prf_getX A.dsk node) (E.prf_getR A.dsk node) A._n x sr n
      = (r, .ok ())) :
    A.ch.ch E fuel x r n = .ok c := by
  have hq := hE.pos
  obtain ⟨_, _, hsk, _, _, _, _, _, _⟩ := fromDsk_ok E fuel dsk dw n0 A hA
  obtain ⟨_, hflag, hw, hsk2, _, _, _, _⟩ := fromSk_ok E fuel dsk dw n0 A.ch hsk
  obtain ⟨a1, a2, h1, h2, hrv⟩ := collision_ok_inv E fuel A.ch _ _ _ _ _ _ r hflag hr
  obtain ⟨hr1, _, _, _⟩ := ch_holder_ok E hq fuel A.ch _ _ _ c hflag hc
  obtain ⟨hn, ha2⟩ := levelWeight_cast E fuel A.ch.w n a2 h2
  have hdenc : (a2 : ZMod E.q) + (A.ch.sk : ZMod E.q) ≠ 0 := by
    have := cast_ne_zero_of_mod_ne E.q _ hden
    rw [ha2, hw, hsk2, cast_int_toNat E.q n hn]
    simp only [ZMod.natCast_mod]
    intro h0
    apply this
    push_cast
    linear_combination h0
  rw [hrv, ← collision_ch_eq E hE fuel A.ch _ _ _ x n a1 a2 hflag hr1 h1 h2 hdenc]
  exact hc

/-- Claim C4 (as amended): on a holder, a token written by `authenticate`
verifies under the same context, state and level-weight, provided `sk + n*w`
is not zero modulo the group order. -/
theorem authenticate_verify_holder (E : Env) (hE : E.Valid) (fuel dsk dw : Nat) (n0 n : Int)
    (A : Authenticator) (t0 t : token_t) (ct st : List Nat)
    (hA : Authenticator.fromDsk E fuel dsk dw n0 = .ok A)
    (hct : ct.length = E.CT_LEN) (hL : 0 < E.CT_LEN)
    (hden : (dsk + n.toNat * dw) % E.q ≠ 0)
    (hauth : A.authenticate E fuel t0 ct st n = (t, .ok ())) :
    A.verify E fuel t ct st n = .ok true := by
  obtain ⟨_, d, xf, hd, hloop, hassert⟩ := authenticate_ok_inv E fuel A t0 ct st n t hauth
  obtain ⟨left, right, _, _, _, _, hl, hr, hroot⟩ := fromDsk_ok E fuel dsk dw n0 A hA
  have hlen : 2 ≤ (Node.ofContext ct).length := by
    rw [ofContext_length, hct]; omega
  have hxf : xf = A.rootDigest := by
    rw [hroot]
    exact authenticateLoop_root E fuel A n left right hl hr _ _ _ _ _ _ t xf (Or.inl hlen) hloop
  obtain ⟨log', hv, _⟩ := authenticate_verify_sim E fuel A A n false
    (holder_collision_correct E hE fuel dsk dw n0 n A hA hden)
    _ _ _ _ _ _ t xf hloop t { chs := [], xs := [] } (fun _ _ => ⟨rfl, rfl⟩)
  rw [verify_of_loop E fuel A t ct st n d xf log' hd hv, hxf]
  simp

set_option maxRecDepth 100000 in
/-- Witness of `authenticate_verify_holder`: the holder built with `n = 5`
verifies its own token for the level-weight `7`. -/
theorem authenticate_verify_holder_witness :
    demoHolder.verify demoEnv 32
      (demoHolder.authenticate demoEnv 32 emptyToken ctOne stHello 7).1 ctOne stHello 7
      = .ok true :=
  authenticate_verify_holder demoEnv demoEnv_valid 32 12345 678 5 7 demoHolder emptyToken
    (demoHolder.authenticate demoEnv 32 emptyToken ctOne stHello 7).1 ctOne stHello
    (by decide) (by decide) (by decide) (by decide)
    (Prod.ext rfl (by decide))

set_option maxRecDepth 100000 in
/-- Counterexample to claim C4: for the holder `Authenticator(1, q - 1, 0)`
and the level-weight `n = 1` the denominator `sk + n*w` of `collision` is zero
modulo the group order; `authenticate` returns (its token has the randomness
`0` at every level) and `verify` rejects the token on the same instance. -/
theorem authenticate_verify_holder_counterexample :
    demoEnv.Valid ∧
    Authenticator.fromDsk demoEnv 32 1 (secp256k1_n - 1) 0 = .ok demoHolderZero ∧
    (demoHolderZero.authenticate demoEnv 32 emptyToken ctOne stHello 1).2 = .ok () ∧
    (List.range 8).map (demoHolderZero.authenticate demoEnv 32 emptyToken ctOne stHello 1).1.rs
      = [0, 0, 0, 0, 0, 0, 0, 0] ∧
    demoHolderZero.verify demoEnv 32
      (demoHolderZero.authenticate demoEnv 32 emptyToken ctOne stHello 1).1 ctOne stHello 1
      = .ok false :=
  ⟨demoEnv_valid, by decide, by decide, by decide, by decide⟩

/-- The verifier built from the public key of a holder has the holder's
public-key point, which is not the point at infinity. -/
theorem verifier_of_holder (E : Env) (hE : E.Valid) (fuel dsk dw : Nat) (n0 : Int)
    (H V : Authenticator) (dpk : dpk_t)
    (hH : Authenticator.fromDsk E fuel dsk dw n0 = .ok H)
    (hdpk : H.getDpk E = .ok dpk) (hV : Authenticator.fromDpk E dpk dw = .ok V) :
    V.ch.hasSecretKey_ = false ∧ V.hasSecretKey_ = false ∧ V.ch.pk = H.ch.pk ∧
      V.ch.w = H.ch.w ∧ V.rootDigest = H.rootDigest ∧ H.ch.pk ≠ 0 ∧ H.ch.pk < E.q ∧
      (H.ch.pk : ZMod E.q)
        = (H.ch.sk : ZMod E.q) + (H.ch.w : ZMod E.q) * ((n0 : Int) : ZMod E.q) ∧
      (dsk + n0.toNat * dw) % E.q ≠ 0 := by
  have hq := hE.pos
  obtain ⟨_, _, hsk, _, _, _, _, _, _⟩ := fromDsk_ok E fuel dsk dw n0 H hH
  obtain ⟨_, _, hw, hsk2, _, _, _, _⟩ := fromSk_ok E fuel dsk dw n0 H.ch hsk
  obtain ⟨hn0, hpklt, hpkc⟩ := fromSk_pk E hq fuel dsk dw n0 H.ch hsk
  obtain ⟨hpk, hrd⟩ := getDpk_ok E H dpk hdpk
  obtain ⟨hpk0, hpkeq⟩ := (getPk_ok E H.ch true dpk.chpk).mp hpk
  obtain ⟨hVch, hVrd, hVflag, _, _⟩ := fromDpk_ok E dpk dw V hV
  obtain ⟨hparse, hVw, _, _, hVchflag⟩ := (fromPk_ok E dpk.chpk dw V.ch).mp hVch
  have hVpk : V.ch.pk = H.ch.pk := by
    rw [hpkeq, hE.parse_encode H.ch.pk true (Nat.pos_of_ne_zero hpk0) hpklt] at hparse
    exact (Option.some.inj hparse).symm
  refine ⟨hVchflag, hVflag, hVpk, by rw [hVw, hw], by rw [hVrd, hrd], hpk0, hpklt, ?_, ?_⟩
  · rw [hpkc, hsk2, hw]
    simp only [ZMod.natCast_mod]
  · intro h0
    apply hpk0
    apply eq_of_cast_eq E.q _ 0 hpklt hq
    have := cast_eq_zero_of_mod_eq E.q _ h0
    rw [hpkc, cast_int_toNat E.q n0 hn0]
    push_cast at this ⊢
    linear_combination this

/-- On the verifier built from the public key of a holder, the randomness
that `authenticate` takes from `collision` for the level-weight of the
holder's construction reproduces the hash of the path node. -/
theorem verifier_collision_correct (E : Env) (hE : E.Valid) (fuel dsk dw : Nat) (n0 n : Int)
    (H V : Authenticator) (dpk : dpk_t)
    (hH : Authenticator.fromDsk E fuel dsk dw n0 = .ok H)
    (hdpk : H.getDpk E = .ok dpk) (hV : Authenticator.fromDpk E dpk dw = .ok V)
    (node : Node) (x sr : Nat) (c : List Nat) (r : Nat)
    (hc : H.pathHash E fuel node = .ok c)
    (hr : H.ch.collision E fuel (E.prf_getX H.dsk node) (E.prf_getR H.dsk node) H._n x sr H._n
      = (r, .ok ())) :
    V.ch.ch E fuel x r n = .ok c := by
  have hq := hE.pos
  haveI : Fact (Nat.Prime E.q) := ⟨hE.prime⟩
  obtain ⟨hVflag, _, hVpk, _, _, hpk0, hpklt, hpkc, _⟩ :=
    verifier_of_holder E hE fuel dsk dw n0 H V dpk hH hdpk hV
  obtain ⟨_, _, hsk, _, hn, _, _, _, _⟩ := fromDsk_ok E fuel dsk dw n0 H hH
  obtain ⟨_, hflag, _, _, _, _, _, _⟩ := fromSk_ok E fuel dsk dw n0 H.ch hsk
  obtain ⟨a1, a2, h1, h2, hrv⟩ := collision_ok_inv E fuel H.ch _ _ _ _ _ _ r hflag hr
  have ha : a2 = a1 := Option.some.inj (h2.symm.trans h1)
  subst ha
  obtain ⟨hr1, _, _, e, he, hse, hec⟩ := ch_holder_ok E hq fuel H.ch _ _ _ c hflag hc
  obtain ⟨_, ha2⟩ := levelWeight_cast E fuel H.ch.w H._n a2 h2
  rw [hn] at ha2
  have hpkc2 : (H.ch.pk : ZMod E.q) = (a2 : ZMod E.q) + (H.ch.sk : ZMod E.q) := by
    rw [hpkc, ha2]; ring
  have hdenc : (a2 : ZMod E.q) + (H.ch.sk : ZMod E.q) ≠ 0 := by
    rw [← hpkc2]
    intro h0
    apply hpk0
    exact eq_of_cast_eq E.q _ 0 hpklt hq (by simpa using h0)
  have hinv := cast_scalar_inverse E.q (secp256k1_scalar_add E.q a2 H.ch.sk) hE.prime
    (by rw [cast_scalar_add]; exact hdenc)
  have hrlt : r < E.q := by rw [hrv]; exact Nat.mod_lt _ hq
  rw [ch_verifier E fuel V.ch x r n hVflag, if_neg (by omega), ← hse]
  refine serializeHash_congr E _ _ ?_ he ?_
  · exact Nat.mod_lt _ hq
  rw [hec, hn, ← ha2, secp256k1_ecmult, ZMod.natCast_mod, hVpk]
  push_cast
  simp only [ZMod.natCast_mod]
  rw [hrv]
  simp only [cast_scalar_get_b32, cast_scalar_mul, hinv]
  simp only [cast_scalar_add, cast_scalar_mul, cast_scalar_negate E.q _ hq, ZMod.natCast_mod,
    hpkc2]
  field_simp
  ring

/-- Claim C5 (as amended): a token that the holder writes for the level-weight
of its own construction is accepted by the verifier built from the holder's
public key, as it is by the holder. -/
theorem authenticate_verify_public (E : Env) (hE : E.Valid) (fuel dsk dw : Nat) (n0 : Int)
    (H V : Authenticator) (dpk : dpk_t) (t0 t : token_t) (ct st : List Nat)
    (hH : Authenticator.fromDsk E fuel dsk dw n0 = .ok H)
    (hdpk : H.getDpk E = .ok dpk) (hV : Authenticator.fromDpk E dpk dw = .ok V)
    (hct : ct.length = E.CT_LEN) (hL : 0 < E.CT_LEN)
    (hauth : H.authenticate E fuel t0 ct st n0 = (t, .ok ())) :
    V.verify E fuel t ct st n0 = .ok true ∧ H.verify E fuel t ct st n0 = .ok true := by
  obtain ⟨_, d, xf, hd, hloop, _⟩ := authenticate_ok_inv E fuel H t0 ct st n0 t hauth
  obtain ⟨left, right, _, _, hn, _, hl, hr, hroot⟩ := fromDsk_ok E fuel dsk dw n0 H hH
  obtain ⟨_, _, _, _, hVroot, _, _, _, hden⟩ :=
    verifier_of_holder E hE fuel dsk dw n0 H V dpk hH hdpk hV
  have hlen : 2 ≤ (Node.ofContext ct).length := by
    rw [ofContext_length, hct]; omega
  have hxf : xf = H.rootDigest := by
    rw [hroot]
    exact authenticateLoop_root E fuel H n0 left right hl hr _ _ _ _ _ _ t xf (Or.inl hlen) hloop
  constructor
  · obtain ⟨log', hv, _⟩ := authenticate_verify_sim E fuel H V n0 false
      (fun node x sr c r hc hr => by
        rw [← hn] at hr
        exact verifier_collision_correct E hE fuel dsk dw n0 n0 H V dpk hH hdpk hV
          node x sr c r hc hr)
      _ _ _ _ _ _ t xf hloop t { chs := [], xs := [] } (fun _ _ => ⟨rfl, rfl⟩)
    rw [verify_of_loop E fuel V t ct st n0 d xf log' hd hv, hxf, hVroot]
    simp
  · obtain ⟨log', hv, _⟩ := authenticate_verify_sim E fuel H H n0 false
      (holder_collision_correct E hE fuel dsk dw n0 n0 H hH hden)
      _ _ _ _ _ _ t xf hloop t { chs := [], xs := [] } (fun _ _ => ⟨rfl, rfl⟩)
    rw [verify_of_loop E fuel H t ct st n0 d xf log' hd hv, hxf]
    simp

theorem verifyLoop_cons_inv (E : Env) (fuel : Nat) (B : Authenticator) (t : token_t)
    (logging : Bool) (n : Int) (b : Bool) (up : Node) (x : Nat) (first : Bool) (pos : Nat)
    (log : log_t) (xf : Nat) (log' : log_t)
    (h : Authenticator.verifyLoop E fuel B t logging n (b :: up) x first pos log
      = .ok (xf, log')) :
    ∃ c, B.ch.ch E fuel x (t.rs pos) n = .ok c ∧
      Authenticator.verifyLoop E fuel B t logging n up
        (if b then
          ChameleonHash.digest2 E (t.chs pos)
            (if first then ChameleonHash.randomOracle E c (t.rs pos) else c)
         else
          ChameleonHash.digest2 E
            (if first then ChameleonHash.randomOracle E c (t.rs pos) else c) (t.chs pos))
        false (pos + 1)
        (if logging then { chs := log.chs ++ [c], xs := log.xs ++ [x] } else log)
        = .ok (xf, log') := by
  cases hc : B.ch.ch E fuel x (t.rs pos) n with
  | error e =>
    rw [verifyLoop_cons_error E fuel B t logging n b up x first pos log e hc] at h
    cases h
  | ok c =>
    rw [verifyLoop_cons_ok E fuel B t logging n b up x first pos log c hc] at h
    exact ⟨c, rfl, h⟩

/-- What `verifyWithLog` logs: at every level the subtree digest and the
chameleon hash computed from it and from the randomness of the token. -/
theorem verifyLoop_log (E : Env) (fuel : Nat) (B : Authenticator) (t : token_t) (n : Int) :
    ∀ (node : Node) (x : Nat) (first : Bool) (pos : Nat) (log : log_t) (xf : Nat)
      (log' : log_t),
      log.xs.length = log.chs.length →
      Authenticator.verifyLoop E fuel B t true n node x first pos log = .ok (xf, log') →
      log'.chs.length = log.chs.length + node.length ∧
      (∀ j, j < log.chs.length → log'.xs.getD j 0 = log.xs.getD j 0) ∧
      (∀ j, j < log.chs.length → log'.chs.getD j [] = log.chs.getD j []) ∧
      (node ≠ [] → log'.xs.getD log.chs.length 0 = x) ∧
      (∀ i, i < node.length →
        B.ch.ch E fuel (log'.xs.getD (log.chs.length + i) 0) (t.rs (pos + i)) n
          = .ok (log'.chs.getD (log.chs.length + i) [])) := by
  intro node
  induction node with
  | nil =>
    intro x first pos log xf log' _ h
    simp only [Authenticator.verifyLoop, Except.ok.injEq, Prod.mk.injEq] at h
    obtain ⟨_, rfl⟩ := h
    exact ⟨by simp, fun _ _ => rfl, fun _ _ => rfl, fun h => absurd rfl h, by simp⟩
  | cons b up ih =>
    intro x first pos log xf log' hlen h
    obtain ⟨c, hc, hrec⟩ := verifyLoop_cons_inv E fuel B t true n b up x first pos log xf log' h
    simp only [if_true] at hrec
    obtain ⟨h1, h2, h3, _, h4⟩ := ih _ false (pos + 1)
      { chs := log.chs ++ [c], xs := log.xs ++ [x] } xf log' (by simp [hlen]) hrec
    simp only [List.length_append, List.length_singleton] at h1 h2 h3 h4
    have hck : log'.chs.getD log.chs.length [] = c := by
      rw [h3 log.chs.length (by omega), List.getD_append_right _ _ _ _ (by omega)]
      simp
    have hxk : log'.xs.getD log.chs.length 0 = x := by
      rw [h2 log.chs.length (by omega), List.getD_append_right _ _ _ _ (by omega), hlen]
      simp
    refine ⟨by rw [h1]; simp; omega, ?_, ?_, fun _ => hxk, ?_⟩
    · intro j hj
      rw [h2 j (by omega), List.getD_append _ _ _ _ (by omega)]
    · intro j hj
      rw [h3 j (by omega), List.getD_append _ _ _ _ (by omega)]
    · intro i hi
      cases i with
      | zero =>
        simp only [Nat.add_zero]
        rw [hxk, hc, hck]
      | succ i =>
        have := h4 i (by simpa using hi)
        have e1 : log.chs.length + (i + 1) = log.chs.length + 1 + i := by omega
        have e2 : pos + (i + 1) = pos + 1 + i := by omega
        rw [e1, e2]
        exact this

theorem ch_verifier_ok (E : Env) (hq : 0 < E.q) (fuel : Nat) (V : ChameleonHash) (m r : Nat)
    (n : Int) (c : List Nat) (hV : V.hasSecretKey_ = false) (h : V.ch E fuel m r n = .ok c) :
    r < E.q ∧ ∃ e, e < E.q ∧ serializeHash E e = .ok c ∧
      (e : ZMod E.q) = (m : ZMod E.q) + (V.pk : ZMod E.q) * (r : ZMod E.q) := by
  rw [ch_verifier E fuel V m r n hV] at h
  split at h
  · cases h
  · refine ⟨by omega, secp256k1_ecmult E.q V.pk (r % E.q) (m % E.q), Nat.mod_lt _ hq, h, ?_⟩
    rw [secp256k1_ecmult, ZMod.natCast_mod]
    push_cast
    simp only [ZMod.natCast_mod]
    ring

/-- Extraction from a collision of the verifier-mode hash: when the public
key is `g^(sk + n0*w)` and both level-weights given to `extract` are `n0`, the
key stored is `sk`. -/
theorem extract_of_verifier_collision (E : Env) (hE : E.Valid) (fuel : Nat)
    (Vc I : ChameleonHash) (sk : Nat) (n0 m1 m2 : Int) (x1 r1 x2 r2 : Nat) (c : List Nat)
    (hV : Vc.hasSecretKey_ = false)
    (hpk : (Vc.pk : ZMod E.q) = (sk : ZMod E.q) + (I.w : ZMod E.q) * ((n0 : Int) : ZMod E.q))
    (hterm : ∀ x, ∃ a, shiftAddLoop E.q fuel 0 x n0 = some a)
    (h1 : Vc.ch E fuel x1 r1 m1 = .ok c) (h2 : Vc.ch E fuel x2 r2 m2 = .ok c)
    (hr : r1 % E.q ≠ r2 % E.q) :
    I.extract E fuel x1 r1 n0 x2 r2 n0
      = ({ I with sk := sk % E.q, skInv := secp256k1_scalar_inverse E.q (sk % E.q),
                  hasSecretKey_ := true }, .ok ()) := by
  have hq := hE.pos
  haveI : Fact (Nat.Prime E.q) := ⟨hE.prime⟩
  obtain ⟨_, e1, he1, hs1, hc1⟩ := ch_verifier_ok E hq fuel Vc x1 r1 m1 c hV h1
  obtain ⟨_, e2, he2, hs2, hc2⟩ := ch_verifier_ok E hq fuel Vc x2 r2 m2 c hV h2
  have hee : e1 = e2 := serializeHash_inj E hE e1 e2 he1 he2 c hs1 hs2
  obtain ⟨a1, ha1⟩ := hterm (r1 % E.q)
  obtain ⟨a2, ha2⟩ := hterm (r2 % E.q)
  obtain ⟨_, hac1⟩ := shiftAddLoop_some E.q fuel _ _ n0 a1 ha1
  obtain ⟨_, hac2⟩ := shiftAddLoop_some E.q fuel _ _ n0 a2 ha2
  have hden : (r2 : ZMod E.q) - (r1 : ZMod E.q) ≠ 0 := by
    intro h0
    apply hr
    exact ((ZMod.natCast_eq_natCast_iff' r1 r2 E.q).mp (sub_eq_zero.mp h0).symm)
  have hinv := cast_scalar_inverse E.q
    (secp256k1_scalar_add E.q (r2 % E.q) (secp256k1_scalar_negate E.q (r1 % E.q))) hE.prime
    (by
      rw [cast_scalar_add, cast_scalar_negate E.q _ hq, ZMod.natCast_mod, ZMod.natCast_mod,
        ← sub_eq_add_neg]
      exact hden)
  have hcol : (x1 : ZMod E.q)
        + ((sk : ZMod E.q) + (I.w : ZMod E.q) * ((n0 : Int) : ZMod E.q)) * (r1 : ZMod E.q)
      = (x2 : ZMod E.q)
        + ((sk : ZMod E.q) + (I.w : ZMod E.q) * ((n0 : Int) : ZMod E.q)) * (r2 : ZMod E.q) := by
    rw [← hpk, ← hc1, ← hc2, hee]
  rw [extract_eq E fuel I x1 r1 n0 x2 r2 n0 a1 a2 ha1 ha2]
  generalize hSK : secp256k1_scalar_mul E.q _ _ = SK
  have hval : SK = sk % E.q := by
    rw [← hSK]
    apply eq_of_cast_eq E.q _ _ (scalar_mul_lt _ _ _ hq) (Nat.mod_lt _ hq)
    simp only [cast_scalar_mul, hinv]
    simp only [cast_scalar_add, cast_scalar_mul, cast_scalar_negate E.q _ hq, ZMod.natCast_mod,
      hac1, hac2]
    rw [← extract_algebra E.q (sk : ZMod E.q) (I.w : ZMod E.q) x1 r1 ((n0 : Int) : ZMod E.q)
      x2 r2 ((n0 : Int) : ZMod E.q) hden hcol]
    push_cast
    ring_nf
  rw [hval]

/-- The loop of `Authenticator::extract` on an instance that holds a key:
when every extraction it performs stores the key that is already there, the
instance is not changed. -/
theorem extractLoop_stable (E : Env) (fuel : Nat) (t1 t2 : token_t) (log1 log2 : log_t)
    (n1 n2 : Int) (S : Authenticator) (hS : S.hasSecretKey_ = true)
    (hK : S.ch.hasSecretKey_ = true) :
    ∀ (k i : Nat),
      (∀ j, i ≤ j → j < i + k →
        ((log1.xs.getD j 0 ≠ log2.xs.getD j 0 ∨ t1.rs j ≠ t2.rs j)
          ∧ log1.chs.getD j [] = log2.chs.getD j []) →
        S.ch.extract E fuel (log1.xs.getD j 0) (t1.rs j) n1 (log2.xs.getD j 0) (t2.rs j) n2
          = (S.ch, .ok ())) →
      Authenticator.extractLoop E fuel t1 t2 log1 log2 n1 n2 k i S = (S, .ok ()) := by
  intro k
  induction k with
  | zero =>
    intro i _
    rfl
  | succ k ih =>
    intro i hstep
    have hrec := ih (i + 1) (fun j h1 h2 => hstep j (by omega) (by omega))
    unfold Authenticator.extractLoop
    by_cases hcol : ((log1.xs.getD i 0 != log2.xs.getD i 0 || t1.rs i != t2.rs i)
        && log1.chs.getD i [] == log2.chs.getD i []) = true
    · have hp : (log1.xs.getD i 0 ≠ log2.xs.getD i 0 ∨ t1.rs i ≠ t2.rs i)
          ∧ log1.chs.getD i [] = log2.chs.getD i [] := by
        simpa using hcol
      have hx := hstep i (le_refl _) (by omega) hp
      simp only [hcol, if_true, hx, ChameleonHash.hasSecretKey, hK]
      have hSS : ({ S with ch := S.ch, hasSecretKey_ := true } : Authenticator) = S := by
        cases S
        simp_all
      simp only [Bool.not_true, Bool.false_eq_true, if_false, hSS]
      exact hrec
    · simp only [hcol, Bool.false_eq_true, if_false, ChameleonHash.hasSecretKey, hK]
      have hSS : ({ S with ch := S.ch, hasSecretKey_ := true } : Authenticator) = S := by
        cases S
        simp_all
      simp only [Bool.not_true, Bool.false_eq_true, if_false, hSS]
      exact hrec

/-- In a collision of the verifier-mode hash the two random values differ
modulo the group order, unless the two digests are congruent. -/
theorem collision_rs_differ (E : Env) (hE : E.Valid) (fuel : Nat) (Vc : ChameleonHash)
    (m1 m2 : Int) (x1 r1 x2 r2 : Nat) (c : List Nat) (hV : Vc.hasSecretKey_ = false)
    (h1 : Vc.ch E fuel x1 r1 m1 = .ok c) (h2 : Vc.ch E fuel x2 r2 m2 = .ok c)
    (hne : x1 ≠ x2 ∨ r1 ≠ r2) (hnc : x1 ≠ x2 → x1 % E.q ≠ x2 % E.q) :
    r1 % E.q ≠ r2 % E.q := by
  have hq := hE.pos
  obtain ⟨hr1, e1, he1, hs1, hc1⟩ := ch_verifier_ok E hq fuel Vc x1 r1 m1 c hV h1
  obtain ⟨hr2, e2, he2, hs2, hc2⟩ := ch_verifier_ok E hq fuel Vc x2 r2 m2 c hV h2
  have hee : e1 = e2 := serializeHash_inj E hE e1 e2 he1 he2 c hs1 hs2
  intro hr
  rw [Nat.mod_eq_of_lt hr1, Nat.mod_eq_of_lt hr2] at hr
  subst hr
  have hx : (x1 : ZMod E.q) = (x2 : ZMod E.q) := by
    have : (e1 : ZMod E.q) = (e2 : ZMod E.q) := by rw [hee]
    rw [hc1, hc2] at this
    exact add_right_cancel this
  have hxm : x1 % E.q = x2 % E.q := (ZMod.natCast_eq_natCast_iff' x1 x2 E.q).mp hx
  rcases hne with h | h
  · exact hnc h hxm
  · exact h rfl

/-- The logging verification, on the verifier built from the holder's public
key, of a token that the holder wrote for the level-weight of its
construction: it accepts, it logs the hashes of the path nodes, and each
logged hash is the verifier-mode hash of the logged digest and the token's
randomness. -/
theorem verifier_run (E : Env) (hE : E.Valid) (fuel dsk dw : Nat) (n0 : Int)
    (H V : Authenticator) (dpk : dpk_t) (t0 t : token_t) (ct st : List Nat) (d : Nat)
    (hH : Authenticator.fromDsk E fuel dsk dw n0 = .ok H)
    (hdpk : H.getDpk E = .ok dpk) (hV : Authenticator.fromDpk E dpk dw = .ok V)
    (hct : ct.length = E.CT_LEN) (hL : 0 < E.CT_LEN)
    (hauth : H.authenticate E fuel t0 ct st n0 = (t, .ok ()))
    (hd : ChameleonHash.digest E fuel st = .ok d) :
    ∃ log, V.verifyWithLog E fuel t ct st true { chs := [], xs := [] } n0 = .ok (true, log) ∧
      (∀ i, i < E.DEPTH →
        H.pathHash E fuel ((Node.ofContext ct).drop i) = .ok (log.chs.getD i [])) ∧
      (∀ i, i < E.DEPTH →
        V.ch.ch E fuel (log.xs.getD i 0) (t.rs i) n0 = .ok (log.chs.getD i [])) ∧
      log.xs.getD 0 0 = d := by
  obtain ⟨_, d', xf, hd', hloop, _⟩ := authenticate_ok_inv E fuel H t0 ct st n0 t hauth
  have hdd : d = d' := Except.ok.inj (hd.symm.trans hd')
  subst hdd
  obtain ⟨left, right, _, _, hn, _, hl, hr, hroot⟩ := fromDsk_ok E fuel dsk dw n0 H hH
  obtain ⟨_, _, _, _, hVroot, _, _, _, _⟩ :=
    verifier_of_holder E hE fuel dsk dw n0 H V dpk hH hdpk hV
  have hnl : (Node.ofContext ct).length = E.DEPTH := by
    rw [ofContext_length, hct, Env.DEPTH, Nat.mul_comm]
  have hlen : 2 ≤ (Node.ofContext ct).length := by
    rw [ofContext_length, hct]; omega
  have hxf : xf = H.rootDigest := by
    rw [hroot]
    exact authenticateLoop_root E fuel H n0 left right hl hr _ _ _ _ _ _ t xf (Or.inl hlen) hloop
  obtain ⟨log, hv, hlog⟩ := authenticate_verify_sim E fuel H V n0 true
    (fun node x sr c r hc hr => by
      rw [← hn] at hr
      exact verifier_collision_correct E hE fuel dsk dw n0 n0 H V dpk hH hdpk hV
        node x sr c r hc hr)
    _ _ _ _ _ _ t xf hloop t { chs := [], xs := [] } (fun _ _ => ⟨rfl, rfl⟩)
  obtain ⟨_, _, hpath⟩ := hlog rfl
  obtain ⟨_, _, _, hx0, hch⟩ := verifyLoop_log E fuel V t n0 _ _ _ _ _ xf log rfl hv
  have hne : Node.ofContext ct ≠ [] := by
    intro h0
    rw [h0] at hlen
    simp at hlen
  refine ⟨log, ?_, ?_, ?_, ?_⟩
  · rw [verifyWithLog_of_loop E fuel V t ct st true _ n0 d xf log hd hv, hxf, hVroot]
    simp
  · intro i hi
    have := hpath i (by rw [hnl]; exact hi)
    simpa using this
  · intro i hi
    have := hch i (by rw [hnl]; exact hi)
    simpa using this
  · simpa using hx0 hne

theorem digestLoop_lt (E : Env) : ∀ (fuel : Nat) (m : List Nat) (d : Nat),
    ChameleonHash.digestLoop E fuel m = .ok d → d < E.q := by
  intro fuel
  induction fuel with
  | zero =>
    intro m d h
    simp [ChameleonHash.digestLoop] at h
  | succ f ih =>
    intro m d h
    unfold ChameleonHash.digestLoop at h
    simp only [secp256k1_scalar_set_b32] at h
    split at h
    · exact ih _ _ h
    · rename_i hov
      simp only [Except.ok.injEq] at h
      subst h
      simpa using hov

theorem digest_lt (E : Env) (fuel : Nat) (m : List Nat) (d : Nat)
    (h : ChameleonHash.digest E fuel m = .ok d) : d < E.q :=
  digestLoop_lt E fuel m d h

/-- Claim C6 (as amended): two tokens of the holder for one context, two
states with different digests and the level-weight of the holder's
construction: `extract` on the verifier built from the holder's public key
returns without error and leaves the secret key `sk mod q` in the instance.
Above the leaf level, subtree digests that differ are assumed to differ modulo
the group order. -/
theorem double_authentication_extract (E : Env) (hE : E.Valid) (fuel dsk dw : Nat) (n0 : Int)
    (H V : Authenticator) (dpk : dpk_t) (t01 t02 t1 t2 : token_t) (ct st1 st2 : List Nat)
    (d1 d2 : Nat) (b1 b2 : Bool) (log1 log2 : log_t)
    (hH : Authenticator.fromDsk E fuel dsk dw n0 = .ok H)
    (hdpk : H.getDpk E = .ok dpk) (hV : Authenticator.fromDpk E dpk dw = .ok V)
    (hct : ct.length = E.CT_LEN) (hL : 0 < E.CT_LEN)
    (ha1 : H.authenticate E fuel t01 ct st1 n0 = (t1, .ok ()))
    (ha2 : H.authenticate E fuel t02 ct st2 n0 = (t2, .ok ()))
    (hd1 : ChameleonHash.digest E fuel st1 = .ok d1)
    (hd2 : ChameleonHash.digest E fuel st2 = .ok d2) (hdd : d1 ≠ d2)
    (hlog1 : V.verifyWithLog E fuel t1 ct st1 true { chs := [], xs := [] } n0 = .ok (b1, log1))
    (hlog2 : V.verifyWithLog E fuel t2 ct st2 true { chs := [], xs := [] } n0 = .ok (b2, log2))
    (hnc : ∀ i, i < E.DEPTH → 1 ≤ i → log1.xs.getD i 0 ≠ log2.xs.getD i 0 →
      log1.xs.getD i 0 % E.q ≠ log2.xs.getD i 0 % E.q) :
    (V.extract E fuel t1 t2 ct st1 st2 n0 n0).2 = .ok () ∧
    (V.extract E fuel t1 t2 ct st1 st2 n0 n0).1.hasSecretKey_ = true ∧
    (V.extract E fuel t1 t2 ct st1 st2 n0 n0).1.getDsk E = .ok (dsk % E.q) := by
  have hq := hE.pos
  obtain ⟨logA, hvA, hpath1, hch1, hx1⟩ :=
    verifier_run E hE fuel dsk dw n0 H V dpk t01 t1 ct st1 d1 hH hdpk hV hct hL ha1 hd1
  obtain ⟨logB, hvB, hpath2, hch2, hx2⟩ :=
    verifier_run E hE fuel dsk dw n0 H V dpk t02 t2 ct st2 d2 hH hdpk hV hct hL ha2 hd2
  have e1 := Except.ok.inj (hlog1.symm.trans hvA)
  have e2 := Except.ok.inj (hlog2.symm.trans hvB)
  obtain ⟨rfl, rfl⟩ := Prod.mk.inj e1
  obtain ⟨rfl, rfl⟩ := Prod.mk.inj e2
  obtain ⟨hVflag, _, hVpk, hVw, _, _, _, hpkc, _⟩ :=
    verifier_of_holder E hE fuel dsk dw n0 H V dpk hH hdpk hV
  obtain ⟨_, _, hsk, _, _, _, _, _, _⟩ := fromDsk_ok E fuel dsk dw n0 H hH
  obtain ⟨_, _, _, hsk2, _, a0, ha0, _⟩ := fromSk_ok E fuel dsk dw n0 H.ch hsk
  have hterm : ∀ x, ∃ a, shiftAddLoop E.q fuel 0 x n0 = some a :=
    fun x => shiftAddLoop_transfer E.q fuel _ _ 0 x n0 a0 ha0
  have hpk : (V.ch.pk : ZMod E.q)
      = (dsk : ZMod E.q) + (V.ch.w : ZMod E.q) * ((n0 : Int) : ZMod E.q) := by
    rw [hVpk, hpkc, hVw, hsk2, ZMod.natCast_mod]
  -- the collision condition of a level gives different random values
  have hlevel : ∀ j, j < E.DEPTH →
      ((log1.xs.getD j 0 ≠ log2.xs.getD j 0 ∨ t1.rs j ≠ t2.rs j)
        ∧ log1.chs.getD j [] = log2.chs.getD j []) →
      ∀ I : ChameleonHash, I.w = V.ch.w →
        I.extract E fuel (log1.xs.getD j 0) (t1.rs j) n0 (log2.xs.getD j 0) (t2.rs j) n0
          = ({ I with sk := dsk % E.q, skInv := secp256k1_scalar_inverse E.q (dsk % E.q),
                      hasSecretKey_ := true }, .ok ()) := by
    intro j hj hcol I hIw
    have hc1 := hch1 j hj
    have hc2 := hch2 j hj
    rw [← hcol.2] at hc2
    have hncj : log1.xs.getD j 0 ≠ log2.xs.getD j 0 →
        log1.xs.getD j 0 % E.q ≠ log2.xs.getD j 0 % E.q := by
      intro hne
      by_cases hj0 : j = 0
      · subst hj0
        rw [hx1, hx2, Nat.mod_eq_of_lt (digest_lt E fuel st1 d1 hd1),
          Nat.mod_eq_of_lt (digest_lt E fuel st2 d2 hd2)]
        exact hdd
      · exact hnc j hj (by omega) hne
    have hrs := collision_rs_differ E hE fuel V.ch n0 n0 _ _ _ _ _ hVflag hc1 hc2 hcol.1 hncj
    exact extract_of_verifier_collision E hE fuel V.ch I dsk n0 n0 n0 _ _ _ _ _ hVflag
      (by rw [hIw]; exact hpk) hterm hc1 hc2 hrs
  -- the first iteration
  have hD : E.DEPTH = (E.DEPTH - 1) + 1 := by
    unfold Env.DEPTH; omega
  have hceq : log1.chs.getD 0 [] = log2.chs.getD 0 [] := by
    have hp := hpath1 0 (by omega)
    rw [hpath2 0 (by omega)] at hp
    exact (Except.ok.inj hp).symm
  have hcol0 : ((log1.xs.getD 0 0 != log2.xs.getD 0 0 || t1.rs 0 != t2.rs 0)
      && log1.chs.getD 0 [] == log2.chs.getD 0 []) = true := by
    rw [hx1, hx2, hceq]
    simp [hdd]
  have hp0 : (log1.xs.getD 0 0 ≠ log2.xs.getD 0 0 ∨ t1.rs 0 ≠ t2.rs 0)
      ∧ log1.chs.getD 0 [] = log2.chs.getD 0 [] :=
    ⟨Or.inl (by rw [hx1, hx2]; exact hdd), hceq⟩
  have hfinal : V.extract E fuel t1 t2 ct st1 st2 n0 n0
      = ({ V with
            ch := { V.ch with sk := dsk % E.q,
                              skInv := secp256k1_scalar_inverse E.q (dsk % E.q),
                              hasSecretKey_ := true },
            hasSecretKey_ := true }, .ok ()) := by
    unfold Authenticator.extract
    simp only [hlog1, hlog2, Bool.not_true, Bool.false_eq_true, if_false]
    rw [hD]
    unfold Authenticator.extractLoop
    simp only [hcol0, if_true, hlevel 0 (by omega) hp0 V.ch rfl, ChameleonHash.hasSecretKey,
      Bool.not_true, Bool.false_eq_true, if_false]
    apply extractLoop_stable E fuel t1 t2 log1 log2 n0 n0 _ rfl rfl
    intro j _ hj2 hcol
    exact hlevel j (by omega) hcol _ rfl
  rw [hfinal]
  refine ⟨rfl, rfl, ?_⟩
  simp [Authenticator.getDsk, ChameleonHash.getSk, secp256k1_scalar_get_b32]

set_option maxRecDepth 100000 in
/-- Witness of `authenticate_verify_public`. -/
theorem authenticate_verify_public_witness :
    demoVerifier.verify demoEnv 32 (demoToken stHello 5) ctOne stHello 5 = .ok true ∧
    demoHolder.verify demoEnv 32 (demoToken stHello 5) ctOne stHello 5 = .ok true :=
  authenticate_verify_public demoEnv demoEnv_valid 32 12345 678 5 demoHolder demoVerifier demoDpk
    emptyToken (demoToken stHello 5) ctOne stHello
    (by decide) (by decide) (by decide) (by decide) (by decide)
    (Prod.ext rfl (by decide))

set_option maxRecDepth 100000 in
/-- Counterexample to claim C5: the holder built with `n0 = 5` writes a token
for the level-weight `6`; the holder accepts it, the verifier built from the
holder's public key rejects it. -/
theorem authenticate_verify_public_counterexample :
    demoEnv.Valid ∧
    Authenticator.fromDsk demoEnv 32 12345 678 5 = .ok demoHolder ∧
    demoHolder.getDpk demoEnv = .ok demoDpk ∧
    Authenticator.fromDpk demoEnv demoDpk 678 = .ok demoVerifier ∧
    (demoHolder.authenticate demoEnv 32 emptyToken ctOne stWorld 6).2 = .ok () ∧
    demoHolder.verify demoEnv 32 (demoToken stWorld 6) ctOne stWorld 6 = .ok true ∧
    demoVerifier.verify demoEnv 32 (demoToken stWorld 6) ctOne stWorld 6 = .ok false :=
  ⟨demoEnv_valid, by decide, by decide, by decide, by decide, by decide, by decide⟩

set_option maxRecDepth 100000 in
/-- Witness of `double_authentication_extract`: the end-to-end scenario of
the spec (level-weight `5`, context `0x01`, states `"hello"` and `"world"`). -/
theorem double_authentication_extract_witness :
    (demoVerifier.extract demoEnv 32 (demoToken stHello 5) (demoToken stWorld 5)
      ctOne stHello stWorld 5 5).2 = .ok () ∧
    (demoVerifier.extract demoEnv 32 (demoToken stHello 5) (demoToken stWorld 5)
      ctOne stHello stWorld 5 5).1.hasSecretKey_ = true ∧
    (demoVerifier.extract demoEnv 32 (demoToken stHello 5) (demoToken stWorld 5)
      ctOne stHello stWorld 5 5).1.getDsk demoEnv = .ok (12345 % demoEnv.q) :=
  double_authentication_extract demoEnv demoEnv_valid 32 12345 678 5 demoHolder demoVerifier demoDpk
    emptyToken emptyToken (demoToken stHello 5) (demoToken stWorld 5) ctOne stHello stWorld
    263261 346025 true true (demoLog (demoToken stHello 5) stHello 5)
    (demoLog (demoToken stWorld 5) stWorld 5)
    (by decide) (by decide) (by decide) (by decide) (by decide)
    (Prod.ext rfl (by decide)) (Prod.ext rfl (by decide))
    (by decide) (by decide) (by decide) (by decide) (by decide) (by decide)

set_option maxRecDepth 100000 in
/-- Counterexample to claim C6: the holder built with `n0 = 5` authenticates
the context `0x01` with `"hello"` for the level-weight `5` and with `"world"`
for the level-weight `6`; on the verifier built from the holder's public key
`extract` throws, because the second token does not verify there, and no key
is recovered. -/
theorem double_authentication_extract_counterexample :
    demoEnv.Valid ∧
    Authenticator.fromDsk demoEnv 32 12345 678 5 = .ok demoHolder ∧
    demoHolder.getDpk demoEnv = .ok demoDpk ∧
    Authenticator.fromDpk demoEnv demoDpk 678 = .ok demoVerifier ∧
    ChameleonHash.digest demoEnv 32 stHello = .ok 263261 ∧
    ChameleonHash.digest demoEnv 32 stWorld = .ok 346025 ∧
    (demoHolder.authenticate demoEnv 32 emptyToken ctOne stHello 5).2 = .ok () ∧
    (demoHolder.authenticate demoEnv 32 emptyToken ctOne stWorld 6).2 = .ok () ∧
    demoVerifier.extract demoEnv 32 (demoToken stHello 5) (demoToken stWorld 6)
      ctOne stHello stWorld 5 6 = (demoVerifier, .error .t2_does_not_verify) ∧
    demoVerifier.getDsk demoEnv = .error .no_secret_key :=
  ⟨demoEnv_valid, by decide, by decide, by decide, by decide, by decide, by decide, by decide,
    by decide, by decide⟩

/-- The result of the loop of `verifyWithLog` does not depend on the log. -/
theorem verifyLoop_logging (E : Env) (fuel : Nat) (B : Authenticator) (t : token_t) (n : Int)
    (l1 l2 : Bool) :
    ∀ (node : Node) (x : Nat) (first : Bool) (pos : Nat) (logA logB : log_t),
      Except.map Prod.fst (Authenticator.verifyLoop E fuel B t l1 n node x first pos logA)
        = Except.map Prod.fst (Authenticator.verifyLoop E fuel B t l2 n node x first pos logB) := by
  intro node
  induction node with
  | nil =>
    intro x first pos logA logB
    simp [Authenticator.verifyLoop, Except.map]
  | cons b up ih =>
    intro x first pos logA logB
    cases hc : B.ch.ch E fuel x (t.rs pos) n with
    | error e =>
      rw [verifyLoop_cons_error E fuel B t l1 n b up x first pos logA e hc,
        verifyLoop_cons_error E fuel B t l2 n b up x first pos logB e hc]
    | ok c =>
      rw [verifyLoop_cons_ok E fuel B t l1 n b up x first pos logA c hc,
        verifyLoop_cons_ok E fuel B t l2 n b up x first pos logB c hc]
      exact ih _ _ _ _ _

/-- The method `verify` returns what `verifyWithLog` returns with a log. -/
theorem verifyWithLog_fst (E : Env) (fuel : Nat) (B : Authenticator) (t : token_t)
    (ct st : List Nat) (log : log_t) (n : Int) :
    Except.map Prod.fst (B.verifyWithLog E fuel t ct st true log n) = B.verify E fuel t ct st n := by
  unfold Authenticator.verify Authenticator.verifyWithLog
  cases hd : ChameleonHash.digest E fuel st with
  | error e => rfl
  | ok d =>
    simp only
    have h := verifyLoop_logging E fuel B t n true false (Node.ofContext ct) d true 0 log
      { chs := [], xs := [] }
    cases h1 : Authenticator.verifyLoop E fuel B t true n (Node.ofContext ct) d true 0 log with
    | error e1 =>
      cases h2 : Authenticator.verifyLoop E fuel B t false n (Node.ofContext ct) d true 0
          { chs := [], xs := [] } with
      | error e2 =>
        rw [h1, h2] at h
        simp only [Except.map, Except.error.injEq] at h ⊢
        exact h
      | ok p2 =>
        rw [h1, h2] at h
        simp [Except.map] at h
    | ok p1 =>
      cases h2 : Authenticator.verifyLoop E fuel B t false n (Node.ofContext ct) d true 0
          { chs := [], xs := [] } with
      | error e2 =>
        rw [h1, h2] at h
        simp [Except.map] at h
      | ok p2 =>
        rw [h1, h2] at h
        simp only [Except.map, Except.ok.injEq] at h ⊢
        rw [h]

theorem verifyWithLog_of_verify_ok (E : Env) (fuel : Nat) (B : Authenticator) (t : token_t)
    (ct st : List Nat) (log : log_t) (n : Int) (b : Bool)
    (h : B.verify E fuel t ct st n = .ok b) :
    ∃ log', B.verifyWithLog E fuel t ct st true log n = .ok (b, log') := by
  have := verifyWithLog_fst E fuel B t ct st log n
  rw [h] at this
  cases hv : B.verifyWithLog E fuel t ct st true log n with
  | error e => rw [hv] at this; simp [Except.map] at this
  | ok p =>
    rw [hv] at this
    simp only [Except.map, Except.ok.injEq] at this
    exact ⟨p.2, by rw [← this]⟩

theorem verifyWithLog_of_verify_error (E : Env) (fuel : Nat) (B : Authenticator) (t : token_t)
    (ct st : List Nat) (log : log_t) (n : Int) (e : Error)
    (h : B.verify E fuel t ct st n = .error e) :
    B.verifyWithLog E fuel t ct st true log n = .error e := by
  have := verifyWithLog_fst E fuel B t ct st log n
  rw [h] at this
  cases hv : B.verifyWithLog E fuel t ct st true log n with
  | error e' =>
    rw [hv] at this
    simp only [Except.map, Except.error.injEq] at this
    rw [this]
  | ok p => rw [hv] at this; simp [Except.map] at this

/-- An exception of a verification inside `Authenticator::extract` leaves
`extract` with that exception and the instance unchanged. -/
theorem extract_propagates (E : Env) (fuel : Nat) (A : Authenticator) (t1 t2 : token_t)
    (ct st1 st2 : List Nat) (n1 n2 : Int) (e : Error)
    (h : A.verify E fuel t1 ct st1 n1 = .error e ∨
      (A.verify E fuel t1 ct st1 n1 = .ok true ∧ A.verify E fuel t2 ct st2 n2 = .error e)) :
    A.extract E fuel t1 t2 ct st1 st2 n1 n2 = (A, .error e) := by
  unfold Authenticator.extract
  rcases h with h | ⟨h1, h2⟩
  · rw [verifyWithLog_of_verify_error E fuel A t1 ct st1 _ n1 e h]
  · obtain ⟨log1, hl1⟩ := verifyWithLog_of_verify_ok E fuel A t1 ct st1 { chs := [], xs := [] }
      n1 true h1
    rw [hl1, verifyWithLog_of_verify_error E fuel A t2 ct st2 _ n2 e h2]
    simp

/-- Claim C9 (as amended): when `verify` returns false for the first token,
or returns true for the first token and false for the second, `extract` fails
with the verification-failure error and the instance is unchanged. -/
theorem extract_rejects_unverified (E : Env) (fuel : Nat) (A : Authenticator) (t1 t2 : token_t)
    (ct st1 st2 : List Nat) (n1 n2 : Int)
    (h : A.verify E fuel t1 ct st1 n1 = .ok false ∨
      (A.verify E fuel t1 ct st1 n1 = .ok true ∧ A.verify E fuel t2 ct st2 n2 = .ok false)) :
    ∃ e, e.isVerificationFailure = true ∧
      A.extract E fuel t1 t2 ct st1 st2 n1 n2 = (A, .error e) := by
  rcases h with h | ⟨h1, h2⟩
  · obtain ⟨log1, hl1⟩ := verifyWithLog_of_verify_ok E fuel A t1 ct st1 { chs := [], xs := [] }
      n1 false h
    refine ⟨.t1_does_not_verify, rfl, ?_⟩
    unfold Authenticator.extract
    rw [hl1]
    simp
  · obtain ⟨log1, hl1⟩ := verifyWithLog_of_verify_ok E fuel A t1 ct st1 { chs := [], xs := [] }
      n1 true h1
    obtain ⟨log2, hl2⟩ := verifyWithLog_of_verify_ok E fuel A t2 ct st2 { chs := [], xs := [] }
      n2 false h2
    refine ⟨.t2_does_not_verify, rfl, ?_⟩
    unfold Authenticator.extract
    rw [hl1, hl2]
    simp

set_option maxRecDepth 100000 in
/-- Witness of `extract_rejects_unverified`. -/
theorem extract_rejects_unverified_witness :
    ∃ e, e.isVerificationFailure = true ∧
      demoVerifier.extract demoEnv 32 (demoToken stHello 5) emptyToken ctOne stHello stWorld 5 5
        = (demoVerifier, .error e) :=
  extract_rejects_unverified demoEnv 32 demoVerifier (demoToken stHello 5) emptyToken
    ctOne stHello stWorld 5 5 (Or.inr ⟨by decide, by decide⟩)

set_option maxRecDepth 100000 in
/-- Counterexample to claim C9: `verify` returns false for the second token,
while for the first token it throws (its first randomness overflows, or its
first hash is the point at infinity); `extract` then fails with the exception
of the first verification, which is not the verification-failure error. -/
theorem extract_rejects_unverified_counterexample :
    demoVerifier.verify demoEnv 32 emptyToken ctOne stWorld 5 = .ok false ∧
    demoVerifier.verify demoEnv 32 overflowToken ctOne stHello 5 = .error .overflow ∧
    demoVerifier.extract demoEnv 32 overflowToken emptyToken ctOne stHello stWorld 5 5
      = (demoVerifier, .error .overflow) ∧
    Error.isVerificationFailure .overflow = false ∧
    demoVerifier.verify demoEnv 32 infinityToken ctOne stHello 5 = .error .cannot_serialize ∧
    demoVerifier.extract demoEnv 32 infinityToken emptyToken ctOne stHello stWorld 5 5
      = (demoVerifier, .error .cannot_serialize) ∧
    Error.isVerificationFailure .cannot_serialize = false :=
  ⟨by decide, by decide, by decide, by decide, by decide, by decide, by decide⟩

theorem serializeHash_error (E : Env) (e : Nat) (err : Error)
    (h : serializeHash E e = .error err) : err = .cannot_serialize := by
  unfold serializeHash at h
  split at h
  · simp only [Except.error.injEq] at h
    exact h.symm
  · cases h

theorem ch_error_kinds (E : Env) (fuel : Nat) (H : ChameleonHash) (m r : Nat) (n : Int)
    (err : Error) (h : H.ch E fuel m r n = .error err) : err.isNoSecretKey = false := by
  cases hflag : H.hasSecretKey_ with
  | false =>
    rw [ch_verifier E fuel H m r n hflag] at h
    split at h
    · simp only [Except.error.injEq] at h
      subst h
      rfl
    · rw [serializeHash_error E _ err h]
      rfl
  | true =>
    cases ha : shiftAddLoop E.q fuel 0 (secp256k1_scalar_add E.q 0 H.w) n with
    | none =>
      rw [ch_holder_out_of_fuel E fuel H m r n hflag ha] at h
      split at h <;>
      · simp only [Except.error.injEq] at h
        subst h
        rfl
    | some a =>
      rw [ch_holder E fuel H m r n a hflag ha] at h
      split at h
      · simp only [Except.error.injEq] at h
        subst h
        rfl
      · rw [serializeHash_error E _ err h]
        rfl

theorem collision_holder_error (E : Env) (fuel : Nat) (H : ChameleonHash) (d1 r1 : Nat)
    (n1 : Int) (d2 r2 : Nat) (n2 : Int) (err : Error) (hH : H.hasSecretKey_ = true)
    (h : (H.collision E fuel d1 r1 n1 d2 r2 n2).2 = .error err) : err = .out_of_fuel := by
  unfold ChameleonHash.collision at h
  simp only [ChameleonHash.hasSecretKey, hH, secp256k1_scalar_set_b32, Bool.not_true,
    Bool.false_eq_true, if_false] at h
  split at h
  · simp only [Except.error.injEq] at h
    exact h.symm
  · split at h
    · simp only [Except.error.injEq] at h
      exact h.symm
    · cases h

theorem digestLoop_error (E : Env) : ∀ (fuel : Nat) (m : List Nat) (err : Error),
    ChameleonHash.digestLoop E fuel m = .error err → err = .out_of_fuel := by
  intro fuel
  induction fuel with
  | zero =>
    intro m err h
    simp only [ChameleonHash.digestLoop, Except.error.injEq] at h
    exact h.symm
  | succ f ih =>
    intro m err h
    unfold ChameleonHash.digestLoop at h
    simp only at h
    split at h
    · exact ih _ _ h
    · cases h

/-- On an instance whose chameleon hash holds a key, the loop of
`authenticate` does not fail for want of a key. -/
theorem authenticateLoop_error (E : Env) (fuel : Nat) (A : Authenticator) (n : Int)
    (hflag : A.ch.hasSecretKey_ = true) :
    ∀ (node : Node) (x sr : Nat) (first : Bool) (t : token_t) (pos : Nat) (err : Error),
      (Authenticator.authenticateLoop E fuel A n node x sr first t pos).2 = .error err →
      err.isNoSecretKey = false := by
  intro node
  induction node with
  | nil =>
    intro x sr first t pos err h
    simp [Authenticator.authenticateLoop] at h
  | cons b up ih =>
    intro x sr first t pos err h
    unfold Authenticator.authenticateLoop at h
    simp only at h
    split at h
    · rename_i e he
      simp only [Except.error.injEq] at h
      subst h
      exact ch_error_kinds E fuel A.ch _ _ _ _ he
    · split at h
      · rename_i r e he
        simp only [Except.error.injEq] at h
        subst h
        have := collision_holder_error E fuel A.ch _ _ _ _ _ _ e hflag (by rw [he])
        rw [this]
        rfl
      · split at h
        · rename_i e he
          simp only [Except.error.injEq] at h
          subst h
          exact ch_error_kinds E fuel A.ch _ _ _ _ he
        · exact ih _ _ _ _ _ _ h

/-- Claim C10: `collision`, `getSk` and `authenticate` fail with the
no-secret-key error exactly on an instance in verify-only mode, and then they
leave `r2` and the token as they were.  (The three methods assign no member:
they are functions of the instance, which is the same after the call.)  For
`authenticate` the instance is one whose flag agrees with the flag of its
chameleon hash, as it does after each constructor and after `extract`. -/
theorem no_secret_key_iff (E : Env) (fuel : Nat) :
    (∀ (H : ChameleonHash) (d1 r1 : Nat) (n1 : Int) (d2 r2 : Nat) (n2 : Int),
      ((∃ e, e.isNoSecretKey = true ∧ (H.collision E fuel d1 r1 n1 d2 r2 n2).2 = .error e)
        ↔ H.hasSecretKey_ = false) ∧
      (H.hasSecretKey_ = false →
        H.collision E fuel d1 r1 n1 d2 r2 n2 = (r2, .error .no_secret_key))) ∧
    (∀ (H : ChameleonHash),
      ((∃ e, e.isNoSecretKey = true ∧ H.getSk E = .error e) ↔ H.hasSecretKey_ = false) ∧
      (H.hasSecretKey_ = false → H.getSk E = .error .no_secret_key)) ∧
    (∀ (A : Authenticator) (t : token_t) (ct st : List Nat) (n : Int),
      A.ch.hasSecretKey_ = A.hasSecretKey_ →
      ((∃ e, e.isNoSecretKey = true ∧ (A.authenticate E fuel t ct st n).2 = .error e)
        ↔ A.hasSecretKey_ = false) ∧
      (A.hasSecretKey_ = false →
        A.authenticate E fuel t ct st n = (t, .error .cannot_authenticate))) := by
  refine ⟨?_, ?_, ?_⟩
  · intro H d1 r1 n1 d2 r2 n2
    have hv : H.hasSecretKey_ = false →
        H.collision E fuel d1 r1 n1 d2 r2 n2 = (r2, .error .no_secret_key) :=
      collision_verifier E fuel H d1 r1 n1 d2 r2 n2
    refine ⟨⟨?_, fun h => ⟨.no_secret_key, rfl, by rw [hv h]⟩⟩, hv⟩
    rintro ⟨e, he, herr⟩
    cases hflag : H.hasSecretKey_ with
    | false => rfl
    | true =>
      rw [collision_holder_error E fuel H d1 r1 n1 d2 r2 n2 e hflag herr] at he
      cases he
  · intro H
    refine ⟨⟨?_, fun h => ⟨.no_secret_key, rfl, getSk_verifier E H h⟩⟩, getSk_verifier E H⟩
    rintro ⟨e, _, herr⟩
    cases hflag : H.hasSecretKey_ with
    | false => rfl
    | true =>
      rw [getSk_holder E H hflag] at herr
      cases herr
  · intro A t ct st n hcons
    have hv : A.hasSecretKey_ = false →
        A.authenticate E fuel t ct st n = (t, .error .cannot_authenticate) := by
      intro h
      simp [Authenticator.authenticate, h]
    refine ⟨⟨?_, fun h => ⟨.cannot_authenticate, rfl, by rw [hv h]⟩⟩, hv⟩
    rintro ⟨e, he, herr⟩
    cases hflag : A.hasSecretKey_ with
    | false => rfl
    | true =>
      exfalso
      rw [hflag] at hcons
      unfold Authenticator.authenticate at herr
      simp only [hflag, Bool.not_true, Bool.false_eq_true, if_false] at herr
      split at herr
      · rename_i e' hd
        simp only [Except.error.injEq] at herr
        subst herr
        rw [digestLoop_error E fuel st e' hd] at he
        cases he
      · split at herr
        · rename_i t' e' hl
          simp only [Except.error.injEq] at herr
          subst herr
          have := authenticateLoop_error E fuel A n hcons _ _ _ _ _ _ e' (by rw [hl])
          rw [this] at he
          cases he
        · split at herr
          · simp only [Except.error.injEq] at herr
            subst herr
            cases he
          · cases herr

set_option maxRecDepth 100000 in
/-- Witness of `no_secret_key_iff`: the part on `authenticate`, on the
verify-only instance `demoVerifier`. -/
theorem no_secret_key_iff_witness :
    ((∃ e, e.isNoSecretKey = true ∧
        (demoVerifier.authenticate demoEnv 32 emptyToken ctOne stHello 5).2 = .error e)
      ↔ demoVerifier.hasSecretKey_ = false) ∧
    (demoVerifier.hasSecretKey_ = false →
      demoVerifier.authenticate demoEnv 32 emptyToken ctOne stHello 5
        = (emptyToken, .error .cannot_authenticate)) :=
  (no_secret_key_iff demoEnv 32).2.2 demoVerifier emptyToken ctOne stHello 5 (by decide)

/-- The two flags agree after the holder constructor. -/
theorem fromDsk_flags (E : Env) (fuel dsk dw : Nat) (n0 : Int) (A : Authenticator)
    (h : Authenticator.fromDsk E fuel dsk dw n0 = .ok A) :
    A.ch.hasSecretKey_ = A.hasSecretKey_ := by
  obtain ⟨_, _, hsk, _, _, hflag, _, _, _⟩ := fromDsk_ok E fuel dsk dw n0 A h
  obtain ⟨_, hchflag, _, _, _, _, _, _⟩ := fromSk_ok E fuel dsk dw n0 A.ch hsk
  rw [hflag, hchflag]

/-- The two flags agree after the verifier constructor. -/
theorem fromDpk_flags (E : Env) (dpk : dpk_t) (dw : Nat) (V : Authenticator)
    (h : Authenticator.fromDpk E dpk dw = .ok V) :
    V.ch.hasSecretKey_ = V.hasSecretKey_ := by
  obtain ⟨hch, _, hflag, _, _⟩ := fromDpk_ok E dpk dw V h
  obtain ⟨_, _, _, _, hchflag⟩ := (fromPk_ok E dpk.chpk dw V.ch).mp hch
  rw [hflag, hchflag]

/-! ## The holder constructor -/

/-- The shift-and-add loop started at `a = 0` with a reduced `x` computes the
product `n * x` modulo the group order. -/
theorem shiftAddLoop_value (q : Nat) (hq : 0 < q) (fuel x : Nat) (n : Int) (v : Nat)
    (h : shiftAddLoop q fuel 0 x n = some v) : v = n.toNat * x % q := by
  obtain ⟨hn, hv⟩ := shiftAddLoop_some q fuel 0 x n v h
  have hlt := shiftAddLoop_lt q hq fuel 0 x n v hq h
  apply eq_of_cast_eq q v _ hlt (Nat.mod_lt _ hq)
  rw [hv, ZMod.natCast_mod, cast_int_toNat q n hn]
  push_cast
  ring

/-- The library inverse of a scalar that is not zero is its inverse: the
product is `1` modulo the group order. -/
theorem scalar_inverse_mul (q a : Nat) (hq : Nat.Prime q) (ha : a % q ≠ 0) :
    secp256k1_scalar_inverse q a * a % q = 1 := by
  haveI : Fact (Nat.Prime q) := ⟨hq⟩
  have hc : (a : ZMod q) ≠ 0 := cast_ne_zero_of_mod_ne q a ha
  have h1 : ((secp256k1_scalar_inverse q a * a % q : Nat) : ZMod q) = ((1 : Nat) : ZMod q) := by
    rw [ZMod.natCast_mod, Nat.cast_mul, cast_scalar_inverse q a hq hc]
    push_cast
    exact inv_mul_cancel₀ hc
  exact eq_of_cast_eq q _ 1 (Nat.mod_lt _ hq.pos) hq.one_lt h1

theorem scalar_inverse_lt (q a : Nat) (hq : 0 < q) : secp256k1_scalar_inverse q a < q := by
  rw [secp256k1_scalar_inverse, powMod_eq]
  exact Nat.mod_lt _ hq

/-- The holder constructor throws exactly for a secret key that is zero
modulo the group order, whatever the loop budget. -/
theorem fromSk_zero (E : Env) (fuel sk w : Nat) (n : Int) (h : sk % E.q = 0) :
    ChameleonHash.fromSk E fuel sk w n = .error .zero_secret_key := by
  unfold ChameleonHash.fromSk
  simp [secp256k1_scalar_set_b32, secp256k1_scalar_is_zero, h]

/-- Claim C11: the holder constructor `ChameleonHash(sk, w, n)` for a
level-weight `n >= 0` throws, and then the invalid-secret-key error, exactly
when `sk` is zero modulo the group order `q`; otherwise the loop yields
`n * w mod q`, the stored public key is the point `g^((sk + n*w) mod q)`, the
stored scalars are `sk mod q` and `w mod q`, and the stored `skInv` times
`sk` is `1` modulo `q`. -/
theorem holder_construction (E : Env) (hE : E.Valid) (fuel sk w : Nat) (n : Int)
    (hn0 : 0 ≤ n) (hn1 : n < 2 ^ fuel) :
    ((∃ e, ChameleonHash.fromSk E fuel sk w n = .error e) ↔ sk % E.q = 0) ∧
    (sk % E.q = 0 → ChameleonHash.fromSk E fuel sk w n = .error .zero_secret_key) ∧
    (sk % E.q ≠ 0 →
      shiftAddLoop E.q fuel 0 (secp256k1_scalar_add E.q 0 (w % E.q)) n
        = some (n.toNat * w % E.q) ∧
      ∃ H, ChameleonHash.fromSk E fuel sk w n = .ok H ∧
        H.pk = (sk + n.toNat * w) % E.q ∧ H.w = w % E.q ∧ H.sk = sk % E.q ∧
        H.hasSecretKey_ = true ∧ H.skInv < E.q ∧ H.skInv * H.sk % E.q = 1) := by
  have hq := hE.pos
  refine ⟨⟨?_, ?_⟩, fromSk_zero E fuel sk w n, ?_⟩
  · rintro ⟨e, he⟩
    by_contra hsk
    obtain ⟨H, hH⟩ := fromSk_terminates E fuel sk w n hsk hn0 hn1
    rw [hH] at he
    cases he
  · intro h
    exact ⟨_, fromSk_zero E fuel sk w n h⟩
  · intro hsk
    obtain ⟨H, hH⟩ := fromSk_terminates E fuel sk w n hsk hn0 hn1
    obtain ⟨_, hflag, hw, hHsk, hinv, a, ha, hpk⟩ := fromSk_ok E fuel sk w n H hH
    have hav := shiftAddLoop_value E.q hq fuel _ n a ha
    have hx : secp256k1_scalar_add E.q 0 (w % E.q) = w % E.q := by
      simp [secp256k1_scalar_add]
    have hav2 : a = n.toNat * w % E.q := by
      rw [hav, hx, Nat.mul_mod, Nat.mod_mod, ← Nat.mul_mod]
    refine ⟨by rw [ha, hav2], H, hH, ?_, hw, hHsk, hflag, ?_, ?_⟩
    · rw [hpk, hav2]
      simp only [secp256k1_ecmult_gen, secp256k1_scalar_add, Nat.zero_add, Nat.mod_mod]
      rw [Nat.add_mod, Nat.mod_mod, Nat.mod_mod, ← Nat.add_mod]
    · rw [hinv]; exact scalar_inverse_lt E.q _ hq
    · rw [hinv, hHsk]
      have := scalar_inverse_mul E.q (sk % E.q) hE.prime (by rwa [Nat.mod_mod])
      exact this

set_option maxRecDepth 100000 in
/-- Claim C11 at `ChameleonHash(12345, 678, 5)` over the group order of
secp256k1. -/
theorem holder_construction_witness :
    ((∃ e, ChameleonHash.fromSk demoEnv 32 12345 678 5 = .error e) ↔ 12345 % demoEnv.q = 0) ∧
    (12345 % demoEnv.q = 0 →
      ChameleonHash.fromSk demoEnv 32 12345 678 5 = .error .zero_secret_key) ∧
    (12345 % demoEnv.q ≠ 0 →
      shiftAddLoop demoEnv.q 32 0 (secp256k1_scalar_add demoEnv.q 0 (678 % demoEnv.q)) 5
        = some ((5 : Int).toNat * 678 % demoEnv.q) ∧
      ∃ H, ChameleonHash.fromSk demoEnv 32 12345 678 5 = .ok H ∧
        H.pk = (12345 + (5 : Int).toNat * 678) % demoEnv.q ∧ H.w = 678 % demoEnv.q ∧
        H.sk = 12345 % demoEnv.q ∧
        H.hasSecretKey_ = true ∧ H.skInv < demoEnv.q ∧ H.skInv * H.sk % demoEnv.q = 1) :=
  holder_construction demoEnv demoEnv_valid 32 12345 678 5 (by decide) (by decide)

/-! ## The outcomes of `ch` -/

/-- The exponent of the point that `ch(d, r, n)` serialises: in holder mode
`d + (sk + n*w) * r`, in verifier mode `r * pk + d` for the exponent `pk` of
the public key, modulo the group order. -/
theorem ch_exponent (E : Env) (hq : 0 < E.q) (fuel : Nat) (I : ChameleonHash) (d r : Nat)
    (n : Int) (hn0 : 0 ≤ n) (hn1 : n < 2 ^ fuel) (hr : r < E.q) :
    I.ch E fuel d r n = serializeHash E
      (if I.hasSecretKey_ then (d + (I.sk + n.toNat * I.w) * r) % E.q
       else (r * I.pk + d) % E.q) := by
  cases hflag : I.hasSecretKey_ with
  | false =>
    rw [ch_verifier E fuel I d r n hflag, if_neg (by omega)]
    simp only [secp256k1_ecmult, Bool.false_eq_true, if_false]
    congr 1
    rw [Nat.add_mod, Nat.mul_mod, Nat.mod_mod, Nat.mod_mod, ← Nat.mul_mod, ← Nat.add_mod]
  | true =>
    obtain ⟨a, ha⟩ := shiftAddLoop_terminates E.q fuel 0 (secp256k1_scalar_add E.q 0 I.w) n
      hn0 hn1
    rw [ch_holder E fuel I d r n a hflag ha, if_neg (by omega)]
    simp only [if_true]
    apply serializeHash_congr E _ _ (Nat.mod_lt _ hq) (Nat.mod_lt _ hq)
    obtain ⟨_, hac⟩ := shiftAddLoop_some E.q fuel _ _ n a ha
    simp only [secp256k1_ecmult_gen, ZMod.natCast_mod, cast_scalar_add, cast_scalar_mul, hac,
      cast_int_toNat E.q n hn0]
    push_cast
    ring

/-- Claim C12, as amended: for a level-weight `n >= 0`, in holder and in
verifier mode, `ch(d, r, n)` throws the overflow error exactly when the number
encoded by `r` is not below the group order.  For `r` below the group order
the result point is `g^e` with `e = d + (sk + n*w) * r` (holder) or
`e = r * pk + d` (verifier) modulo the group order: when `e` is not zero, `ch`
returns the compressed encoding of that point, which parses back to it; when
`e` is zero the point is the point at infinity and `ch` throws the
serialisation error. -/
theorem ch_failure_modes (E : Env) (hE : E.Valid) (fuel : Nat) (I : ChameleonHash) (d r : Nat)
    (n : Int) (hn0 : 0 ≤ n) (hn1 : n < 2 ^ fuel) :
    (I.ch E fuel d r n = .error .overflow ↔ E.q ≤ r) ∧
    ∃ e, e < E.q ∧
      e = (if I.hasSecretKey_ then (d + (I.sk + n.toNat * I.w) * r) % E.q
           else (r * I.pk + d) % E.q) ∧
      (r < E.q → e ≠ 0 →
        I.ch E fuel d r n = .ok (E.pubkey_encode e true) ∧
        E.pubkey_parse (E.pubkey_encode e true) = some e) ∧
      (r < E.q → e = 0 → I.ch E fuel d r n = .error .cannot_serialize) := by
  have hq := hE.pos
  have hserr : ∀ e : Nat, serializeHash E e ≠ .error .overflow := by
    intro e h
    have := serializeHash_error E e _ h
    cases this
  refine ⟨⟨?_, ?_⟩, _, ?_, rfl, ?_, ?_⟩
  · intro h
    by_contra hr
    rw [ch_exponent E hq fuel I d r n hn0 hn1 (by omega)] at h
    exact hserr _ h
  · intro hr
    cases hflag : I.hasSecretKey_ with
    | false => rw [ch_verifier E fuel I d r n hflag, if_pos hr]
    | true =>
      obtain ⟨a, ha⟩ := shiftAddLoop_terminates E.q fuel 0 (secp256k1_scalar_add E.q 0 I.w) n
        hn0 hn1
      rw [ch_holder E fuel I d r n a hflag ha, if_pos hr]
  · split
    · exact Nat.mod_lt _ hq
    · exact Nat.mod_lt _ hq
  · intro hr he
    have hlt : (if I.hasSecretKey_ then (d + (I.sk + n.toNat * I.w) * r) % E.q
        else (r * I.pk + d) % E.q) < E.q := by
      split
      · exact Nat.mod_lt _ hq
      · exact Nat.mod_lt _ hq
    refine ⟨?_, hE.parse_encode _ true (Nat.pos_of_ne_zero he) hlt⟩
    rw [ch_exponent E hq fuel I d r n hn0 hn1 hr]
    exact (serializeHash_ok E _ _).mpr ⟨he, rfl⟩
  · intro hr he
    rw [ch_exponent E hq fuel I d r n hn0 hn1 hr, he]
    simp [serializeHash, secp256k1_eckey_pubkey_serialize, secp256k1_ge_is_infinity]

set_option maxRecDepth 100000 in
/-- Claim C12 as amended, at `ch(11, 22, 5)` on the holder
`ChameleonHash(12345, 678, 5)`. -/
theorem ch_failure_modes_witness :
    (demoCh.ch demoEnv 32 11 22 5 = .error .overflow ↔ demoEnv.q ≤ 22) ∧
    ∃ e, e < demoEnv.q ∧
      e = (if demoCh.hasSecretKey_ then
            (11 + (demoCh.sk + (5 : Int).toNat * demoCh.w) * 22) % demoEnv.q
           else (22 * demoCh.pk + 11) % demoEnv.q) ∧
      (22 < demoEnv.q → e ≠ 0 →
        demoCh.ch demoEnv 32 11 22 5 = .ok (demoEnv.pubkey_encode e true) ∧
        demoEnv.pubkey_parse (demoEnv.pubkey_encode e true) = some e) ∧
      (22 < demoEnv.q → e = 0 → demoCh.ch demoEnv 32 11 22 5 = .error .cannot_serialize) :=
  ch_failure_modes demoEnv demoEnv_valid 32 demoCh 11 22 5 (by decide) (by decide)

set_option maxRecDepth 100000 in
/-- Claim C12 fails as stated: the randomness `0` is below the group order,
and `ch(0, 0, 5)` throws the serialisation error in holder mode and in
verifier mode, because the result point `g^0` is the point at infinity.  The
same happens for the digest `263261` of `"hello"` with the randomness
`-263261 / 15735`. -/
theorem ch_failure_modes_counterexample :
    0 < demoEnv.q ∧
    demoCh.ch demoEnv 32 0 0 5 = .error .cannot_serialize ∧
    demoChVerifier.ch demoEnv 32 0 0 5 = .error .cannot_serialize ∧
    infinityToken.rs 0 < demoEnv.q ∧ infinityToken.rs 0 ≠ 0 ∧
    demoCh.ch demoEnv 32 263261 (infinityToken.rs 0) 5 = .error .cannot_serialize ∧
    demoChVerifier.ch demoEnv 32 263261 (infinityToken.rs 0) 5 = .error .cannot_serialize := by
  refine ⟨by decide, by decide, by decide, by decide, by decide, by decide, by decide⟩

/-! ## Termination of the level-weight loops -/

/-- With a level-weight that the loop budget covers, `ch` does not run out of
budget. -/
theorem ch_in_budget (E : Env) (fuel : Nat) (I : ChameleonHash) (d r : Nat) (n : Int)
    (hn0 : 0 ≤ n) (hn1 : n < 2 ^ fuel) : I.ch E fuel d r n ≠ .error .out_of_fuel := by
  intro h
  cases hflag : I.hasSecretKey_ with
  | false =>
    rw [ch_verifier E fuel I d r n hflag] at h
    split at h
    · cases h
    · have := serializeHash_error E _ _ h
      cases this
  | true =>
    obtain ⟨a, ha⟩ := shiftAddLoop_terminates E.q fuel 0 (secp256k1_scalar_add E.q 0 I.w) n
      hn0 hn1
    rw [ch_holder E fuel I d r n a hflag ha] at h
    split at h
    · cases h
    · have := serializeHash_error E _ _ h
      cases this

/-- With level-weights that the loop budget covers, `collision` returns in
holder mode. -/
theorem collision_in_budget (E : Env) (fuel : Nat) (I : ChameleonHash) (d1 r1 : Nat) (n1 : Int)
    (d2 r2 : Nat) (n2 : Int) (hI : I.hasSecretKey_ = true)
    (h10 : 0 ≤ n1) (h11 : n1 < 2 ^ fuel) (h20 : 0 ≤ n2) (h21 : n2 < 2 ^ fuel) :
    (I.collision E fuel d1 r1 n1 d2 r2 n2).2 = .ok () := by
  obtain ⟨a1, ha1⟩ := shiftAddLoop_terminates E.q fuel 0 (secp256k1_scalar_add E.q 0 I.w) n1
    h10 h11
  obtain ⟨a2, ha2⟩ := shiftAddLoop_terminates E.q fuel 0 (secp256k1_scalar_add E.q 0 I.w) n2
    h20 h21
  rw [collision_holder E fuel I d1 r1 n1 d2 r2 n2 a1 a2 hI ha1 ha2]

/-- With level-weights that the loop budget covers, `extract` returns. -/
theorem extract_in_budget (E : Env) (fuel : Nat) (I : ChameleonHash) (d1 r1 : Nat) (n1 : Int)
    (d2 r2 : Nat) (n2 : Int)
    (h10 : 0 ≤ n1) (h11 : n1 < 2 ^ fuel) (h20 : 0 ≤ n2) (h21 : n2 < 2 ^ fuel) :
    (I.extract E fuel d1 r1 n1 d2 r2 n2).2 = .ok () := by
  obtain ⟨a1, ha1⟩ := shiftAddLoop_terminates E.q fuel 0 (r1 % E.q) n1 h10 h11
  obtain ⟨a2, ha2⟩ := shiftAddLoop_terminates E.q fuel 0 (r2 % E.q) n2 h20 h21
  rw [extract_eq E fuel I d1 r1 n1 d2 r2 n2 a1 a2 ha1 ha2]

/-- With a negative level-weight the holder constructor does not get past its
loop, whatever the budget. -/
theorem fromSk_negative (E : Env) (fuel sk w : Nat) (n : Int) (hsk : sk % E.q ≠ 0)
    (hn : n < 0) : ChameleonHash.fromSk E fuel sk w n = .error .out_of_fuel := by
  unfold ChameleonHash.fromSk
  simp only [secp256k1_scalar_set_b32, secp256k1_scalar_is_zero, shiftAddLoop_neg E.q fuel _ _ n hn]
  simp [hsk]

/-- With a negative level-weight `collision` does not get past its loops in
holder mode, whatever the budget. -/
theorem collision_negative (E : Env) (fuel : Nat) (I : ChameleonHash) (d1 r1 : Nat) (n1 : Int)
    (d2 r2 : Nat) (n2 : Int) (hI : I.hasSecretKey_ = true) (hn : n1 < 0 ∨ n2 < 0) :
    I.collision E fuel d1 r1 n1 d2 r2 n2 = (r2, .error .out_of_fuel) := by
  unfold ChameleonHash.collision ChameleonHash.hasSecretKey
  simp only [hI, Bool.not_true, Bool.false_eq_true, if_false]
  cases h1 : shiftAddLoop E.q fuel 0 (secp256k1_scalar_add E.q 0 I.w) n1 with
  | none => rfl
  | some a1 =>
    have h10 := (shiftAddLoop_some E.q fuel _ _ n1 a1 h1).1
    have h2 : n2 < 0 := by
      rcases hn with h | h
      · omega
      · exact h
    simp only [shiftAddLoop_neg E.q fuel _ _ n2 h2]


/-- Claim C20, as amended: for level-weights that are not negative and below
`2^fuel` (every non-negative `int` is below `2^31`), the shift-and-add loops
of the holder constructor, `ch`, `collision` and `extract` end within `fuel`
iterations, so that none of these operations runs out of budget; `extract`
returns.  For a negative level-weight `m` the loop never ends (`m >>= 1` is
the arithmetic shift, which keeps `m` negative): with every budget the holder
constructor (past its check of `sk`), holder-mode `ch` (past its check of
`r`), holder-mode `collision` and `extract` do not get past the loop. -/
theorem level_weight_loops (E : Env) (fuel : Nat) (I : ChameleonHash) (sk w d1 r1 d2 r2 : Nat)
    (n1 n2 : Int) (h10 : 0 ≤ n1) (h11 : n1 < 2 ^ fuel) (h20 : 0 ≤ n2) (h21 : n2 < 2 ^ fuel) :
    ((∀ a x, ∃ v, shiftAddLoop E.q fuel a x n1 = some v) ∧
      ChameleonHash.fromSk E fuel sk w n1 ≠ .error .out_of_fuel ∧
      I.ch E fuel d1 r1 n1 ≠ .error .out_of_fuel ∧
      (I.collision E fuel d1 r1 n1 d2 r2 n2).2 ≠ .error .out_of_fuel ∧
      (I.extract E fuel d1 r1 n1 d2 r2 n2).2 = .ok ()) ∧
    (∀ (m : Int) (f : Nat), m < 0 →
      (∀ a x, shiftAddLoop E.q f a x m = none) ∧
      (sk % E.q ≠ 0 → ChameleonHash.fromSk E f sk w m = .error .out_of_fuel) ∧
      (I.hasSecretKey_ = true → r1 < E.q → I.ch E f d1 r1 m = .error .out_of_fuel) ∧
      (I.hasSecretKey_ = true →
        I.collision E f d1 r1 m d2 r2 n2 = (r2, .error .out_of_fuel) ∧
        I.collision E f d1 r1 n1 d2 r2 m = (r2, .error .out_of_fuel)) ∧
      I.extract E f d1 r1 m d2 r2 n2 = (I, .error .out_of_fuel) ∧
      I.extract E f d1 r1 n1 d2 r2 m = (I, .error .out_of_fuel)) := by
  refine ⟨⟨fun a x => shiftAddLoop_terminates E.q fuel a x n1 h10 h11, ?_,
    ch_in_budget E fuel I d1 r1 n1 h10 h11, ?_,
    extract_in_budget E fuel I d1 r1 n1 d2 r2 n2 h10 h11 h20 h21⟩, ?_⟩
  · intro h
    by_cases hsk : sk % E.q = 0
    · rw [fromSk_zero E fuel sk w n1 hsk] at h
      cases h
    · obtain ⟨H, hH⟩ := fromSk_terminates E fuel sk w n1 hsk h10 h11
      rw [hH] at h
      cases h
  · intro h
    cases hflag : I.hasSecretKey_ with
    | false =>
      rw [collision_verifier E fuel I d1 r1 n1 d2 r2 n2 hflag] at h
      cases h
    | true =>
      rw [collision_in_budget E fuel I d1 r1 n1 d2 r2 n2 hflag h10 h11 h20 h21] at h
      cases h
  · intro m f hm
    refine ⟨fun a x => shiftAddLoop_neg E.q f a x m hm,
      fun hsk => fromSk_negative E f sk w m hsk hm, ?_, ?_,
      extract_out_of_fuel E f I d1 r1 m d2 r2 n2 (Or.inl (shiftAddLoop_neg E.q f _ _ m hm)),
      extract_out_of_fuel E f I d1 r1 n1 d2 r2 m (Or.inr (shiftAddLoop_neg E.q f _ _ m hm))⟩
    · intro hI hr
      rw [ch_holder_out_of_fuel E f I d1 r1 m hI (shiftAddLoop_neg E.q f _ _ m hm),
        if_neg (by omega)]
    · intro hI
      exact ⟨collision_negative E f I d1 r1 m d2 r2 n2 hI (Or.inl hm),
        collision_negative E f I d1 r1 n1 d2 r2 m hI (Or.inr hm)⟩

set_option maxRecDepth 100000 in
/-- Claim C20 as amended, at the level-weights `5` and `7` with the budget of
`31` iterations of a 32-bit `int`. -/
theorem level_weight_loops_witness :
    ((∀ a x, ∃ v, shiftAddLoop demoEnv.q 31 a x 5 = some v) ∧
      ChameleonHash.fromSk demoEnv 31 12345 678 5 ≠ .error .out_of_fuel ∧
      demoCh.ch demoEnv 31 11 22 5 ≠ .error .out_of_fuel ∧
      (demoCh.collision demoEnv 31 11 22 5 33 0 7).2 ≠ .error .out_of_fuel ∧
      (demoCh.extract demoEnv 31 11 22 5 33 0 7).2 = .ok ()) ∧
    (∀ (m : Int) (f : Nat), m < 0 →
      (∀ a x, shiftAddLoop demoEnv.q f a x m = none) ∧
      (12345 % demoEnv.q ≠ 0 →
        ChameleonHash.fromSk demoEnv f 12345 678 m = .error .out_of_fuel) ∧
      (demoCh.hasSecretKey_ = true → 22 < demoEnv.q →
        demoCh.ch demoEnv f 11 22 m = .error .out_of_fuel) ∧
      (demoCh.hasSecretKey_ = true →
        demoCh.collision demoEnv f 11 22 m 33 0 7 = (0, .error .out_of_fuel) ∧
        demoCh.collision demoEnv f 11 22 5 33 0 m = (0, .error .out_of_fuel)) ∧
      demoCh.extract demoEnv f 11 22 m 33 0 7 = (demoCh, .error .out_of_fuel) ∧
      demoCh.extract demoEnv f 11 22 5 33 0 m = (demoCh, .error .out_of_fuel)) :=
  level_weight_loops demoEnv 31 demoCh 12345 678 11 22 33 0 5 7
    (by decide) (by decide) (by decide) (by decide)

set_option maxRecDepth 100000 in
/-- Claim C20 fails as stated: for the level-weight `-1` the shift gives `-1`
again, the loop is not left within a hundred iterations, and with no budget
at all does the holder constructor, `ch`, `collision` or `extract` get past
its loop. -/
theorem level_weight_loops_counterexample :
    ((-1 : Int) >>> (1 : Nat)) = -1 ∧
    shiftAddLoop demoEnv.q 100 0 678 (-1) = none ∧
    (∀ fuel, ChameleonHash.fromSk demoEnv fuel 12345 678 (-1) = .error .out_of_fuel) ∧
    (∀ fuel, demoCh.ch demoEnv fuel 11 22 (-1) = .error .out_of_fuel) ∧
    (∀ fuel, demoCh.collision demoEnv fuel 11 22 5 33 0 (-1) = (0, .error .out_of_fuel)) ∧
    (∀ fuel, demoChVerifier.extract demoEnv fuel 11 22 5 33 44 (-1)
      = (demoChVerifier, .error .out_of_fuel)) := by
  refine ⟨by decide, by decide, ?_, ?_, ?_, ?_⟩
  · intro fuel
    exact fromSk_negative demoEnv fuel 12345 678 (-1) (by decide) (by decide)
  · intro fuel
    rw [ch_holder_out_of_fuel demoEnv fuel demoCh 11 22 (-1) rfl
      (shiftAddLoop_neg demoEnv.q fuel _ _ (-1) (by decide))]
    decide
  · intro fuel
    exact collision_negative demoEnv fuel demoCh 11 22 5 33 0 (-1) rfl (Or.inr (by decide))
  · intro fuel
    exact extract_out_of_fuel demoEnv fuel demoChVerifier 11 22 5 33 44 (-1)
      (Or.inr (shiftAddLoop_neg demoEnv.q fuel _ _ (-1) (by decide)))

/-! ## The message digest -/

/-- The iterate of a message is the iterate, one step shorter, of the bytes
of its hash. -/
theorem iteratedHash_shift (E : Env) (m : List Nat) : ∀ k : Nat, 1 ≤ k →
    iteratedHash E (k + 1) m = iteratedHash E k (bytes32 (E.sha256 m)) := by
  intro k
  induction k with
  | zero => intro h; omega
  | succ j ih =>
    intro _
    cases j with
    | zero => rfl
    | succ i =>
      have h := ih (by omega)
      show E.sha256 (bytes32 (iteratedHash E (i + 1 + 1) m))
        = E.sha256 (bytes32 (iteratedHash E (i + 1) (bytes32 (E.sha256 m))))
      rw [h]

/-- What the loop of `digest` returns: the first iterate of the hash that is
below the group order, when there is one within the budget. -/
theorem digestLoop_iff (E : Env) : ∀ (fuel : Nat) (m : List Nat) (d : Nat),
    ChameleonHash.digestLoop E fuel m = .ok d ↔
      ∃ k, 1 ≤ k ∧ k ≤ fuel ∧ d = iteratedHash E k m ∧ iteratedHash E k m < E.q ∧
        ∀ j, 1 ≤ j → j < k → E.q ≤ iteratedHash E j m := by
  intro fuel
  induction fuel with
  | zero =>
    intro m d
    constructor
    · intro h
      simp [ChameleonHash.digestLoop] at h
    · rintro ⟨k, h1, h0, _⟩
      omega
  | succ f ih =>
    intro m d
    unfold ChameleonHash.digestLoop
    simp only [secp256k1_scalar_set_b32, decide_eq_true_eq]
    by_cases hov : E.q ≤ E.sha256 m
    · rw [if_pos hov, ih]
      constructor
      · rintro ⟨k, hk1, hkf, hd, hlt, hleast⟩
        refine ⟨k + 1, by omega, by omega, ?_, ?_, ?_⟩
        · rw [iteratedHash_shift E m k hk1]; exact hd
        · rw [iteratedHash_shift E m k hk1]; exact hlt
        · intro j hj1 hjk
          by_cases hj : j = 1
          · subst hj; exact hov
          · have hj2 : j = (j - 1) + 1 := by omega
            rw [hj2, iteratedHash_shift E m (j - 1) (by omega)]
            exact hleast (j - 1) (by omega) (by omega)
      · rintro ⟨k, hk1, hkf, hd, hlt, hleast⟩
        have hk2 : k ≠ 1 := by
          intro h1
          subst h1
          have : iteratedHash E 1 m = E.sha256 m := rfl
          omega
        have hk : k = (k - 1) + 1 := by omega
        refine ⟨k - 1, by omega, by omega, ?_, ?_, ?_⟩
        · rw [← iteratedHash_shift E m (k - 1) (by omega), ← hk]; exact hd
        · rw [← iteratedHash_shift E m (k - 1) (by omega), ← hk]; exact hlt
        · intro j hj1 hjk
          rw [← iteratedHash_shift E m j hj1]
          exact hleast (j + 1) (by omega) (by omega)
    · rw [if_neg hov]
      constructor
      · intro h
        simp only [Except.ok.injEq] at h
        subst h
        exact ⟨1, le_refl 1, by omega, rfl, by
          show E.sha256 m < E.q
          omega, fun j h1 h2 => by omega⟩
      · rintro ⟨k, hk1, hkf, hd, hlt, hleast⟩
        by_cases hk : k = 1
        · subst hk
          rw [hd]
          rfl
        · have := hleast 1 (le_refl 1) (by omega)
          exact absurd this hov

/-- Claim C19: when `digest(m)` returns, the result is the iterate `H^k(m)`
of the hash for the least `k >= 1` whose iterate is below the group order, so
it does not overflow the scalar field; the result depends on `m` alone, not
on the loop budget; and `digest(m)` does return, within `k` rounds, whenever
such a `k` exists. -/
theorem digest_least_iterate (E : Env) (m : List Nat) :
    (∀ (fuel d : Nat), ChameleonHash.digest E fuel m = .ok d →
      d < E.q ∧ (secp256k1_scalar_set_b32 E.q d).2 = false ∧
      ∃ k, 1 ≤ k ∧ k ≤ fuel ∧ d = iteratedHash E k m ∧
        ∀ j, 1 ≤ j → j < k → E.q ≤ iteratedHash E j m) ∧
    (∀ (k fuel : Nat), 1 ≤ k → iteratedHash E k m < E.q →
      (∀ j, 1 ≤ j → j < k → E.q ≤ iteratedHash E j m) → k ≤ fuel →
      ChameleonHash.digest E fuel m = .ok (iteratedHash E k m)) ∧
    (∀ (fuel1 fuel2 d1 d2 : Nat), ChameleonHash.digest E fuel1 m = .ok d1 →
      ChameleonHash.digest E fuel2 m = .ok d2 → d1 = d2) := by
  refine ⟨?_, ?_, ?_⟩
  · intro fuel d h
    obtain ⟨k, hk1, hkf, hd, hlt, hleast⟩ := (digestLoop_iff E fuel m d).mp h
    refine ⟨by omega, ?_, k, hk1, hkf, hd, hleast⟩
    simp only [secp256k1_scalar_set_b32, decide_eq_false_iff_not]
    omega
  · intro k fuel hk1 hlt hleast hkf
    exact (digestLoop_iff E fuel m _).mpr ⟨k, hk1, hkf, rfl, hlt, hleast⟩
  · intro fuel1 fuel2 d1 d2 h1 h2
    obtain ⟨k1, hk1, _, hd1, hlt1, hleast1⟩ := (digestLoop_iff E fuel1 m d1).mp h1
    obtain ⟨k2, hk2, _, hd2, hlt2, hleast2⟩ := (digestLoop_iff E fuel2 m d2).mp h2
    have hk : k1 = k2 := by
      rcases Nat.lt_trichotomy k1 k2 with h | h | h
      · have := hleast2 k1 hk1 h
        omega
      · exact h
      · have := hleast1 k2 hk2 h
        omega
    rw [hd1, hd2, hk]

set_option maxRecDepth 100000 in
/-- Claim C19 evaluated: over the group order of secp256k1 the digest of
`"hello"` is its first iterate; over the group order `1000003` the first
iterate `1003837` of `"naa"` overflows and the digest is the second iterate
`672398`, with a budget of two rounds and with any larger one. -/
theorem digest_least_iterate_witness :
    ChameleonHash.digest demoEnv 32 stHello = .ok 263261 ∧
    iteratedHash demoEnv 1 stHello = 263261 ∧
    iteratedHash demoEnvSmall 1 mesgNaa = 1003837 ∧
    iteratedHash demoEnvSmall 2 mesgNaa = 672398 ∧
    ChameleonHash.digest demoEnvSmall 1 mesgNaa = .error .out_of_fuel ∧
    ChameleonHash.digest demoEnvSmall 2 mesgNaa = .ok 672398 ∧
    (∀ fuel, 2 ≤ fuel → ChameleonHash.digest demoEnvSmall fuel mesgNaa = .ok 672398) := by
  refine ⟨by decide, by decide, by decide, by decide, by decide, by decide, ?_⟩
  intro fuel hf
  have h2 : iteratedHash demoEnvSmall 2 mesgNaa = 672398 := by decide
  have := (digest_least_iterate demoEnvSmall mesgNaa).2.1 2 fuel (by decide)
    (by rw [h2]; decide)
    (fun j h1 hj => by
      have hj1 : j = 1 := by omega
      subst hj1
      decide) hf
  rw [h2] at this
  exact this

/-! ## The stored secret key -/

/-- The two outcomes of `ChameleonHash::extract`: the budget runs out and the
instance is as before, or the call returns with the instance in holder mode,
`pk` and `w` as before, and both loops left. -/
theorem extract_cases (E : Env) (fuel : Nat) (I : ChameleonHash) (d1 r1 : Nat) (n1 : Int)
    (d2 r2 : Nat) (n2 : Int) :
    I.extract E fuel d1 r1 n1 d2 r2 n2 = (I, .error .out_of_fuel) ∨
    ((I.extract E fuel d1 r1 n1 d2 r2 n2).2 = .ok () ∧
      (I.extract E fuel d1 r1 n1 d2 r2 n2).1.hasSecretKey_ = true ∧
      (I.extract E fuel d1 r1 n1 d2 r2 n2).1.pk = I.pk ∧
      (I.extract E fuel d1 r1 n1 d2 r2 n2).1.w = I.w ∧
      (∃ a1, shiftAddLoop E.q fuel 0 (r1 % E.q) n1 = some a1) ∧
      (∃ a2, shiftAddLoop E.q fuel 0 (r2 % E.q) n2 = some a2)) := by
  cases h1 : shiftAddLoop E.q fuel 0 (r1 % E.q) n1 with
  | none => exact Or.inl (extract_out_of_fuel E fuel I d1 r1 n1 d2 r2 n2 (Or.inl h1))
  | some a1 =>
    cases h2 : shiftAddLoop E.q fuel 0 (r2 % E.q) n2 with
    | none => exact Or.inl (extract_out_of_fuel E fuel I d1 r1 n1 d2 r2 n2 (Or.inr h2))
    | some a2 =>
      right
      rw [extract_eq E fuel I d1 r1 n1 d2 r2 n2 a1 a2 h1 h2]
      exact ⟨rfl, rfl, rfl, rfl, ⟨a1, rfl⟩, ⟨a2, rfl⟩⟩

/-- An instance is not changed by putting its own members back. -/
theorem Authenticator.with_self (S : Authenticator) :
    ({ S with ch := S.ch } : Authenticator) = S := by
  cases S
  rfl

/-- Setting the flag of an instance in holder mode changes nothing. -/
theorem Authenticator.with_flag (S : Authenticator) (h : S.hasSecretKey_ = true) :
    ({ S with ch := S.ch, hasSecretKey_ := true } : Authenticator) = S := by
  cases S
  simp_all

/-- On an instance whose chameleon hash holds a secret key, with
level-weights whose loops end, the loop of `Authenticator::extract` runs
through all levels and returns. -/
theorem extractLoop_holder_ok (E : Env) (fuel : Nat) (t1 t2 : token_t) (log1 log2 : log_t)
    (n1 n2 : Int)
    (hn1 : ∀ x, ∃ a, shiftAddLoop E.q fuel 0 x n1 = some a)
    (hn2 : ∀ x, ∃ a, shiftAddLoop E.q fuel 0 x n2 = some a) :
    ∀ (k i : Nat) (S : Authenticator), S.ch.hasSecretKey_ = true →
      (Authenticator.extractLoop E fuel t1 t2 log1 log2 n1 n2 k i S).2 = .ok () := by
  intro k
  induction k with
  | zero => intro i S _; rfl
  | succ k ih =>
    intro i S hK
    unfold Authenticator.extractLoop
    by_cases hcol : ((log1.xs.getD i 0 != log2.xs.getD i 0 || t1.rs i != t2.rs i)
        && log1.chs.getD i [] == log2.chs.getD i []) = true
    · simp only [hcol, if_true]
      obtain ⟨a1, h1⟩ := hn1 (t1.rs i % E.q)
      obtain ⟨a2, h2⟩ := hn2 (t2.rs i % E.q)
      rw [extract_eq E fuel S.ch _ _ n1 _ _ n2 a1 a2 h1 h2]
      simp only [ChameleonHash.hasSecretKey, Bool.not_true, Bool.false_eq_true, if_false]
      exact ih _ _ rfl
    · simp only [hcol, Bool.false_eq_true, if_false, ChameleonHash.hasSecretKey, hK,
        Bool.not_true]
      exact ih _ _ hK

/-- A call that leaves the instance as it is. -/
theorem Authenticator.Transition.same (S : Authenticator) (out : Except Error Unit)
    (hS : S.ch.hasSecretKey_ = S.hasSecretKey_) : S.Transition (S, out) :=
  ⟨hS, rfl, rfl, rfl, rfl, rfl, fun h => h, fun h => absurd rfl h⟩

/-- What the loop of `Authenticator::extract` does to an instance whose two
flags agree. -/
theorem extractLoop_inv (E : Env) (fuel : Nat) (t1 t2 : token_t) (log1 log2 : log_t)
    (n1 n2 : Int) :
    ∀ (k i : Nat) (S : Authenticator), S.ch.hasSecretKey_ = S.hasSecretKey_ →
      S.Transition (Authenticator.extractLoop E fuel t1 t2 log1 log2 n1 n2 k i S) := by
  intro k
  induction k with
  | zero =>
    intro i S hS
    exact Authenticator.Transition.same S _ hS
  | succ k ih =>
    intro i S hS
    unfold Authenticator.extractLoop
    by_cases hcol : ((log1.xs.getD i 0 != log2.xs.getD i 0 || t1.rs i != t2.rs i)
        && log1.chs.getD i [] == log2.chs.getD i []) = true
    · simp only [hcol, if_true]
      rcases extract_cases E fuel S.ch (log1.xs.getD i 0) (t1.rs i) n1 (log2.xs.getD i 0)
        (t2.rs i) n2 with hx | ⟨hok, hflag, hpk, hw, ⟨a1, h1⟩, ⟨a2, h2⟩⟩
      · rw [hx]
        simp only [Authenticator.with_self]
        exact Authenticator.Transition.same S _ hS
      · have hpair : S.ch.extract E fuel (log1.xs.getD i 0) (t1.rs i) n1 (log2.xs.getD i 0)
            (t2.rs i) n2
            = ((S.ch.extract E fuel (log1.xs.getD i 0) (t1.rs i) n1 (log2.xs.getD i 0)
                (t2.rs i) n2).1, .ok ()) := Prod.ext rfl hok
        rw [hpair]
        simp only [ChameleonHash.hasSecretKey, hflag, Bool.not_true, Bool.false_eq_true,
          if_false]
        obtain ⟨i1, i2, i3, i4, i5, i6, i7, _⟩ := ih (i + 1)
          { S with
            ch := (S.ch.extract E fuel (log1.xs.getD i 0) (t1.rs i) n1 (log2.xs.getD i 0)
              (t2.rs i) n2).1,
            hasSecretKey_ := true } hflag
        refine ⟨i1, i2, i3, i4, i5.trans hpk, i6.trans hw, fun _ => i7 rfl, fun _ => ?_⟩
        exact extractLoop_holder_ok E fuel t1 t2 log1 log2 n1 n2
          (fun x => shiftAddLoop_transfer E.q fuel 0 _ 0 x n1 a1 h1)
          (fun x => shiftAddLoop_transfer E.q fuel 0 _ 0 x n2 a2 h2) k (i + 1) _ hflag
    · simp only [hcol, Bool.false_eq_true, if_false, ChameleonHash.hasSecretKey]
      by_cases hK : S.ch.hasSecretKey_ = true
      · rw [if_neg (by simp [hK]), Authenticator.with_flag S (by rw [← hS, hK])]
        exact ih (i + 1) S hS
      · rw [if_pos (by simpa using hK), Authenticator.with_self]
        exact Authenticator.Transition.same S _ hS

/-- What `Authenticator::extract` does to an instance whose two flags agree. -/
theorem extract_inv (E : Env) (fuel : Nat) (A : Authenticator) (t1 t2 : token_t)
    (ct st1 st2 : List Nat) (n1 n2 : Int) (hA : A.ch.hasSecretKey_ = A.hasSecretKey_) :
    A.Transition (A.extract E fuel t1 t2 ct st1 st2 n1 n2) := by
  unfold Authenticator.extract
  cases h1 : Authenticator.verifyWithLog E fuel A t1 ct st1 true { chs := [], xs := [] } n1 with
  | error e => exact Authenticator.Transition.same A _ hA
  | ok p1 =>
    obtain ⟨ok1, log1⟩ := p1
    cases ok1 with
    | false => exact Authenticator.Transition.same A _ hA
    | true =>
      simp only [Bool.not_true, Bool.false_eq_true, if_false]
      cases h2 : Authenticator.verifyWithLog E fuel A t2 ct st2 true { chs := [], xs := [] } n2
        with
      | error e => exact Authenticator.Transition.same A _ hA
      | ok p2 =>
        obtain ⟨ok2, log2⟩ := p2
        cases ok2 with
        | false => exact Authenticator.Transition.same A _ hA
        | true =>
          simp only [Bool.not_true, Bool.false_eq_true, if_false]
          exact extractLoop_inv E fuel t1 t2 log1 log2 n1 n2 E.DEPTH 0 A hA

/-- A call other than `extract` leaves the instance as it is. -/
theorem call_not_extract (E : Env) (fuel : Nat) (A : Authenticator) (c : Call)
    (hc : c.isExtract = false) : (A.call E fuel c).1 = A := by
  cases c with
  | extract t1 t2 ct st1 st2 n1 n2 => cases hc
  | authenticate t ct st n => rfl
  | verify t ct st n => rfl
  | getDpk => rfl
  | getDsk => rfl

/-- What a method call does to an instance whose two flags agree. -/
theorem call_inv (E : Env) (fuel : Nat) (A : Authenticator) (c : Call)
    (hA : A.ch.hasSecretKey_ = A.hasSecretKey_) : A.Transition (A.call E fuel c) := by
  cases c with
  | extract t1 t2 ct st1 st2 n1 n2 => exact extract_inv E fuel A t1 t2 ct st1 st2 n1 n2 hA
  | authenticate t ct st n => exact Authenticator.Transition.same A _ hA
  | verify t ct st n => exact Authenticator.Transition.same A _ hA
  | getDpk => exact Authenticator.Transition.same A _ hA
  | getDsk => exact Authenticator.Transition.same A _ hA

/-- After every sequence of calls on an instance whose two flags agree, the
flags agree, `rootDigest`, `dsk`, `_n`, `pk` and `w` are as at the start, and
a flag that was set is set. -/
theorem run_inv (E : Env) (fuel : Nat) : ∀ (cs : List Call) (A : Authenticator),
    A.ch.hasSecretKey_ = A.hasSecretKey_ →
    (A.run E fuel cs).ch.hasSecretKey_ = (A.run E fuel cs).hasSecretKey_ ∧
    (A.run E fuel cs).rootDigest = A.rootDigest ∧ (A.run E fuel cs).dsk = A.dsk ∧
    (A.run E fuel cs)._n = A._n ∧ (A.run E fuel cs).ch.pk = A.ch.pk ∧
    (A.run E fuel cs).ch.w = A.ch.w ∧
    (A.hasSecretKey_ = true → (A.run E fuel cs).hasSecretKey_ = true) := by
  intro cs
  induction cs with
  | nil =>
    intro A hA
    exact ⟨hA, rfl, rfl, rfl, rfl, rfl, fun h => h⟩
  | cons c cs ih =>
    intro A hA
    obtain ⟨c1, c2, c3, c4, c5, c6, c7, _⟩ := call_inv E fuel A c hA
    obtain ⟨r1, r2, r3, r4, r5, r6, r7⟩ := ih (A.call E fuel c).1 c1
    exact ⟨r1, r2.trans c2, r3.trans c3, r4.trans c4, r5.trans c5, r6.trans c6,
      fun h => r7 (c7 h)⟩

/-- The two flags of a constructed instance agree. -/
theorem constructed_flags (E : Env) (fuel : Nat) (A0 : Authenticator)
    (h0 : (∃ dsk dw n, Authenticator.fromDsk E fuel dsk dw n = .ok A0) ∨
      (∃ dpk dw, Authenticator.fromDpk E dpk dw = .ok A0)) :
    A0.ch.hasSecretKey_ = A0.hasSecretKey_ := by
  rcases h0 with ⟨dsk, dw, n, h⟩ | ⟨dpk, dw, h⟩
  · exact fromDsk_flags E fuel dsk dw n A0 h
  · exact fromDpk_flags E dpk dw A0 h


/-- Claim C13: after any sequence of calls of `authenticate`, `verify`,
`extract`, `getDpk` and `getDsk` on a constructed `Authenticator`, and after
one more call `c`: the flag of the instance equals the flag of its chameleon
hash, before and after the call; the flag is changed by the call only from
verify-only to holder, only when the call is a call of `extract`, and only
when that call returns without an exception; and a call of one of the other
four methods leaves the whole instance as it is. -/
theorem mode_state_machine (E : Env) (fuel : Nat) (A0 : Authenticator) (cs : List Call)
    (c : Call)
    (h0 : (∃ dsk dw n, Authenticator.fromDsk E fuel dsk dw n = .ok A0) ∨
      (∃ dpk dw, Authenticator.fromDpk E dpk dw = .ok A0)) :
    (A0.run E fuel cs).ch.hasSecretKey_ = (A0.run E fuel cs).hasSecretKey_ ∧
    ((A0.run E fuel cs).call E fuel c).1.ch.hasSecretKey_
      = ((A0.run E fuel cs).call E fuel c).1.hasSecretKey_ ∧
    (((A0.run E fuel cs).call E fuel c).1.hasSecretKey_ ≠ (A0.run E fuel cs).hasSecretKey_ →
      (A0.run E fuel cs).hasSecretKey_ = false ∧
      ((A0.run E fuel cs).call E fuel c).1.hasSecretKey_ = true ∧
      c.isExtract = true ∧
      ((A0.run E fuel cs).call E fuel c).2 = .ok ()) ∧
    (c.isExtract = false → ((A0.run E fuel cs).call E fuel c).1 = A0.run E fuel cs) := by
  have hA0 := constructed_flags E fuel A0 h0
  obtain ⟨hA, _⟩ := run_inv E fuel cs A0 hA0
  obtain ⟨c1, _, _, _, _, _, c7, c8⟩ := call_inv E fuel (A0.run E fuel cs) c hA
  refine ⟨hA, c1, ?_, call_not_extract E fuel _ c⟩
  intro hne
  have hbefore : (A0.run E fuel cs).hasSecretKey_ = false := by
    cases hb : (A0.run E fuel cs).hasSecretKey_ with
    | false => rfl
    | true => exact absurd ((c7 hb).trans hb.symm) hne
  have hafter : ((A0.run E fuel cs).call E fuel c).1.hasSecretKey_ = true := by
    cases ha : ((A0.run E fuel cs).call E fuel c).1.hasSecretKey_ with
    | true => rfl
    | false => exact absurd (ha.trans hbefore.symm) hne
  refine ⟨hbefore, hafter, ?_, c8 hne⟩
  cases hx : c.isExtract with
  | true => rfl
  | false =>
    rw [call_not_extract E fuel _ c hx] at hne
    exact absurd rfl hne

set_option maxRecDepth 100000 in
/-- Claim C13 on the verify-only instance built from the public key of
`Authenticator(12345, 678, 5)`: after a call of `verify` and a call of
`getDpk` the instance is verify-only, and the call of `extract` with the
tokens of the states `"hello"` and `"world"` returns and leaves it in holder
mode. -/
theorem mode_state_machine_witness :
    ((demoVerifier.run demoEnv 32 demoCalls).ch.hasSecretKey_
      = (demoVerifier.run demoEnv 32 demoCalls).hasSecretKey_ ∧
    ((demoVerifier.run demoEnv 32 demoCalls).call demoEnv 32 demoExtractCall).1.ch.hasSecretKey_
      = ((demoVerifier.run demoEnv 32 demoCalls).call demoEnv 32 demoExtractCall).1.hasSecretKey_ ∧
    (((demoVerifier.run demoEnv 32 demoCalls).call demoEnv 32 demoExtractCall).1.hasSecretKey_
        ≠ (demoVerifier.run demoEnv 32 demoCalls).hasSecretKey_ →
      (demoVerifier.run demoEnv 32 demoCalls).hasSecretKey_ = false ∧
      ((demoVerifier.run demoEnv 32 demoCalls).call demoEnv 32 demoExtractCall).1.hasSecretKey_
        = true ∧
      demoExtractCall.isExtract = true ∧
      ((demoVerifier.run demoEnv 32 demoCalls).call demoEnv 32 demoExtractCall).2 = .ok ()) ∧
    (demoExtractCall.isExtract = false →
      ((demoVerifier.run demoEnv 32 demoCalls).call demoEnv 32 demoExtractCall).1
        = demoVerifier.run demoEnv 32 demoCalls)) ∧
    (demoVerifier.run demoEnv 32 demoCalls).hasSecretKey_ = false ∧
    ((demoVerifier.run demoEnv 32 demoCalls).call demoEnv 32 demoExtractCall).1.hasSecretKey_
      = true :=
  ⟨mode_state_machine demoEnv 32 demoVerifier demoCalls demoExtractCall
      (Or.inr ⟨demoDpk, 678, by decide⟩),
    by decide, by decide⟩

/-! ## The root digest -/

/-- The outcome of `getDpk` is determined by the public key point and the
root digest. -/
theorem getDpk_congr (E : Env) (A B : Authenticator) (hpk : B.ch.pk = A.ch.pk)
    (hroot : B.rootDigest = A.rootDigest) : B.getDpk E = A.getDpk E := by
  unfold Authenticator.getDpk ChameleonHash.getPk
  rw [hpk, hroot]

/-- Claim C14: the root digest of a holder `Authenticator(dsk, dw, n0)` is
the digest of the chameleon hashes, with level-weight `n0`, of the PRF pairs
of the left and the right child of the root; the root digest of a verify-only
instance is the one of the `dpk` it was built from; and after any sequence of
calls of `authenticate`, `verify`, `extract`, `getDpk` and `getDsk`, and
after one more call, whether it returns or throws, `rootDigest` is the value
of the construction, `getDpk` has the outcome it had after construction, and
when it returns (it does unless the public key is the point at infinity) its
`rootDigest` is that value. -/
theorem root_digest_fixed (E : Env) (fuel : Nat) (A0 : Authenticator) (cs : List Call)
    (c : Call)
    (h0 : (∃ dsk dw n, Authenticator.fromDsk E fuel dsk dw n = .ok A0) ∨
      (∃ dpk dw, Authenticator.fromDpk E dpk dw = .ok A0)) :
    (∀ dsk dw n0, Authenticator.fromDsk E fuel dsk dw n0 = .ok A0 →
      ∃ left right,
        A0.ch.ch E fuel (E.prf_getX dsk Node.leftChildOfRoot)
          (E.prf_getR dsk Node.leftChildOfRoot) n0 = .ok left ∧
        A0.ch.ch E fuel (E.prf_getX dsk Node.leftChildOfRoot.moveToSibling)
          (E.prf_getR dsk Node.leftChildOfRoot.moveToSibling) n0 = .ok right ∧
        A0.rootDigest = ChameleonHash.digest2 E left right) ∧
    (∀ dpk dw, Authenticator.fromDpk E dpk dw = .ok A0 → A0.rootDigest = dpk.rootDigest) ∧
    (A0.run E fuel cs).rootDigest = A0.rootDigest ∧
    ((A0.run E fuel cs).call E fuel c).1.rootDigest = A0.rootDigest ∧
    (A0.run E fuel cs).getDpk E = A0.getDpk E ∧
    (∀ dpk, (A0.run E fuel cs).getDpk E = .ok dpk → dpk.rootDigest = A0.rootDigest) ∧
    (A0.ch.pk ≠ 0 →
      ∃ dpk, (A0.run E fuel cs).getDpk E = .ok dpk ∧ dpk.rootDigest = A0.rootDigest) := by
  have hA0 := constructed_flags E fuel A0 h0
  obtain ⟨hA, hroot, _, _, hpk, _, _⟩ := run_inv E fuel cs A0 hA0
  obtain ⟨_, croot, _⟩ := call_inv E fuel (A0.run E fuel cs) c hA
  have hget := getDpk_congr E A0 (A0.run E fuel cs) hpk hroot
  refine ⟨?_, ?_, hroot, croot.trans hroot, hget, ?_, ?_⟩
  · intro dsk dw n0 h
    obtain ⟨left, right, _, hdsk, hn, _, hl, hr, hrd⟩ := fromDsk_ok E fuel dsk dw n0 A0 h
    refine ⟨left, right, ?_, ?_, hrd⟩
    · rw [← hdsk, ← hn]; exact hl
    · rw [← hdsk, ← hn]; exact hr
  · intro dpk dw h
    exact (fromDpk_ok E dpk dw A0 h).2.1
  · intro dpk h
    rw [hget] at h
    exact (getDpk_ok E A0 dpk h).2
  · intro hpk0
    refine ⟨{ chpk := E.pubkey_encode A0.ch.pk true, rootDigest := A0.rootDigest }, ?_, rfl⟩
    rw [hget]
    unfold Authenticator.getDpk
    rw [(getPk_ok E A0.ch true _).mpr ⟨hpk0, rfl⟩]

set_option maxRecDepth 100000 in
/-- Claim C14 on the holder `Authenticator(12345, 678, 5)`, after a call of
`verify`, a call of `getDpk`, and a call of `extract`: `getDpk` returns the
root digest `272835` of the construction. -/
theorem root_digest_fixed_witness :
    ((∀ dsk dw n0, Authenticator.fromDsk demoEnv 32 dsk dw n0 = .ok demoHolder →
      ∃ left right,
        demoHolder.ch.ch demoEnv 32 (demoEnv.prf_getX dsk Node.leftChildOfRoot)
          (demoEnv.prf_getR dsk Node.leftChildOfRoot) n0 = .ok left ∧
        demoHolder.ch.ch demoEnv 32 (demoEnv.prf_getX dsk Node.leftChildOfRoot.moveToSibling)
          (demoEnv.prf_getR dsk Node.leftChildOfRoot.moveToSibling) n0 = .ok right ∧
        demoHolder.rootDigest = ChameleonHash.digest2 demoEnv left right) ∧
    (∀ dpk dw, Authenticator.fromDpk demoEnv dpk dw = .ok demoHolder →
      demoHolder.rootDigest = dpk.rootDigest) ∧
    (demoHolder.run demoEnv 32 demoCalls).rootDigest = demoHolder.rootDigest ∧
    ((demoHolder.run demoEnv 32 demoCalls).call demoEnv 32 demoExtractCall).1.rootDigest
      = demoHolder.rootDigest ∧
    (demoHolder.run demoEnv 32 demoCalls).getDpk demoEnv = demoHolder.getDpk demoEnv ∧
    (∀ dpk, (demoHolder.run demoEnv 32 demoCalls).getDpk demoEnv = .ok dpk →
      dpk.rootDigest = demoHolder.rootDigest) ∧
    (demoHolder.ch.pk ≠ 0 →
      ∃ dpk, (demoHolder.run demoEnv 32 demoCalls).getDpk demoEnv = .ok dpk ∧
        dpk.rootDigest = demoHolder.rootDigest)) ∧
    Authenticator.fromDsk demoEnv 32 12345 678 5 = .ok demoHolder ∧
    demoHolder.rootDigest = 272835 ∧
    ((demoHolder.run demoEnv 32 demoCalls).call demoEnv 32 demoExtractCall).1.getDpk demoEnv
      = .ok demoDpk ∧
    demoDpk.rootDigest = 272835 :=
  ⟨root_digest_fixed demoEnv 32 demoHolder demoCalls demoExtractCall
      (Or.inl ⟨12345, 678, 5, by decide⟩),
    by decide, by decide, by decide, by decide⟩

/-! ## The levels that `Authenticator::extract` looks at -/

/-- On a verify-only chameleon hash, `ch` depends neither on the loop budget
nor on the level-weight. -/
theorem ch_verifier_indep (E : Env) (f1 f2 : Nat) (V : ChameleonHash) (m r : Nat) (n1 n2 : Int)
    (hV : V.hasSecretKey_ = false) : V.ch E f1 m r n1 = V.ch E f2 m r n2 := by
  rw [ch_verifier E f1 V m r n1 hV, ch_verifier E f2 V m r n2 hV]

/-- On a verify-only instance, the loop of `verifyWithLog` depends neither on
the loop budget nor on the level-weight. -/
theorem verifyLoop_verifier_indep (E : Env) (f1 f2 : Nat) (V : Authenticator) (t : token_t)
    (logging : Bool) (n1 n2 : Int) (hV : V.ch.hasSecretKey_ = false) :
    ∀ (node : Node) (x : Nat) (first : Bool) (pos : Nat) (log : log_t),
      Authenticator.verifyLoop E f1 V t logging n1 node x first pos log
        = Authenticator.verifyLoop E f2 V t logging n2 node x first pos log := by
  intro node
  induction node with
  | nil => intro x first pos log; rfl
  | cons b up ih =>
    intro x first pos log
    unfold Authenticator.verifyLoop
    rw [ch_verifier_indep E f1 f2 V.ch x (t.rs pos) n1 n2 hV]
    cases V.ch.ch E f2 x (t.rs pos) n2 with
    | error e => rfl
    | ok c => exact ih _ _ _ _

/-- On a verify-only instance, `verifyWithLog` depends on the loop budget only
through the digest of the state, and not on the level-weight. -/
theorem verifyWithLog_verifier_indep (E : Env) (f1 f2 : Nat) (V : Authenticator) (t : token_t)
    (ct st : List Nat) (logging : Bool) (log : log_t) (n1 n2 : Int)
    (hV : V.ch.hasSecretKey_ = false)
    (hd : ChameleonHash.digest E f1 st = ChameleonHash.digest E f2 st) :
    V.verifyWithLog E f1 t ct st logging log n1 = V.verifyWithLog E f2 t ct st logging log n2 := by
  unfold Authenticator.verifyWithLog
  rw [hd]
  cases ChameleonHash.digest E f2 st with
  | error e => rfl
  | ok d =>
    simp only []
    rw [verifyLoop_verifier_indep E f1 f2 V t logging n1 n2 hV]

/-- The outcome of `ChameleonHash::extract` with level-weights whose loops end
depends on the instance through `pk` and `w` only. -/
theorem extract_congr (E : Env) (fuel : Nat) (I J : ChameleonHash) (d1 r1 : Nat) (n1 : Int)
    (d2 r2 : Nat) (n2 : Int) (hpk : I.pk = J.pk) (hw : I.w = J.w)
    (hn1 : ∀ x, ∃ a, shiftAddLoop E.q fuel 0 x n1 = some a)
    (hn2 : ∀ x, ∃ a, shiftAddLoop E.q fuel 0 x n2 = some a) :
    I.extract E fuel d1 r1 n1 d2 r2 n2 = J.extract E fuel d1 r1 n1 d2 r2 n2 := by
  obtain ⟨a1, h1⟩ := hn1 (r1 % E.q)
  obtain ⟨a2, h2⟩ := hn2 (r2 % E.q)
  rw [extract_eq E fuel I d1 r1 n1 d2 r2 n2 a1 a2 h1 h2,
    extract_eq E fuel J d1 r1 n1 d2 r2 n2 a1 a2 h1 h2]
  cases I
  cases J
  simp_all

/-- The loop of `Authenticator::extract` on an instance in holder mode whose
key was stored by `ChameleonHash::extract` at a level `j0` below `i`, the last
level with a collision below `i`: after the loop the key is the one that
`ChameleonHash::extract` stores at the last level with a collision. -/
theorem extractLoop_last (E : Env) (fuel : Nat) (t1 t2 : token_t) (log1 log2 : log_t)
    (n1 n2 : Int) (V0 : ChameleonHash)
    (hn1 : ∀ x, ∃ a, shiftAddLoop E.q fuel 0 x n1 = some a)
    (hn2 : ∀ x, ∃ a, shiftAddLoop E.q fuel 0 x n2 = some a) :
    ∀ (k i : Nat) (S : Authenticator) (j0 : Nat),
      S.hasSecretKey_ = true → S.ch.hasSecretKey_ = true →
      j0 < i → collisionAt t1 t2 log1 log2 j0 = true →
      S.ch = (V0.extract E fuel (log1.xs.getD j0 0) (t1.rs j0) n1 (log2.xs.getD j0 0)
        (t2.rs j0) n2).1 →
      (∀ j, j0 < j → j < i → collisionAt t1 t2 log1 log2 j = false) →
      ∃ j, j < i + k ∧ collisionAt t1 t2 log1 log2 j = true ∧
        (Authenticator.extractLoop E fuel t1 t2 log1 log2 n1 n2 k i S).1.ch
          = (V0.extract E fuel (log1.xs.getD j 0) (t1.rs j) n1 (log2.xs.getD j 0)
              (t2.rs j) n2).1 ∧
        (∀ j', j < j' → j' < i + k → collisionAt t1 t2 log1 log2 j' = false) := by
  intro k
  induction k with
  | zero =>
    intro i S j0 _ _ hj0 hc0 hS hlast
    exact ⟨j0, by omega, hc0, hS, fun j' h1 h2 => hlast j' h1 (by omega)⟩
  | succ k ih =>
    intro i S j0 hflag hK hj0 hc0 hS hlast
    have hpk : S.ch.pk = V0.pk := by
      obtain ⟨a1, h1⟩ := hn1 (t1.rs j0 % E.q)
      obtain ⟨a2, h2⟩ := hn2 (t2.rs j0 % E.q)
      rw [hS, extract_eq E fuel V0 _ _ n1 _ _ n2 a1 a2 h1 h2]
    have hw : S.ch.w = V0.w := by
      obtain ⟨a1, h1⟩ := hn1 (t1.rs j0 % E.q)
      obtain ⟨a2, h2⟩ := hn2 (t2.rs j0 % E.q)
      rw [hS, extract_eq E fuel V0 _ _ n1 _ _ n2 a1 a2 h1 h2]
    unfold Authenticator.extractLoop
    have hcond : ((log1.xs.getD i 0 != log2.xs.getD i 0 || t1.rs i != t2.rs i)
        && log1.chs.getD i [] == log2.chs.getD i []) = collisionAt t1 t2 log1 log2 i := rfl
    simp only [hcond]
    cases hcol : collisionAt t1 t2 log1 log2 i with
    | true =>
      simp only [if_true]
      rw [extract_congr E fuel S.ch V0 _ _ n1 _ _ n2 hpk hw hn1 hn2]
      obtain ⟨a1, h1⟩ := hn1 (t1.rs i % E.q)
      obtain ⟨a2, h2⟩ := hn2 (t2.rs i % E.q)
      have hxe := extract_eq E fuel V0 (log1.xs.getD i 0) (t1.rs i) n1 (log2.xs.getD i 0)
        (t2.rs i) n2 a1 a2 h1 h2
      have hpair : V0.extract E fuel (log1.xs.getD i 0) (t1.rs i) n1 (log2.xs.getD i 0)
          (t2.rs i) n2
          = ((V0.extract E fuel (log1.xs.getD i 0) (t1.rs i) n1 (log2.xs.getD i 0)
              (t2.rs i) n2).1, .ok ()) := by
        rw [hxe]
      have hflag2 : (V0.extract E fuel (log1.xs.getD i 0) (t1.rs i) n1 (log2.xs.getD i 0)
          (t2.rs i) n2).1.hasSecretKey_ = true := by
        rw [hxe]
      rw [hpair]
      simp only [ChameleonHash.hasSecretKey, hflag2, Bool.not_true, Bool.false_eq_true,
        if_false]
      obtain ⟨j, hj, hcj, hRj, hlastj⟩ := ih (i + 1)
        { S with
          ch := (V0.extract E fuel (log1.xs.getD i 0) (t1.rs i) n1 (log2.xs.getD i 0)
            (t2.rs i) n2).1,
          hasSecretKey_ := true } i rfl hflag2 (by omega) hcol rfl
        (fun j h1 h2 => by omega)
      exact ⟨j, by omega, hcj, hRj, fun j' h1 h2 => hlastj j' h1 (by omega)⟩
    | false =>
      simp only [Bool.false_eq_true, if_false, ChameleonHash.hasSecretKey, hK, Bool.not_true]
      rw [Authenticator.with_flag S hflag]
      obtain ⟨j, hj, hcj, hRj, hlastj⟩ := ih (i + 1) S j0 hflag hK (by omega) hc0 hS
        (fun j h1 h2 => by
          by_cases hji : j = i
          · rw [hji]; exact hcol
          · exact hlast j h1 (by omega))
      exact ⟨j, by omega, hcj, hRj, fun j' h1 h2 => hlastj j' h1 (by omega)⟩

/-- The first round of the loop of `Authenticator::extract` on a verify-only
instance, at a level with a collision, when a level-weight is negative: the
loop of `ChameleonHash::extract` is not left. -/
theorem extract_negative (E : Env) (fuel : Nat) (V : Authenticator) (t1 t2 : token_t)
    (ct st1 st2 : List Nat) (n1 n2 : Int) (log1 log2 : log_t)
    (hv1 : V.verifyWithLog E fuel t1 ct st1 true { chs := [], xs := [] } n1 = .ok (true, log1))
    (hv2 : V.verifyWithLog E fuel t2 ct st2 true { chs := [], xs := [] } n2 = .ok (true, log2))
    (hL : 0 < E.CT_LEN) (hcol : collisionAt t1 t2 log1 log2 0 = true)
    (hn : n1 < 0 ∨ n2 < 0) :
    V.extract E fuel t1 t2 ct st1 st2 n1 n2 = (V, .error .out_of_fuel) := by
  unfold Authenticator.extract
  rw [hv1]
  simp only [Bool.not_true, Bool.false_eq_true, if_false]
  rw [hv2]
  simp only [Bool.not_true, Bool.false_eq_true, if_false]
  obtain ⟨k, hk⟩ : ∃ k, E.DEPTH = k + 1 := ⟨E.CT_LEN * 8 - 1, by unfold Env.DEPTH; omega⟩
  rw [hk]
  unfold Authenticator.extractLoop
  have hcond : ((log1.xs.getD 0 0 != log2.xs.getD 0 0 || t1.rs 0 != t2.rs 0)
      && log1.chs.getD 0 [] == log2.chs.getD 0 []) = collisionAt t1 t2 log1 log2 0 := rfl
  simp only [hcond, hcol, if_true]
  have hx := extract_out_of_fuel E fuel V.ch (log1.xs.getD 0 0) (t1.rs 0) n1
    (log2.xs.getD 0 0) (t2.rs 0) n2 (by
      rcases hn with h | h
      · exact Or.inl (shiftAddLoop_neg E.q fuel _ _ n1 h)
      · exact Or.inr (shiftAddLoop_neg E.q fuel _ _ n2 h))
  rw [hx]

/-- When level 0 has a collision, the loop of `Authenticator::extract` goes
through all levels: on a verify-only instance (and on any other), for two
tokens that both verify for the same context, with level-weights that are not
negative, if at level 0 the logged inputs differ while the logged chameleon
hashes are equal, then `Authenticator::extract` returns without the
non-extractable (or any other) error and leaves the instance in holder mode;
the key it leaves is the one that `ChameleonHash::extract` stores at the last
level with such a collision (the loop calls it at every such level). -/
theorem extract_scans_levels (E : Env) (fuel : Nat) (V : Authenticator) (t1 t2 : token_t)
    (ct st1 st2 : List Nat) (n1 n2 : Int) (log1 log2 : log_t)
    (hv1 : V.verifyWithLog E fuel t1 ct st1 true { chs := [], xs := [] } n1 = .ok (true, log1))
    (hv2 : V.verifyWithLog E fuel t2 ct st2 true { chs := [], xs := [] } n2 = .ok (true, log2))
    (h10 : 0 ≤ n1) (h11 : n1 < 2 ^ fuel) (h20 : 0 ≤ n2) (h21 : n2 < 2 ^ fuel)
    (hL : 0 < E.CT_LEN) (hcol : collisionAt t1 t2 log1 log2 0 = true) :
    (V.extract E fuel t1 t2 ct st1 st2 n1 n2).2 = .ok () ∧
    (V.extract E fuel t1 t2 ct st1 st2 n1 n2).1.hasSecretKey_ = true ∧
    (V.extract E fuel t1 t2 ct st1 st2 n1 n2).1.ch.hasSecretKey_ = true ∧
    ∃ j, j < E.DEPTH ∧ collisionAt t1 t2 log1 log2 j = true ∧
      (V.extract E fuel t1 t2 ct st1 st2 n1 n2).1.ch
        = (V.ch.extract E fuel (log1.xs.getD j 0) (t1.rs j) n1 (log2.xs.getD j 0)
            (t2.rs j) n2).1 ∧
      (∀ j', j < j' → j' < E.DEPTH → collisionAt t1 t2 log1 log2 j' = false) := by
  have hn1 : ∀ x, ∃ a, shiftAddLoop E.q fuel 0 x n1 = some a :=
    fun x => shiftAddLoop_terminates E.q fuel 0 x n1 h10 h11
  have hn2 : ∀ x, ∃ a, shiftAddLoop E.q fuel 0 x n2 = some a :=
    fun x => shiftAddLoop_terminates E.q fuel 0 x n2 h20 h21
  obtain ⟨k, hk⟩ : ∃ k, E.DEPTH = k + 1 := ⟨E.CT_LEN * 8 - 1, by unfold Env.DEPTH; omega⟩
  obtain ⟨a1, h1⟩ := hn1 (t1.rs 0 % E.q)
  obtain ⟨a2, h2⟩ := hn2 (t2.rs 0 % E.q)
  have hxe := extract_eq E fuel V.ch (log1.xs.getD 0 0) (t1.rs 0) n1 (log2.xs.getD 0 0)
    (t2.rs 0) n2 a1 a2 h1 h2
  have hpair : V.ch.extract E fuel (log1.xs.getD 0 0) (t1.rs 0) n1 (log2.xs.getD 0 0)
      (t2.rs 0) n2
      = ((V.ch.extract E fuel (log1.xs.getD 0 0) (t1.rs 0) n1 (log2.xs.getD 0 0)
          (t2.rs 0) n2).1, .ok ()) := by
    rw [hxe]
  have hflag : (V.ch.extract E fuel (log1.xs.getD 0 0) (t1.rs 0) n1 (log2.xs.getD 0 0)
      (t2.rs 0) n2).1.hasSecretKey_ = true := by
    rw [hxe]
  have hext : V.extract E fuel t1 t2 ct st1 st2 n1 n2
      = Authenticator.extractLoop E fuel t1 t2 log1 log2 n1 n2 k 1
          { V with
            ch := (V.ch.extract E fuel (log1.xs.getD 0 0) (t1.rs 0) n1 (log2.xs.getD 0 0)
              (t2.rs 0) n2).1,
            hasSecretKey_ := true } := by
    unfold Authenticator.extract
    rw [hv1]
    simp only [Bool.not_true, Bool.false_eq_true, if_false]
    rw [hv2]
    simp only [Bool.not_true, Bool.false_eq_true, if_false]
    rw [hk]
    conv_lhs => unfold Authenticator.extractLoop
    have hcond : ((log1.xs.getD 0 0 != log2.xs.getD 0 0 || t1.rs 0 != t2.rs 0)
        && log1.chs.getD 0 [] == log2.chs.getD 0 []) = collisionAt t1 t2 log1 log2 0 := rfl
    simp only [hcond, hcol, if_true]
    rw [hpair]
    simp only [ChameleonHash.hasSecretKey, hflag, Bool.not_true, Bool.false_eq_true, if_false,
      Nat.zero_add]
  rw [hext]
  obtain ⟨i1, _, _, _, _, _, i7, _⟩ := extractLoop_inv E fuel t1 t2 log1 log2 n1 n2 k 1
    { V with
      ch := (V.ch.extract E fuel (log1.xs.getD 0 0) (t1.rs 0) n1 (log2.xs.getD 0 0)
        (t2.rs 0) n2).1,
      hasSecretKey_ := true } hflag
  obtain ⟨j, hj, hcj, hRj, hlast⟩ := extractLoop_last E fuel t1 t2 log1 log2 n1 n2 V.ch hn1 hn2
    k 1
    { V with
      ch := (V.ch.extract E fuel (log1.xs.getD 0 0) (t1.rs 0) n1 (log2.xs.getD 0 0)
        (t2.rs 0) n2).1,
      hasSecretKey_ := true } 0 rfl hflag (by omega) hcol rfl (fun j h1 h2 => by omega)
  refine ⟨extractLoop_holder_ok E fuel t1 t2 log1 log2 n1 n2 hn1 hn2 k 1 _ hflag, i7 rfl,
    i1.trans (i7 rfl), j, by omega, hcj, hRj, fun j' h1 h2 => hlast j' h1 (by omega)⟩

set_option maxRecDepth 100000 in
/-- The theorem `extract_scans_levels` on the verify-only instance built from
the public key of `Authenticator(12345, 678, 5)`, for the tokens of the states
`"hello"` and `"world"`, which collide at level 0. -/
theorem extract_scans_levels_witness :
    (demoVerifier.extract demoEnv 32 (demoToken stHello 5) (demoToken stWorld 5)
      ctOne stHello stWorld 5 5).2 = .ok () ∧
    (demoVerifier.extract demoEnv 32 (demoToken stHello 5) (demoToken stWorld 5)
      ctOne stHello stWorld 5 5).1.hasSecretKey_ = true ∧
    (demoVerifier.extract demoEnv 32 (demoToken stHello 5) (demoToken stWorld 5)
      ctOne stHello stWorld 5 5).1.ch.hasSecretKey_ = true ∧
    ∃ j, j < demoEnv.DEPTH ∧
      collisionAt (demoToken stHello 5) (demoToken stWorld 5)
        (demoLog (demoToken stHello 5) stHello 5) (demoLog (demoToken stWorld 5) stWorld 5) j
        = true ∧
      (demoVerifier.extract demoEnv 32 (demoToken stHello 5) (demoToken stWorld 5)
        ctOne stHello stWorld 5 5).1.ch
        = (demoVerifier.ch.extract demoEnv 32
            ((demoLog (demoToken stHello 5) stHello 5).xs.getD j 0) ((demoToken stHello 5).rs j) 5
            ((demoLog (demoToken stWorld 5) stWorld 5).xs.getD j 0) ((demoToken stWorld 5).rs j)
            5).1 ∧
      (∀ j', j < j' → j' < demoEnv.DEPTH →
        collisionAt (demoToken stHello 5) (demoToken stWorld 5)
          (demoLog (demoToken stHello 5) stHello 5) (demoLog (demoToken stWorld 5) stWorld 5) j'
          = false) :=
  extract_scans_levels demoEnv 32 demoVerifier (demoToken stHello 5) (demoToken stWorld 5)
    ctOne stHello stWorld 5 5
    (demoLog (demoToken stHello 5) stHello 5) (demoLog (demoToken stWorld 5) stWorld 5)
    (by decide) (by decide) (by decide) (by decide) (by decide) (by decide) (by decide)
    (by decide)

/-- On an instance whose chameleon hash holds no key, for two tokens that
verify and have no collision at level 0, the loop of `Authenticator::extract`
throws the non-extractable error in its first round, whatever the levels
above hold, and the instance is as before. -/
theorem extract_stops_without_collision_at_zero (E : Env) (fuel : Nat) (V : Authenticator)
    (t1 t2 : token_t) (ct st1 st2 : List Nat) (n1 n2 : Int) (log1 log2 : log_t)
    (hV : V.ch.hasSecretKey_ = false)
    (hv1 : V.verifyWithLog E fuel t1 ct st1 true { chs := [], xs := [] } n1 = .ok (true, log1))
    (hv2 : V.verifyWithLog E fuel t2 ct st2 true { chs := [], xs := [] } n2 = .ok (true, log2))
    (hL : 0 < E.CT_LEN) (hcol : collisionAt t1 t2 log1 log2 0 = false) :
    V.extract E fuel t1 t2 ct st1 st2 n1 n2 = (V, .error .not_extractable) := by
  unfold Authenticator.extract
  rw [hv1]
  simp only [Bool.not_true, Bool.false_eq_true, if_false]
  rw [hv2]
  simp only [Bool.not_true, Bool.false_eq_true, if_false]
  obtain ⟨k, hk⟩ : ∃ k, E.DEPTH = k + 1 := ⟨E.CT_LEN * 8 - 1, by unfold Env.DEPTH; omega⟩
  rw [hk]
  unfold Authenticator.extractLoop
  have hcond : ((log1.xs.getD 0 0 != log2.xs.getD 0 0 || t1.rs 0 != t2.rs 0)
      && log1.chs.getD 0 [] == log2.chs.getD 0 []) = collisionAt t1 t2 log1 log2 0 := rfl
  simp only [hcond, hcol, Bool.false_eq_true, if_false, ChameleonHash.hasSecretKey, hV,
    Bool.not_false, if_true, Authenticator.with_self]

set_option maxRecDepth 100000 in
/-- Claim C16: extraction is to scan all tree levels for a collision; the
code stops at level 0.  The verify-only instance built from the public key of
`Authenticator(12345, 678, 5)` accepts the token of that holder for the state
`"hello"`, the token `lateCollisionToken` for the same state and the token
`lateCollisionTokenWorld` for the state `"world"`, all for the context `0x01`
and the level-weight `5`.  Each of the two forged tokens has no collision with
the holder's token at level 0 and has one at level 1, where
`ChameleonHash::extract` stores the key `12345` of the holder.
`Authenticator::extract` does not reach level 1: the check for a missing key
stands inside the loop, so the call throws the non-extractable error in the
round of level 0 and leaves the instance verify-only. -/
theorem extract_stops_at_level_zero :
    demoVerifier.hasSecretKey_ = false ∧
    demoVerifier.verify demoEnv 32 (demoToken stHello 5) ctOne stHello 5 = .ok true ∧
    demoVerifier.verify demoEnv 32 lateCollisionToken ctOne stHello 5 = .ok true ∧
    collisionAt (demoToken stHello 5) lateCollisionToken
      (demoLog (demoToken stHello 5) stHello 5) (demoLog lateCollisionToken stHello 5) 0
      = false ∧
    collisionAt (demoToken stHello 5) lateCollisionToken
      (demoLog (demoToken stHello 5) stHello 5) (demoLog lateCollisionToken stHello 5) 1
      = true ∧
    (demoVerifier.ch.extract demoEnv 32
      ((demoLog (demoToken stHello 5) stHello 5).xs.getD 1 0) ((demoToken stHello 5).rs 1) 5
      ((demoLog lateCollisionToken stHello 5).xs.getD 1 0) (lateCollisionToken.rs 1) 5).1.sk
      = 12345 ∧
    demoVerifier.extract demoEnv 32 (demoToken stHello 5) lateCollisionToken
      ctOne stHello stHello 5 5 = (demoVerifier, .error .not_extractable) ∧
    demoVerifier.verify demoEnv 32 lateCollisionTokenWorld ctOne stWorld 5 = .ok true ∧
    collisionAt (demoToken stHello 5) lateCollisionTokenWorld
      (demoLog (demoToken stHello 5) stHello 5) (demoLog lateCollisionTokenWorld stWorld 5) 0
      = false ∧
    collisionAt (demoToken stHello 5) lateCollisionTokenWorld
      (demoLog (demoToken stHello 5) stHello 5) (demoLog lateCollisionTokenWorld stWorld 5) 1
      = true ∧
    (demoVerifier.ch.extract demoEnv 32
      ((demoLog (demoToken stHello 5) stHello 5).xs.getD 1 0) ((demoToken stHello 5).rs 1) 5
      ((demoLog lateCollisionTokenWorld stWorld 5).xs.getD 1 0) (lateCollisionTokenWorld.rs 1)
      5).1.sk = 12345 ∧
    demoVerifier.extract demoEnv 32 (demoToken stHello 5) lateCollisionTokenWorld
      ctOne stHello stWorld 5 5 = (demoVerifier, .error .not_extractable) := by
  refine ⟨by decide, by decide, by decide, by decide, by decide, by decide, by decide,
    by decide, by decide, by decide, by decide, by decide⟩

set_option maxRecDepth 100000 in
/-- For the tokens of `"hello"` and `"world"`, which collide at level 0, with
the level-weight `-1` the call of `ChameleonHash::extract` at level 0 is not
left, whatever the loop budget. -/
theorem extract_negative_weight_not_left :
    collisionAt (demoToken stHello 5) (demoToken stWorld 5)
      (demoLog (demoToken stHello 5) stHello 5) (demoLog (demoToken stWorld 5) stWorld 5) 0
      = true ∧
    (∀ fuel, demoVerifier.extract demoEnv fuel (demoToken stHello 5) (demoToken stWorld 5)
      ctOne stHello stWorld (-1) 5 = (demoVerifier, .error .out_of_fuel)) := by
  refine ⟨by decide, ?_⟩
  intro fuel
  cases fuel with
  | zero => decide
  | succ f =>
    have hd : ∀ st d, ChameleonHash.digest demoEnv 32 st = .ok d →
        ChameleonHash.digest demoEnv 1 st = .ok d →
        ChameleonHash.digest demoEnv (f + 1) st = ChameleonHash.digest demoEnv 32 st := by
      intro st d h32 h1
      rw [h32]
      have hk := (digestLoop_iff demoEnv 1 st d).mp h1
      obtain ⟨k, hk1, hk2, hrest⟩ := hk
      exact (digestLoop_iff demoEnv (f + 1) st d).mpr ⟨k, hk1, by omega, hrest⟩
    have hv1 := verifyWithLog_verifier_indep demoEnv (f + 1) 32 demoVerifier
      (demoToken stHello 5) ctOne stHello true { chs := [], xs := [] } (-1) 5 rfl
      (hd stHello 263261 (by decide) (by decide))
    have hv2 := verifyWithLog_verifier_indep demoEnv (f + 1) 32 demoVerifier
      (demoToken stWorld 5) ctOne stWorld true { chs := [], xs := [] } 5 5 rfl
      (hd stWorld 346025 (by decide) (by decide))
    have e1 : demoVerifier.verifyWithLog demoEnv 32 (demoToken stHello 5) ctOne stHello true
        { chs := [], xs := [] } 5 = .ok (true, demoLog (demoToken stHello 5) stHello 5) := by
      decide
    have e2 : demoVerifier.verifyWithLog demoEnv 32 (demoToken stWorld 5) ctOne stWorld true
        { chs := [], xs := [] } 5 = .ok (true, demoLog (demoToken stWorld 5) stWorld 5) := by
      decide
    exact extract_negative demoEnv (f + 1) demoVerifier (demoToken stHello 5)
      (demoToken stWorld 5) ctOne stHello stWorld (-1) 5 _ _ (hv1.trans e1) (hv2.trans e2)
      (by decide) (by decide) (Or.inl (by decide))

/-! ## The final check of `authenticate` -/

/-- The exceptions of `ch`. -/
theorem ch_error_cases (E : Env) (fuel : Nat) (H : ChameleonHash) (m r : Nat) (n : Int)
    (err : Error) (h : H.ch E fuel m r n = .error err) :
    err = .overflow ∨ err = .cannot_serialize ∨ err = .out_of_fuel := by
  cases hflag : H.hasSecretKey_ with
  | false =>
    rw [ch_verifier E fuel H m r n hflag] at h
    split at h
    · simp only [Except.error.injEq] at h
      exact Or.inl h.symm
    · exact Or.inr (Or.inl (serializeHash_error E _ err h))
  | true =>
    cases ha : shiftAddLoop E.q fuel 0 (secp256k1_scalar_add E.q 0 H.w) n with
    | none =>
      rw [ch_holder_out_of_fuel E fuel H m r n hflag ha] at h
      split at h
      · simp only [Except.error.injEq] at h
        exact Or.inl h.symm
      · simp only [Except.error.injEq] at h
        exact Or.inr (Or.inr h.symm)
    | some a =>
      rw [ch_holder E fuel H m r n a hflag ha] at h
      split at h
      · simp only [Except.error.injEq] at h
        exact Or.inl h.symm
      · exact Or.inr (Or.inl (serializeHash_error E _ err h))

/-- The exceptions of the loop of `authenticate` on an instance whose
chameleon hash holds a key: those of `ch`, and the exhausted budget. -/
theorem authenticateLoop_error_cases (E : Env) (fuel : Nat) (A : Authenticator) (n : Int)
    (hflag : A.ch.hasSecretKey_ = true) :
    ∀ (node : Node) (x sr : Nat) (first : Bool) (t : token_t) (pos : Nat) (err : Error),
      (Authenticator.authenticateLoop E fuel A n node x sr first t pos).2 = .error err →
      err = .overflow ∨ err = .cannot_serialize ∨ err = .out_of_fuel := by
  intro node
  induction node with
  | nil =>
    intro x sr first t pos err h
    simp [Authenticator.authenticateLoop] at h
  | cons b up ih =>
    intro x sr first t pos err h
    unfold Authenticator.authenticateLoop at h
    simp only at h
    split at h
    · rename_i e he
      simp only [Except.error.injEq] at h
      subst h
      exact ch_error_cases E fuel A.ch _ _ _ _ he
    · split at h
      · rename_i r e he
        simp only [Except.error.injEq] at h
        subst h
        exact Or.inr (Or.inr
          (collision_holder_error E fuel A.ch _ _ _ _ _ _ e hflag (by rw [he])))
      · split at h
        · rename_i e he
          simp only [Except.error.injEq] at h
          subst h
          exact ch_error_cases E fuel A.ch _ _ _ _ he
        · exact ih _ _ _ _ _ _ h

/-- On a holder built by the constructor, for a context of at least one byte,
the digest that the loop of `authenticate` computes at the root is the root
digest of the instance. -/
theorem holder_loop_root (E : Env) (fuel dsk dw : Nat) (n0 n : Int) (A : Authenticator)
    (t0 t : token_t) (ct : List Nat) (d xf : Nat)
    (hA : Authenticator.fromDsk E fuel dsk dw n0 = .ok A)
    (hct : ct.length = E.CT_LEN) (hL : 0 < E.CT_LEN)
    (hloop : Authenticator.authenticateLoop E fuel A n (Node.ofContext ct) d 0 true t0 0
      = (t, .ok xf)) : xf = A.rootDigest := by
  obtain ⟨left, right, _, _, _, _, hl, hr, hroot⟩ := fromDsk_ok E fuel dsk dw n0 A hA
  have hlen : 2 ≤ (Node.ofContext ct).length := by
    rw [ofContext_length, hct]; omega
  rw [hroot]
  exact authenticateLoop_root E fuel A n left right hl hr _ _ _ _ _ _ t xf (Or.inl hlen) hloop

/-- The final check on a holder built by the constructor
`Authenticator(dsk, dw, n0)`: for every context of the configured length (at
least one byte), every state and every level-weight `n`, the check at the end
of `authenticate` does not fail: when the loop reaches the root, the digest
computed there is `rootDigest` and `authenticate` returns; and the token
written verifies on that instance when `dsk + n*dw` is not zero modulo the
group order. -/
theorem holder_root_check (E : Env) (hE : E.Valid) (fuel dsk dw : Nat) (n0 n : Int)
    (A : Authenticator) (t0 : token_t) (ct st : List Nat)
    (hA : Authenticator.fromDsk E fuel dsk dw n0 = .ok A)
    (hct : ct.length = E.CT_LEN) (hL : 0 < E.CT_LEN) :
    (A.authenticate E fuel t0 ct st n).2 ≠ .error .assertion_failed ∧
    (∀ d t xf, ChameleonHash.digest E fuel st = .ok d →
      Authenticator.authenticateLoop E fuel A n (Node.ofContext ct) d 0 true t0 0
        = (t, .ok xf) →
      xf = A.rootDigest ∧ A.authenticate E fuel t0 ct st n = (t, .ok ())) ∧
    ((dsk + n.toNat * dw) % E.q ≠ 0 →
      ∀ t, A.authenticate E fuel t0 ct st n = (t, .ok ()) →
        A.verify E fuel t ct st n = .ok true) := by
  obtain ⟨_, _, hsk, _, _, hflag, _, _, _⟩ := fromDsk_ok E fuel dsk dw n0 A hA
  obtain ⟨_, hchflag, _⟩ := fromSk_ok E fuel dsk dw n0 A.ch hsk
  have hret : ∀ d t xf, ChameleonHash.digest E fuel st = .ok d →
      Authenticator.authenticateLoop E fuel A n (Node.ofContext ct) d 0 true t0 0
        = (t, .ok xf) →
      xf = A.rootDigest ∧ A.authenticate E fuel t0 ct st n = (t, .ok ()) := by
    intro d t xf hd hloop
    have hxf := holder_loop_root E fuel dsk dw n0 n A t0 t ct d xf hA hct hL hloop
    refine ⟨hxf, ?_⟩
    unfold Authenticator.authenticate
    simp only [hflag, hd, hloop, hxf, Bool.not_true, Bool.false_eq_true, if_false]
    simp
  refine ⟨?_, hret, ?_⟩
  · intro hass
    cases hd : ChameleonHash.digest E fuel st with
    | error e =>
      have he := digestLoop_error E fuel st e hd
      unfold Authenticator.authenticate at hass
      simp only [hflag, hd, Bool.not_true, Bool.false_eq_true, if_false] at hass
      rw [he] at hass
      cases hass
    | ok d =>
      cases hloop : Authenticator.authenticateLoop E fuel A n (Node.ofContext ct) d 0 true t0 0
        with
      | mk t out =>
        cases out with
        | error e =>
          have he := authenticateLoop_error_cases E fuel A n hchflag _ _ _ _ _ _ e
            (by rw [hloop])
          unfold Authenticator.authenticate at hass
          simp only [hflag, hd, hloop, Bool.not_true, Bool.false_eq_true, if_false] at hass
          rcases he with h | h | h <;> rw [h] at hass <;> cases hass
        | ok xf =>
          rw [(hret d t xf hd hloop).2] at hass
          cases hass
  · intro hden t hauth
    obtain ⟨_, d, xf, hd, hloop, _⟩ := authenticate_ok_inv E fuel A t0 ct st n t hauth
    have hxf := holder_loop_root E fuel dsk dw n0 n A t0 t ct d xf hA hct hL hloop
    obtain ⟨log', hv, _⟩ := authenticate_verify_sim E fuel A A n false
      (holder_collision_correct E hE fuel dsk dw n0 n A hA hden)
      _ _ _ _ _ _ t xf hloop t { chs := [], xs := [] } (fun _ _ => ⟨rfl, rfl⟩)
    rw [verify_of_loop E fuel A t ct st n d xf log' hd hv, hxf]
    simp

set_option maxRecDepth 100000 in
/-- The theorem `holder_root_check` on the holder
`Authenticator(12345, 678, 5)` for the context `0x01`, the state `"hello"` and
the level-weight `7`; `authenticate` returns there. -/
theorem holder_root_check_witness :
    ((demoHolder.authenticate demoEnv 32 emptyToken ctOne stHello 7).2
        ≠ .error .assertion_failed ∧
      (∀ d t xf, ChameleonHash.digest demoEnv 32 stHello = .ok d →
        Authenticator.authenticateLoop demoEnv 32 demoHolder 7 (Node.ofContext ctOne) d 0 true
          emptyToken 0 = (t, .ok xf) →
        xf = demoHolder.rootDigest ∧
          demoHolder.authenticate demoEnv 32 emptyToken ctOne stHello 7 = (t, .ok ())) ∧
      ((12345 + (7 : Int).toNat * 678) % demoEnv.q ≠ 0 →
        ∀ t, demoHolder.authenticate demoEnv 32 emptyToken ctOne stHello 7 = (t, .ok ()) →
          demoHolder.verify demoEnv 32 t ctOne stHello 7 = .ok true)) ∧
    (demoHolder.authenticate demoEnv 32 emptyToken ctOne stHello 7).2 = .ok () :=
  ⟨holder_root_check demoEnv demoEnv_valid 32 12345 678 5 7 demoHolder emptyToken ctOne stHello
      (by decide) (by decide) (by decide),
    by decide⟩

/-- The loop of `verifyWithLog` reads neither `dsk` nor `_n`. -/
theorem verifyLoop_members (E : Env) (fuel : Nat) (V : Authenticator) (g : Nat) (m : Int)
    (t : token_t) (logging : Bool) (n : Int) :
    ∀ (node : Node) (x : Nat) (first : Bool) (pos : Nat) (log : log_t),
      Authenticator.verifyLoop E fuel { V with dsk := g, _n := m } t logging n node x first pos log
        = Authenticator.verifyLoop E fuel V t logging n node x first pos log := by
  intro node
  induction node with
  | nil => intro x first pos log; rfl
  | cons b up ih =>
    intro x first pos log
    unfold Authenticator.verifyLoop
    simp only [ih]

/-- The method `verifyWithLog` reads neither `dsk` nor `_n`. -/
theorem verifyWithLog_members (E : Env) (fuel : Nat) (V : Authenticator) (g : Nat) (m : Int)
    (t : token_t) (ct st : List Nat) (logging : Bool) (log : log_t) (n : Int) :
    Authenticator.verifyWithLog E fuel { V with dsk := g, _n := m } t ct st logging log n
      = Authenticator.verifyWithLog E fuel V t ct st logging log n := by
  unfold Authenticator.verifyWithLog
  simp only [verifyLoop_members]

/-- The loop of `Authenticator::extract` neither reads nor assigns `dsk` or
`_n`. -/
theorem extractLoop_members (E : Env) (fuel : Nat) (t1 t2 : token_t) (log1 log2 : log_t)
    (n1 n2 : Int) (g : Nat) (m : Int) :
    ∀ (k i : Nat) (S : Authenticator),
      Authenticator.extractLoop E fuel t1 t2 log1 log2 n1 n2 k i { S with dsk := g, _n := m }
        = ({ (Authenticator.extractLoop E fuel t1 t2 log1 log2 n1 n2 k i S).1 with
              dsk := g, _n := m },
           (Authenticator.extractLoop E fuel t1 t2 log1 log2 n1 n2 k i S).2) := by
  intro k
  induction k with
  | zero => intro i S; rfl
  | succ k ih =>
    intro i S
    unfold Authenticator.extractLoop
    simp only []
    generalize (if ((log1.xs.getD i 0 != log2.xs.getD i 0 || t1.rs i != t2.rs i)
        && log1.chs.getD i [] == log2.chs.getD i []) = true then
        S.ch.extract E fuel (log1.xs.getD i 0) (t1.rs i) n1 (log2.xs.getD i 0) (t2.rs i) n2
      else (S.ch, Except.ok ())) = res
    obtain ⟨ch, out⟩ := res
    cases out with
    | error e => rfl
    | ok u =>
      simp only []
      by_cases hK : (!ch.hasSecretKey) = true
      · rw [if_pos hK, if_pos hK]
      · rw [if_neg hK, if_neg hK]
        exact ih (i + 1) { S with ch := ch, hasSecretKey_ := true }

/-- The method `Authenticator::extract` neither reads nor assigns `dsk` or
`_n`: whatever the two members hold before the call, they hold it afterwards,
and the outcome and the other members do not depend on them. -/
theorem extract_members (E : Env) (fuel : Nat) (V : Authenticator) (g : Nat) (m : Int)
    (t1 t2 : token_t) (ct st1 st2 : List Nat) (n1 n2 : Int) :
    Authenticator.extract E fuel { V with dsk := g, _n := m } t1 t2 ct st1 st2 n1 n2
      = ({ (V.extract E fuel t1 t2 ct st1 st2 n1 n2).1 with dsk := g, _n := m },
         (V.extract E fuel t1 t2 ct st1 st2 n1 n2).2) := by
  unfold Authenticator.extract
  simp only [verifyWithLog_members]
  cases h1 : Authenticator.verifyWithLog E fuel V t1 ct st1 true { chs := [], xs := [] } n1 with
  | error e => rfl
  | ok p1 =>
    obtain ⟨ok1, log1⟩ := p1
    cases ok1 with
    | false => rfl
    | true =>
      simp only [Bool.not_true, Bool.false_eq_true, if_false]
      cases h2 : Authenticator.verifyWithLog E fuel V t2 ct st2 true { chs := [], xs := [] } n2
        with
      | error e => rfl
      | ok p2 =>
        obtain ⟨ok2, log2⟩ := p2
        cases ok2 with
        | false => rfl
        | true =>
          simp only [Bool.not_true, Bool.false_eq_true, if_false]
          exact extractLoop_members E fuel t1 t2 log1 log2 n1 n2 g m E.DEPTH 0 V

set_option maxRecDepth 100000 in
/-- Claim C17: an instance that became a holder by extraction is to be a full
holder; in the code it is not.  On the verify-only instance built from the
public key of `Authenticator(12345, 678, 5)` the call
`extract(t1, t2, ct, "hello", "world", 5, 5)` with the two tokens of that
holder returns and recovers the key `12345`.  It assigns neither `dsk`, which
keys the PRF, nor `_n`, which the verify-only constructor has left
uninitialised: whatever the two members hold before the call, they hold it
afterwards.  So `authenticate` passes the secret-key check on the instance and
the check `subTreeX == rootDigest` at its end fails, with the two members zero
(as the embedding represents what is uninitialised) and with `dsk = 0xFF..FF`,
`_n = 1`; with `assert` compiled out it returns a token that does not verify
on the instance.  With the values `12345` and `5`, which the holder
constructor assigns, the check holds and the token verifies. -/
theorem extracted_holder_fails_root_check :
    demoVerifier.hasSecretKey_ = false ∧
    (demoVerifier.extract demoEnv 32 (demoToken stHello 5) (demoToken stWorld 5)
      ctOne stHello stWorld 5 5).2 = .ok () ∧
    demoExtracted.hasSecretKey_ = true ∧
    demoExtracted.getDsk demoEnv = .ok 12345 ∧
    (∀ (g : Nat) (m : Int),
      Authenticator.extract demoEnv 32 { demoVerifier with dsk := g, _n := m }
        (demoToken stHello 5) (demoToken stWorld 5) ctOne stHello stWorld 5 5
        = ({ demoExtracted with dsk := g, _n := m }, .ok ())) ∧
    demoExtracted.dsk = demoVerifier.dsk ∧ demoExtracted._n = demoVerifier._n ∧
    (demoExtracted.authenticate demoEnv 32 emptyToken ctOne stHello 5).2
      = .error .assertion_failed ∧
    (demoExtracted.authenticate demoEnvRelease 32 emptyToken ctOne stHello 5).2 = .ok () ∧
    demoExtracted.verify demoEnvRelease 32
      (demoExtracted.authenticate demoEnvRelease 32 emptyToken ctOne stHello 5).1
      ctOne stHello 5 = .ok false ∧
    (Authenticator.authenticate demoEnv 32 { demoExtracted with dsk := 2 ^ 256 - 1, _n := 1 }
      emptyToken ctOne stHello 5).2 = .error .assertion_failed ∧
    (Authenticator.authenticate demoEnv 32 { demoExtracted with dsk := 12345, _n := 5 }
      emptyToken ctOne stHello 5).2 = .ok () ∧
    Authenticator.verify demoEnv 32 { demoExtracted with dsk := 12345, _n := 5 }
      (Authenticator.authenticate demoEnv 32 { demoExtracted with dsk := 12345, _n := 5 }
        emptyToken ctOne stHello 5).1 ctOne stHello 5 = .ok true := by
  refine ⟨by decide, by decide, by decide, by decide, ?_, by decide, by decide, by decide,
    by decide, by decide, by decide, by decide, by decide⟩
  intro g m
  rw [extract_members]
  have h : demoVerifier.extract demoEnv 32 (demoToken stHello 5) (demoToken stWorld 5)
      ctOne stHello stWorld 5 5 = (demoExtracted, .ok ()) := by decide
  rw [h]

/-! ## The level-weight along the path -/

/-- The loop of the source is the loop of the spec with the level-weight `_n`
of the instance for the path node. -/
theorem authenticateLoop_eq_spec (E : Env) (fuel : Nat) (A : Authenticator) (n : Int) :
    ∀ (node : Node) (x sr : Nat) (first : Bool) (t : token_t) (pos : Nat),
      Authenticator.authenticateLoop E fuel A n node x sr first t pos
        = Authenticator.authenticateLoopSpec E fuel A A._n n node x sr first t pos := by
  intro node
  induction node with
  | nil => intro x sr first t pos; rfl
  | cons b up ih =>
    intro x sr first t pos
    unfold Authenticator.authenticateLoop Authenticator.authenticateLoopSpec
    simp only [ih]

/-- The method of the source is the method of the spec with the level-weight
`_n` of the instance for the path node. -/
theorem authenticate_eq_spec (E : Env) (fuel : Nat) (A : Authenticator) (t : token_t)
    (ct st : List Nat) (n : Int) :
    A.authenticate E fuel t ct st n = A.authenticateSpec E fuel A._n t ct st n := by
  unfold Authenticator.authenticate Authenticator.authenticateSpec
  simp only [authenticateLoop_eq_spec]

/-- Claim C18, as amended: in `authenticate(t, ct, st, n)` the chameleon hash
of the path node is evaluated, at every level, with the level-weight `_n`
that the constructor stored (for a holder `Authenticator(dsk, dw, n0)` that is
`n0`), not with the caller-supplied `n`: the method is the method of the spec
with `n0` for the path node; and when it returns and `dsk + n*dw` is not zero
modulo the group order, the chameleon hash that the token reproduces at level
`i` (the one `verifyWithLog` logs there) is the hash of the PRF pair of the
path node of that level with the level-weight `n0`. -/
theorem path_level_weight (E : Env) (hE : E.Valid) (fuel dsk dw : Nat) (n0 n : Int)
    (A : Authenticator) (t0 t : token_t) (ct st : List Nat)
    (hA : Authenticator.fromDsk E fuel dsk dw n0 = .ok A)
    (hct : ct.length = E.CT_LEN) (hL : 0 < E.CT_LEN)
    (hden : (dsk + n.toNat * dw) % E.q ≠ 0)
    (hauth : A.authenticate E fuel t0 ct st n = (t, .ok ())) :
    A._n = n0 ∧
    A.authenticate E fuel t0 ct st n = A.authenticateSpec E fuel n0 t0 ct st n ∧
    ∃ log, A.verifyWithLog E fuel t ct st true { chs := [], xs := [] } n = .ok (true, log) ∧
      ∀ i, i < E.DEPTH →
        A.ch.ch E fuel (E.prf_getX dsk ((Node.ofContext ct).drop i))
          (E.prf_getR dsk ((Node.ofContext ct).drop i)) n0 = .ok (log.chs.getD i []) := by
  obtain ⟨_, _, _, hdsk, hn, _, _, _, _⟩ := fromDsk_ok E fuel dsk dw n0 A hA
  obtain ⟨_, d, xf, hd, hloop, _⟩ := authenticate_ok_inv E fuel A t0 ct st n t hauth
  have hxf := holder_loop_root E fuel dsk dw n0 n A t0 t ct d xf hA hct hL hloop
  obtain ⟨log', hv, hlog⟩ := authenticate_verify_sim E fuel A A n true
    (holder_collision_correct E hE fuel dsk dw n0 n A hA hden)
    _ _ _ _ _ _ t xf hloop t { chs := [], xs := [] } (fun _ _ => ⟨rfl, rfl⟩)
  obtain ⟨_, _, hpath⟩ := hlog rfl
  refine ⟨hn, ?_, log', ?_, ?_⟩
  · rw [authenticate_eq_spec, hn]
  · rw [verifyWithLog_of_loop E fuel A t ct st true _ n d xf log' hd hv, hxf]
    simp
  · intro i hi
    have h := hpath i (by rw [ofContext_length, hct]; unfold Env.DEPTH at hi; omega)
    unfold Authenticator.pathHash at h
    rw [hdsk, hn] at h
    simpa using h

set_option maxRecDepth 100000 in
/-- Claim C18 as amended, on the holder `Authenticator(12345, 678, 5)` for the
context `0x01`, the state `"hello"` and the level-weight `7` of the call. -/
theorem path_level_weight_witness :
    demoHolder._n = 5 ∧
    demoHolder.authenticate demoEnv 32 emptyToken ctOne stHello 7
      = demoHolder.authenticateSpec demoEnv 32 5 emptyToken ctOne stHello 7 ∧
    ∃ log, demoHolder.verifyWithLog demoEnv 32 (demoToken stHello 7) ctOne stHello true
        { chs := [], xs := [] } 7 = .ok (true, log) ∧
      ∀ i, i < demoEnv.DEPTH →
        demoHolder.ch.ch demoEnv 32 (demoEnv.prf_getX 12345 ((Node.ofContext ctOne).drop i))
          (demoEnv.prf_getR 12345 ((Node.ofContext ctOne).drop i)) 5
          = .ok (log.chs.getD i []) :=
  path_level_weight demoEnv demoEnv_valid 32 12345 678 5 7 demoHolder emptyToken
    (demoToken stHello 7) ctOne stHello (by decide) (by decide) (by decide) (by decide)
    (Prod.ext rfl (by decide))

set_option maxRecDepth 100000 in
/-- Claim C18 fails as stated.  On the holder `Authenticator(12345, 678, 5)`
the call `authenticate(t, 0x01, "hello", 7)` returns; with the chameleon hash
of the path node evaluated with the level-weight `7` of the caller, as the
claim has it, the check at the end of `authenticate` fails and the
randomness of level 1 is another; with the level-weight `5` of the
construction the method returns.  At each of the 8 levels the chameleon hash
that the token reproduces is the hash of the PRF pair of the path node with
the level-weight `5`, and not the one with the level-weight `7`. -/
theorem path_level_weight_counterexample :
    demoHolder._n = 5 ∧
    (demoHolder.authenticate demoEnv 32 emptyToken ctOne stHello 7).2 = .ok () ∧
    (demoHolder.authenticateSpec demoEnv 32 7 emptyToken ctOne stHello 7).2
      = .error .assertion_failed ∧
    (demoHolder.authenticateSpec demoEnv 32 5 emptyToken ctOne stHello 7).2 = .ok () ∧
    (demoHolder.authenticate demoEnv 32 emptyToken ctOne stHello 7).1.rs 1
      ≠ (demoHolder.authenticateSpec demoEnv 32 7 emptyToken ctOne stHello 7).1.rs 1 ∧
    (demoHolderLog (demoToken stHello 7) stHello 7).length = 8 ∧
    (∀ i, i < 8 →
      demoHolder.ch.ch demoEnv 32 (demoEnv.prf_getX 12345 ((Node.ofContext ctOne).drop i))
          (demoEnv.prf_getR 12345 ((Node.ofContext ctOne).drop i)) 5
        = .ok ((demoHolderLog (demoToken stHello 7) stHello 7).getD i []) ∧
      demoHolder.ch.ch demoEnv 32 (demoEnv.prf_getX 12345 ((Node.ofContext ctOne).drop i))
          (demoEnv.prf_getR 12345 ((Node.ofContext ctOne).drop i)) 7
        ≠ .ok ((demoHolderLog (demoToken stHello 7) stHello 7).getD i [])) := by
  refine ⟨by decide, by decide, by decide, by decide, by decide, by decide, by decide⟩

/-! ## The level-weight in verifier mode -/

/-- Claim C21: on a `ChameleonHash` without a secret key, `ch(d, r, n)` does
not depend on the level-weight: for all `n` and `n'` (negative ones too) the
outcome is the same, the overflow error when `r` is not below the group order
and otherwise the serialisation of the point `pk^r * g^d`, whose exponent is
`r * pk + d` modulo the group order.  Consequently, on every verify-only
`Authenticator` (a constructed instance after any sequence of calls, its flag
not set), `verify(t, ct, st, n)` has the same outcome for every `n`. -/
theorem verifier_ignores_level_weight (E : Env) (fuel : Nat) (C : ChameleonHash) (d r : Nat)
    (n n' : Int) (A0 : Authenticator) (cs : List Call) (t : token_t) (ct st : List Nat)
    (hC : C.hasSecretKey_ = false)
    (h0 : (∃ dsk dw n0, Authenticator.fromDsk E fuel dsk dw n0 = .ok A0) ∨
      (∃ dpk dw, Authenticator.fromDpk E dpk dw = .ok A0))
    (hflag : (A0.run E fuel cs).hasSecretKey_ = false) :
    C.ch E fuel d r n = C.ch E fuel d r n' ∧
    C.ch E fuel d r n
      = (if E.q ≤ r then .error .overflow
         else serializeHash E (secp256k1_ecmult E.q C.pk (r % E.q) (d % E.q))) ∧
    secp256k1_ecmult E.q C.pk (r % E.q) (d % E.q) = (r * C.pk + d) % E.q ∧
    (A0.run E fuel cs).ch.ch E fuel d r n = (A0.run E fuel cs).ch.ch E fuel d r n' ∧
    (A0.run E fuel cs).verify E fuel t ct st n = (A0.run E fuel cs).verify E fuel t ct st n' := by
  have hA0 := constructed_flags E fuel A0 h0
  obtain ⟨hA, _⟩ := run_inv E fuel cs A0 hA0
  have hV : (A0.run E fuel cs).ch.hasSecretKey_ = false := by rw [hA, hflag]
  refine ⟨ch_verifier_indep E fuel fuel C d r n n' hC, ch_verifier E fuel C d r n hC, ?_,
    ch_verifier_indep E fuel fuel _ d r n n' hV, ?_⟩
  · unfold secp256k1_ecmult
    rw [Nat.add_mod, Nat.mul_mod, Nat.mod_mod, Nat.mod_mod, ← Nat.mul_mod, ← Nat.add_mod]
  · unfold Authenticator.verify
    rw [verifyWithLog_verifier_indep E fuel fuel _ t ct st false _ n n' hV rfl]

set_option maxRecDepth 100000 in
/-- Claim C21 on the verify-only instance built from the public key of
`Authenticator(12345, 678, 5)`, after a call of `verify` and a call of
`getDpk`, for the level-weights `5` and `9`: the token of the holder for the
state `"hello"` verifies with both. -/
theorem verifier_ignores_level_weight_witness :
    (demoChVerifier.ch demoEnv 32 11 22 5 = demoChVerifier.ch demoEnv 32 11 22 9 ∧
    demoChVerifier.ch demoEnv 32 11 22 5
      = (if demoEnv.q ≤ 22 then .error .overflow
         else serializeHash demoEnv
          (secp256k1_ecmult demoEnv.q demoChVerifier.pk (22 % demoEnv.q) (11 % demoEnv.q))) ∧
    secp256k1_ecmult demoEnv.q demoChVerifier.pk (22 % demoEnv.q) (11 % demoEnv.q)
      = (22 * demoChVerifier.pk + 11) % demoEnv.q ∧
    (demoVerifier.run demoEnv 32 demoCalls).ch.ch demoEnv 32 11 22 5
      = (demoVerifier.run demoEnv 32 demoCalls).ch.ch demoEnv 32 11 22 9 ∧
    (demoVerifier.run demoEnv 32 demoCalls).verify demoEnv 32 (demoToken stHello 5) ctOne
        stHello 5
      = (demoVerifier.run demoEnv 32 demoCalls).verify demoEnv 32 (demoToken stHello 5) ctOne
        stHello 9) ∧
    demoVerifier.verify demoEnv 32 (demoToken stHello 5) ctOne stHello 9 = .ok true ∧
    demoVerifier.verify demoEnv 32 (demoToken stHello 5) ctOne stHello (-3) = .ok true ∧
    demoChVerifier.ch demoEnv 32 11 22 5 = .ok (demoEnv.pubkey_encode (22 * 15735 + 11) true) :=
  ⟨verifier_ignores_level_weight demoEnv 32 demoChVerifier 11 22 5 9 demoVerifier demoCalls
      (demoToken stHello 5) ctOne stHello rfl (Or.inr ⟨demoDpk, 678, by decide⟩) (by decide),
    by decide, by decide, by decide⟩

/-! ## The aggregate verification -/

/-- The vector `r` of `verifys` is determined by the first randomness of the
tokens read. -/
theorem verifysRandLoop_congr (t t' : altMessage) : ∀ (k i : Nat) (r : List Nat),
    (∀ j, i ≤ j → j < i + k → (t.token j).rs 0 = (t'.token j).rs 0) →
    Authenticator.verifysRandLoop t k i r = Authenticator.verifysRandLoop t' k i r := by
  intro k
  induction k with
  | zero => intro i r _; rfl
  | succ k ih =>
    intro i r h
    unfold Authenticator.verifysRandLoop
    rw [h i (le_refl _) (by omega)]
    exact ih (i + 1) _ (fun j h1 h2 => h j (by omega) (by omega))

/-- The vector `ms` of `verifys` is determined by the digests of the messages
read. -/
theorem verifysDigestLoop_congr (E : Env) (fuel : Nat) (t t' : altMessage) :
    ∀ (k i : Nat) (ms : List Nat),
    (∀ j, i ≤ j → j < i + k →
      ChameleonHash.digest E fuel (t.ms j) = ChameleonHash.digest E fuel (t'.ms j)) →
    Authenticator.verifysDigestLoop E fuel t k i ms
      = Authenticator.verifysDigestLoop E fuel t' k i ms := by
  intro k
  induction k with
  | zero => intro i ms _; rfl
  | succ k ih =>
    intro i ms h
    unfold Authenticator.verifysDigestLoop
    rw [h i (le_refl _) (by omega)]
    cases ChameleonHash.digest E fuel (t'.ms i) with
    | error e => rfl
    | ok X => exact ih (i + 1) _ (fun j h1 h2 => h j (by omega) (by omega))

/-- Claim C22: for a fixed instance, two calls of `verifys` with the same
`cnt`, the same public keys and the same `res`, whose messages have the same
digests and whose tokens have the same first randomness at the indices below
`cnt`, have the same outcome (and leave the same instance), whatever the
contexts, the level-weights, the values of `w`, the sibling hashes of the
tokens and their randomness above level 0 are: no authentication path is
looked at.  The call leaves the instance as it is when `mergeV` assigns no
member of the chameleon hash. -/
theorem verifys_ignores_paths (E : Env) (fuel : Nat) (mergeV : MergeV) (A : Authenticator)
    (t t' : altMessage) (cnt : Int) (ct ct' : List Nat) (n n' : Nat → Int)
    (pk : List (List Nat)) (w w' : Nat) (res : List Nat)
    (hms : ∀ i, i < cnt.toNat →
      ChameleonHash.digest E fuel (t.ms i) = ChameleonHash.digest E fuel (t'.ms i))
    (hrs : ∀ i, i < cnt.toNat → (t.token i).rs 0 = (t'.token i).rs 0) :
    A.verifys E fuel mergeV t cnt ct n pk w res
      = A.verifys E fuel mergeV t' cnt ct' n' pk w' res ∧
    ((∀ ch ms r pks c, (mergeV ch ms r pks c).1 = ch) →
      (A.verifys E fuel mergeV t cnt ct n pk w res).1 = A) := by
  refine ⟨?_, ?_⟩
  · unfold Authenticator.verifys
    rw [verifysRandLoop_congr t t' cnt.toNat 0 [] (fun j _ h2 => hrs j (by omega)),
      verifysDigestLoop_congr E fuel t t' cnt.toNat 0 [] (fun j _ h2 => hms j (by omega))]
  · intro hpure
    unfold Authenticator.verifys
    cases Authenticator.verifysDigestLoop E fuel t cnt.toNat 0 [] with
    | error e => rfl
    | ok ms =>
      simp only []
      have h := hpure A.ch ms (Authenticator.verifysRandLoop t cnt.toNat 0 []) pk cnt
      cases hm : mergeV A.ch ms (Authenticator.verifysRandLoop t cnt.toNat 0 []) pk cnt with
      | mk ch out =>
        rw [hm] at h
        simp only at h
        subst h
        cases out with
        | error e => exact Authenticator.with_self A
        | ok hash => exact Authenticator.with_self A

set_option maxRecDepth 100000 in
/-- Claim C22 on the verify-only instance built from the public key of
`Authenticator(12345, 678, 5)`, with a stand-in for `mergeV`: the two messages
with the tokens of the holder, and the same messages with tokens that keep
only the first randomness, have the same outcome, `true`, for different
contexts, level-weights and values of `w`, and leave the instance as it is,
although the first of the other tokens does not verify. -/
theorem verifys_ignores_paths_witness :
    (demoVerifier.verifys demoEnv 32 standInMergeV demoAlt 2 ctOne (fun _ => 5)
        [demoDpk.chpk, demoDpk.chpk] 678 demoRes
      = demoVerifier.verifys demoEnv 32 standInMergeV demoAltForged 2 [2] (fun _ => 9)
        [demoDpk.chpk, demoDpk.chpk] 1 demoRes ∧
    ((∀ ch ms r pks c, (standInMergeV ch ms r pks c).1 = ch) →
      (demoVerifier.verifys demoEnv 32 standInMergeV demoAlt 2 ctOne (fun _ => 5)
        [demoDpk.chpk, demoDpk.chpk] 678 demoRes).1 = demoVerifier)) ∧
    demoVerifier.verifys demoEnv 32 standInMergeV demoAlt 2 ctOne (fun _ => 5)
      [demoDpk.chpk, demoDpk.chpk] 678 demoRes = (demoVerifier, .ok true) ∧
    demoVerifier.verifys demoEnv 32 standInMergeV demoAltForged 2 [2] (fun _ => 9)
      [demoDpk.chpk, demoDpk.chpk] 1 demoRes = (demoVerifier, .ok true) ∧
    demoVerifier.verify demoEnv 32 (demoAlt.token 0) ctOne stHello 5 = .ok true ∧
    demoVerifier.verify demoEnv 32 (demoAltForged.token 0) ctOne stHello 5 = .ok false :=
  ⟨verifys_ignores_paths demoEnv 32 standInMergeV demoVerifier demoAlt demoAltForged 2
      ctOne [2] (fun _ => 5) (fun _ => 9) [demoDpk.chpk, demoDpk.chpk] 678 1 demoRes
      (by decide) (by decide),
    by decide, by decide, by decide, by decide⟩

end AAFPK
